import Mathlib

/-!
Document access and lifecycle model of the e-signature backend.

A shallow embedding of `backend/models/Document.js`, `backend/models/Signature.js`,
`backend/controllers/documentController.js` and
`backend/controllers/signingController.js`.

Modelling conventions.

* A Mongo `ObjectId` is a natural number.  The source compares ids through
  `toString()`, which is injective on ObjectIds, so string equality of the
  renderings is equality of the ids.  `req.user.id` is the rendering of the
  authenticated account's id and is modelled as that id.
* JavaScript values that may be `undefined` are `Option`s; request body fields
  are strings when present.
* The store (`Db`) holds the user, document and signature collections, the
  set of existing file paths and the next fresh ObjectId.
* `document.save()` runs the schema validators of `Document.js` on every path
  of the loaded document, changed or not; a validator failure is an exception,
  which every handler turns into a 500 response without persisting the document
  (what the handler had already written, such as a created Signature, stays).
* `String.prototype.toLowerCase` belongs to the JavaScript engine, not to the
  repository: its case mapping is a parameter (`JsRuntime`) of the handlers that
  call it, and the theorems about them hold for every such mapping.
* Timestamps (`createdAt`, `sentAt`, `addedAt`, ...) are not modelled.
-/

set_option autoImplicit false

/-! ## Data model -/

/-- A Mongo ObjectId. -/
abbrev ObjectId := Nat

/-- An account of the `User` collection (only projections `_id`, `name`, `email` are read). -/
structure User where
  _id : ObjectId
  name : String
  email : String
deriving DecidableEq, Repr

/-- An entry of `documentSchema.collaborators`. -/
structure Collaborator where
  user : ObjectId
  permission : String
deriving DecidableEq, Repr

/-- The `enum` of `collaborators.permission` in `documentSchema`. -/
def permissionEnum : List String := ["view", "sign", "edit"]

/-- The `enum` of `status` in `documentSchema`. -/
def statusEnum : List String := ["draft", "pending", "pending_signature", "signed", "completed"]

/-- A record of the `Document` collection (`documentSchema`). -/
structure Document where
  _id : ObjectId
  title : String
  description : String
  filename : String
  originalName : String
  filePath : String
  fileSize : Nat
  mimeType : String
  owner : ObjectId
  signerName : Option String
  signerEmail : Option String
  signerUser : Option ObjectId
  collaborators : List Collaborator
  status : String
  signatures : List ObjectId
deriving DecidableEq, Repr

/-- The `position` sub-object of `signatureSchema`; carried unchanged, never computed with. -/
structure Position where
  x : Int
  y : Int
  page : Int
  width : Int
  height : Int
deriving DecidableEq, Repr

/-- A record of the `Signature` collection (`signatureSchema`). -/
structure Signature where
  _id : ObjectId
  document : ObjectId
  signer : ObjectId
  signatureData : String
  position : Option Position
  ipAddress : Option String
  userAgent : Option String
  isValid : Bool
deriving DecidableEq, Repr

/-- The persistent state the handlers run against. -/
structure Db where
  users : List User
  documents : List Document
  signatures : List Signature
  files : List String
  nextId : ObjectId
deriving DecidableEq, Repr

/-- An error response: HTTP status and, where the source fixes it, the message. -/
structure HttpError where
  status : Nat
  message : Option String
deriving DecidableEq, Repr

/-! ## JavaScript helpers -/

/-- JavaScript truthiness of a value that is `undefined`/`null` or a string. -/
def truthy : Option String → Bool
  | none => false
  | some s => s != ""

/-- The expression `a || b` for a possibly missing string `a` and a string `b`. -/
def orElseStr (a : Option String) (b : String) : String :=
  match a with
  | some s => if s != "" then s else b
  | none => b

/-- ECMAScript `WhiteSpace` and `LineTerminator` code points, as stripped by `String.prototype.trim`. -/
def jsIsWhiteSpace (c : Char) : Bool :=
  [0x9, 0xA, 0xB, 0xC, 0xD, 0x20, 0xA0, 0x1680, 0x2028, 0x2029, 0x202F, 0x205F, 0x3000, 0xFEFF].contains c.toNat
    || (0x2000 ≤ c.toNat && c.toNat ≤ 0x200A)

/-- The method `String.prototype.trim`. -/
def jsTrim (s : String) : String :=
  String.mk ((s.data.dropWhile jsIsWhiteSpace).reverse.dropWhile jsIsWhiteSpace).reverse

/-- The part of the JavaScript runtime that the handlers call and the repository does not
define: the case mapping behind `String.prototype.toLowerCase`, which the engine takes from
the Unicode tables.  It is a parameter of the model; nothing is assumed about it. -/
class JsRuntime where
  toLowerCase : String → String

/-- The method `String.prototype.toLowerCase`. -/
def jsToLowerCase [JsRuntime] (s : String) : String :=
  JsRuntime.toLowerCase s

/-! ## `models/Document.js` -/

/-- The method `documentSchema.methods.getUserRole`: `null` is `none`. -/
def Document.getUserRole (this : Document) (userId : ObjectId) : Option String :=
  if this.owner == userId then
    some "owner"
  else if this.signerUser.isSome && this.signerUser == some userId then
    some "signer"
  else
    match this.collaborators.find? (fun collab => collab.user == userId) with
    | some collaborator => some collaborator.permission
    | none => none

/-! ## The store (Mongoose model operations) -/

/-- The query `Document.findById(id)`. -/
def Db.findById (db : Db) (id : ObjectId) : Option Document :=
  db.documents.find? (fun d => d._id == id)

/-- Modelled from the spec: the Identity Directory `resolve(email)`, which the handlers reach
through `User.findOne` on the `email` field.  `models/User.js` is not among the sources; the
lookup is equality with the stored address of the account. -/
def Db.findUserByEmail (db : Db) (email : String) : Option User :=
  db.users.find? (fun u => u.email == email)

/-- The value `populate` puts in place of a `User` reference: the referenced account,
or `null` when the reference does not resolve. -/
def Db.populate (db : Db) (ref : ObjectId) : Option User :=
  db.users.find? (fun u => u._id == ref)

/-- Save-time validation of `documentSchema`.  `save()` validates every path of the loaded
document, whether the handler assigned it or not: the `required` string paths must be
non-empty, `status` and the permission of every collaborator entry must belong to their
`enum` (`fileSize` and `owner`, also `required`, are always present in a `Document`). -/
def Document.validate (doc : Document) : Bool :=
  doc.title != "" && doc.filename != "" && doc.originalName != "" && doc.filePath != ""
    && doc.mimeType != "" && statusEnum.contains doc.status
    && doc.collaborators.all (fun c => permissionEnum.contains c.permission)

/-- The write of `document.save()`: the record with the id of `doc` is replaced by `doc`. -/
def Db.replaceDocument (db : Db) (doc : Document) : Db :=
  { db with documents := db.documents.map (fun d => if d._id == doc._id then doc else d) }

/-- The call `document.save()`: `none` when validation throws. -/
def Db.save (db : Db) (doc : Document) : Option Db :=
  if doc.validate then some (db.replaceDocument doc) else none

/-- The response of a `catch` block: status 500 with the message of the exception. -/
def serverError : HttpError := ⟨500, none⟩

/-! ## `getUserRole` on a loaded document -/

/-- The value of a `User` reference path of a loaded document: the stored ObjectId, or, once
the path has been populated, the account document (`null`, here `none`, when the reference
does not resolve). -/
inductive UserRef where
  | id (ref : ObjectId)
  | populated (account : Option User)
deriving DecidableEq, Repr

/-- The comparison `ref.toString() === userId.toString()`.  The rendering of an ObjectId is
its hex string, so the comparison is equality of ids; the rendering of a populated account is
Mongoose's inspection text of the document, which is never the hex string of an id; calling
`toString` on `null` throws (`none`). -/
def UserRef.toStringEq : UserRef → ObjectId → Option Bool
  | .id ref, userId => some (ref == userId)
  | .populated (some _), _ => some false
  | .populated none, _ => none

/-- JavaScript truthiness of a reference path that may be unset. -/
def UserRef.truthy : Option UserRef → Bool
  | none => false
  | some (.populated none) => false
  | some _ => true

/-- The paths of a loaded document that `getUserRole` reads. -/
structure LoadedRefs where
  owner : UserRef
  signerUser : Option UserRef
  collaborators : List (UserRef × String)
deriving DecidableEq, Repr

/-- The search `this.collaborators.find(collab => collab.user.toString() === userId.toString())`
on loaded collaborator entries: the permission of the first match, `none` inside when there
is no match, an exception when an entry's user is `null`. -/
def LoadedRefs.findCollaborator (userId : ObjectId) :
    List (UserRef × String) → Except HttpError (Option String)
  | [] => .ok none
  | collab :: rest =>
    match collab.1.toStringEq userId with
    | none => .error serverError
    | some true => .ok (some collab.2)
    | some false => LoadedRefs.findCollaborator userId rest

/-- The method `documentSchema.methods.getUserRole` on a loaded document whose reference
paths may have been populated. -/
def LoadedRefs.getUserRole (this : LoadedRefs) (userId : ObjectId) :
    Except HttpError (Option String) :=
  match this.owner.toStringEq userId with
  | none => .error serverError
  | some true => .ok (some "owner")
  | some false =>
    if UserRef.truthy this.signerUser
        && (this.signerUser.bind (fun r => r.toStringEq userId)) == some true then
      .ok (some "signer")
    else
      LoadedRefs.findCollaborator userId this.collaborators

/-- The reference paths of a document as stored (nothing populated). -/
def Document.storedRefs (doc : Document) : LoadedRefs :=
  { owner := .id doc.owner, signerUser := doc.signerUser.map UserRef.id,
    collaborators := doc.collaborators.map (fun c => (UserRef.id c.user, c.permission)) }

/-- The reference paths of a document after `populate('owner')`, `populate('signerUser')`
and `populate('collaborators.user')`. -/
def Db.populatedRefs (db : Db) (doc : Document) : LoadedRefs :=
  { owner := .populated (db.populate doc.owner),
    signerUser := doc.signerUser.map (fun s => UserRef.populated (db.populate s)),
    collaborators := doc.collaborators.map
      (fun c => (UserRef.populated (db.populate c.user), c.permission)) }

/-! ## `controllers/documentController.js` -/

namespace documentController

/-- The test `collaborators.some(collab => collab.user._id.toString() === req.user.id)` of
`getDocument`, over populated collaborators: reading `_id` of an unresolved (`null`)
account throws. -/
def someCollaboratorPopulated (db : Db) (reqUserId : ObjectId) : List Collaborator → Except HttpError Bool
  | [] => .ok false
  | collab :: rest =>
    match db.populate collab.user with
    | none => .error serverError
    | some u => if u._id == reqUserId then .ok true else someCollaboratorPopulated db reqUserId rest

/-- The `signerUser` disjunct of the access checks, over the populated signer. -/
def signerMatches (db : Db) (document : Document) (reqUserId : ObjectId) : Bool :=
  match document.signerUser.bind db.populate with
  | none => false
  | some u => u._id == reqUserId

/-- The `hasAccess` expression of `getDocument` (owner, collaborators and signer populated). -/
def getDocumentHasAccess (db : Db) (document : Document) (reqUserId : ObjectId) : Except HttpError Bool :=
  match db.populate document.owner with
  | none => .error serverError
  | some o =>
    if o._id == reqUserId then .ok true
    else
      match someCollaboratorPopulated db reqUserId document.collaborators with
      | .error e => .error e
      | .ok true => .ok true
      | .ok false => .ok (signerMatches db document reqUserId)

/-- The handler `getDocument`: on success the document and the `userRole` of the response
body, which the handler computes by `document.getUserRole(req.user.id)` on the populated
document (the populated paths of the body itself are not modelled). -/
def getDocument (db : Db) (reqUserId : ObjectId) (id : ObjectId) :
    Except HttpError (Document × Option String) :=
  match db.findById id with
  | none => .error ⟨404, some "Document not found"⟩
  | some document =>
    match getDocumentHasAccess db document reqUserId with
    | .error e => .error e
    | .ok false => .error ⟨403, some "Access denied"⟩
    | .ok true =>
      match (db.populatedRefs document).getUserRole reqUserId with
      | .error e => .error e
      | .ok userRole => .ok (document, userRole)

/-- The `hasAccess` expression of `downloadDocument` (owner and signer populated,
collaborators left as references). -/
def downloadDocumentHasAccess (db : Db) (document : Document) (reqUserId : ObjectId) : Except HttpError Bool :=
  match db.populate document.owner with
  | none => .error serverError
  | some o =>
    .ok (o._id == reqUserId
      || document.collaborators.any (fun collab => collab.user == reqUserId)
      || signerMatches db document reqUserId)

/-- The handler `downloadDocument`: on success the path of the file that is streamed. -/
def downloadDocument (db : Db) (reqUserId : ObjectId) (id : ObjectId) : Except HttpError String :=
  match db.findById id with
  | none => .error ⟨404, some "Document not found"⟩
  | some document =>
    match downloadDocumentHasAccess db document reqUserId with
    | .error e => .error e
    | .ok false => .error ⟨403, some "Not authorized to download this document"⟩
    | .ok true =>
      if db.files.contains document.filePath then .ok document.filePath
      else .error ⟨404, some "File not found on server"⟩

/-- The fields `updateDocument` reads from `req.body`. -/
structure UpdateBody where
  title : Option String
  description : Option String
  status : Option String
deriving DecidableEq, Repr

/-- The assignments of `updateDocument` after the permission check (`title` and
`description` pass through the `trim` setter of the schema). -/
def applyUpdate (document : Document) (userRole : Option String) (body : UpdateBody) : Document :=
  let d1 := match body.title with
    | some t => { document with title := jsTrim t }
    | none => document
  let d2 := match body.description with
    | some t => { d1 with description := jsTrim t }
    | none => d1
  match body.status with
  | some s => if userRole == some "owner" then { d2 with status := s } else d2
  | none => d2

/-- The handler `updateDocument`: the resulting store and the response. -/
def updateDocument (db : Db) (reqUserId : ObjectId) (id : ObjectId) (body : UpdateBody) :
    Db × Except HttpError Document :=
  match db.findById id with
  | none => (db, .error ⟨404, some "Document not found"⟩)
  | some document =>
    let userRole := document.getUserRole reqUserId
    if !truthy userRole || (userRole != some "owner" && userRole != some "edit") then
      (db, .error ⟨403, some "Insufficient permissions to update document"⟩)
    else
      let updated := applyUpdate document userRole body
      match db.save updated with
      | none => (db, .error serverError)
      | some db1 => (db1, .ok updated)

/-- The fields `addCollaborator` reads from `req.body`. -/
structure CollaboratorBody where
  email : String
  permission : Option String
deriving DecidableEq, Repr

/-- The handler `addCollaborator`: the resulting store and the response. -/
def addCollaborator (db : Db) (reqUserId : ObjectId) (id : ObjectId) (body : CollaboratorBody) :
    Db × Except HttpError Document :=
  match db.findById id with
  | none => (db, .error ⟨404, some "Document not found"⟩)
  | some document =>
    if document.owner != reqUserId then
      (db, .error ⟨403, some "Only owner can add collaborators"⟩)
    else
      match db.findUserByEmail body.email with
      | none => (db, .error ⟨404, some "User not found"⟩)
      | some user =>
        if user._id == reqUserId then
          (db, .error ⟨400, some "Cannot add yourself as collaborator"⟩)
        else
          match document.collaborators.find? (fun collab => collab.user == user._id) with
          | some _ => (db, .error ⟨400, some "User is already a collaborator"⟩)
          | none =>
            let updated := { document with
              collaborators := document.collaborators ++ [⟨user._id, orElseStr body.permission "view"⟩] }
            match db.save updated with
            | none => (db, .error serverError)
            | some db1 => (db1, .ok updated)

/-- The fields `shareDocument` reads from `req.body`; `emails` is `none` when it is missing
or not an array. -/
structure ShareBody where
  emails : Option (List String)
  permission : Option String
deriving DecidableEq, Repr

/-- An entry (email and name) of the `added` and `existing` buckets. -/
structure ShareEntry where
  email : String
  name : String
deriving DecidableEq, Repr

/-- The `results` object of `shareDocument`. -/
structure ShareResults where
  added : List ShareEntry
  existing : List ShareEntry
  notFound : List String
deriving DecidableEq, Repr

/-- One iteration of the `for (const email of emails)` loop of `shareDocument`, on the
in-memory collaborator list and the result buckets. -/
def shareStep [JsRuntime] (db : Db) (reqUserId : ObjectId) (permission : Option String)
    (acc : List Collaborator × ShareResults) (email : String) : List Collaborator × ShareResults :=
  match db.findUserByEmail (jsTrim (jsToLowerCase email)) with
  | none => (acc.1, { acc.2 with notFound := acc.2.notFound ++ [email] })
  | some user =>
    if user._id == reqUserId then acc
    else
      match acc.1.find? (fun collab => collab.user == user._id) with
      | some _ => (acc.1, { acc.2 with existing := acc.2.existing ++ [⟨email, user.name⟩] })
      | none =>
        (acc.1 ++ [⟨user._id, orElseStr permission "view"⟩],
          { acc.2 with added := acc.2.added ++ [⟨email, user.name⟩] })

/-- The whole loop of `shareDocument`. -/
def shareLoop [JsRuntime] (db : Db) (reqUserId : ObjectId) (permission : Option String)
    (collaborators : List Collaborator) (emails : List String) : List Collaborator × ShareResults :=
  emails.foldl (shareStep db reqUserId permission) (collaborators, ⟨[], [], []⟩)

/-- The handler `shareDocument`: the resulting store and the response (document and buckets). -/
def shareDocument [JsRuntime] (db : Db) (reqUserId : ObjectId) (id : ObjectId) (body : ShareBody) :
    Db × Except HttpError (Document × ShareResults) :=
  match db.findById id with
  | none => (db, .error ⟨404, some "Document not found"⟩)
  | some document =>
    if document.owner != reqUserId then
      (db, .error ⟨403, some "Only owner can share documents"⟩)
    else
      match body.emails with
      | none => (db, .error ⟨400, some "Email addresses are required"⟩)
      | some [] => (db, .error ⟨400, some "Email addresses are required"⟩)
      | some emails =>
        let r := shareLoop db reqUserId body.permission document.collaborators emails
        let updated := { document with collaborators := r.1 }
        if r.2.added.length > 0 then
          match db.save updated with
          | none => (db, .error serverError)
          | some db1 => (db1, .ok (updated, r.2))
        else
          (db, .ok (updated, r.2))

/-- The file object `req.file` that the upload middleware attaches. -/
structure UploadFile where
  filename : String
  originalname : String
  path : String
  size : Nat
  mimetype : String
deriving DecidableEq, Repr

/-- The fields `uploadDocument` reads from `req.body`. -/
structure UploadBody where
  title : Option String
  description : Option String
  signerName : Option String
  signerEmail : Option String
deriving DecidableEq, Repr

/-- The character class `[^\s@]` of `emailRegex`. -/
def emailClass (c : Char) : Bool :=
  !jsIsWhiteSpace c && c != '@'

/-- The test `emailRegex.test(s)` for `/^[^\s@]+@[^\s@]+\.[^\s@]+$/`: an `@` at some
position `i` and a `.` at some later position `j` cut the string into three non-empty runs
of the class `[^\s@]`. -/
def emailRegexTest (s : String) : Bool :=
  (List.range s.data.length).any (fun i =>
    (List.range s.data.length).any (fun j =>
      s.data.get? i == some '@' && s.data.get? j == some '.' &&
      0 < i && i + 1 < j && j + 1 < s.data.length &&
      (s.data.take i).all emailClass &&
      ((s.data.take j).drop (i + 1)).all emailClass &&
      (s.data.drop (j + 1)).all emailClass))

/-- The call `Document.create(...)` of `uploadDocument`: the string setters of the schema
(`trim`, `lowercase`) are applied, the `required` paths must be non-empty, the defaults fill
`collaborators` and `signatures`, and the record is stored under a fresh id. -/
def createDocument [JsRuntime] (db : Db) (owner : ObjectId) (file : UploadFile) (title description : String)
    (signerName signerEmail : String) (signerUser : ObjectId) : Option (Db × Document) :=
  let document : Document :=
    { _id := db.nextId, title := jsTrim title, description := jsTrim description,
      filename := file.filename, originalName := file.originalname, filePath := file.path,
      fileSize := file.size, mimeType := file.mimetype, owner := owner,
      signerName := some (jsTrim signerName),
      signerEmail := some (jsToLowerCase (jsTrim signerEmail)),
      signerUser := some signerUser, collaborators := [], status := "pending_signature",
      signatures := [] }
  if document.title != "" && document.filename != "" && document.originalName != ""
      && document.filePath != "" && document.mimeType != "" then
    some ({ db with documents := db.documents ++ [document], nextId := db.nextId + 1 }, document)
  else none

/-- The handler `uploadDocument`: the resulting store and the response. -/
def uploadDocument [JsRuntime] (db : Db) (reqUserId : ObjectId) (reqFile : Option UploadFile)
    (body : UploadBody) : Db × Except HttpError Document :=
  match reqFile with
  | none => (db, .error ⟨400, some "No file uploaded"⟩)
  | some file =>
    if !truthy body.signerName || !truthy body.signerEmail then
      (db, .error ⟨400, some "Signer name and email are required"⟩)
    else
      let signerName := body.signerName.getD ""
      let signerEmail := body.signerEmail.getD ""
      if !emailRegexTest signerEmail then
        (db, .error ⟨400, some "Invalid signer email format"⟩)
      else
        match db.findUserByEmail signerEmail with
        | none =>
          (db, .error ⟨404, some "Signer email not found. The signer must be registered in the app."⟩)
        | some signerUser =>
          match createDocument db reqUserId file (orElseStr body.title file.originalname)
              (orElseStr body.description "") signerName signerEmail signerUser._id with
          | none => (db, .error serverError)
          | some (db1, document) => (db1, .ok document)

/-- The handler `deleteDocument`: the resulting store and the response. -/
def deleteDocument (db : Db) (reqUserId : ObjectId) (id : ObjectId) :
    Db × Except HttpError Unit :=
  match db.findById id with
  | none => (db, .error ⟨404, some "Document not found"⟩)
  | some document =>
    if document.owner != reqUserId then
      (db, .error ⟨403, some "Access denied"⟩)
    else
      let files :=
        if db.files.contains document.filePath then
          db.files.filter (fun f => f != document.filePath)
        else db.files
      ({ db with files := files, documents := db.documents.eraseP (fun d => d._id == id) },
        .ok ())

/-- An element of the `transformedDocuments` of `getDocumentsForSigning` (dates left out). -/
structure SigningEntry where
  _id : ObjectId
  title : String
  filename : String
  senderName : String
  senderEmail : String
  status : String
deriving DecidableEq, Repr

/-- The `documents.map(doc => ...)` of `getDocumentsForSigning` over documents whose owner
was populated: reading `doc.owner.name` of an unresolved (`null`) owner throws. -/
def toSigningEntries (db : Db) : List Document → Except HttpError (List SigningEntry)
  | [] => .ok []
  | doc :: rest =>
    match db.populate doc.owner with
    | none => .error serverError
    | some owner =>
      match toSigningEntries db rest with
      | .error e => .error e
      | .ok entries =>
        .ok ({ _id := doc._id, title := doc.title, filename := doc.filename,
               senderName := owner.name, senderEmail := owner.email,
               status := if doc.status == "pending_signature" then "pending" else doc.status }
             :: entries)

/-- The handler `getDocumentsForSigning` of the document controller (the order given by
`sort` on `sentAt` is not modelled: documents come in store order). -/
def getDocumentsForSigning (db : Db) (reqUserId : ObjectId) :
    Db × Except HttpError (List SigningEntry) :=
  let documents := db.documents.filter
    (fun d => d.signerUser == some reqUserId && d.owner != reqUserId)
  (db, toSigningEntries db documents)

/-- The `documents.map(doc => ...)` of `getSharedDocuments`: each document with the
`userRole` that `getUserRole` computes on the populated document. -/
def withUserRole (db : Db) (reqUserId : ObjectId) :
    List Document → Except HttpError (List (Document × Option String))
  | [] => .ok []
  | doc :: rest =>
    match (db.populatedRefs doc).getUserRole reqUserId with
    | .error e => .error e
    | .ok userRole =>
      match withUserRole db reqUserId rest with
      | .error e => .error e
      | .ok l => .ok ((doc, userRole) :: l)

/-- The handler `getSharedDocuments` (the order given by `sort` on `createdAt` is not
modelled: documents come in store order). -/
def getSharedDocuments (db : Db) (reqUserId : ObjectId) :
    Db × Except HttpError (List (Document × Option String)) :=
  let documents := db.documents.filter
    (fun d => (d.collaborators.any (fun c => c.user == reqUserId)
        || d.signerUser == some reqUserId) && d.owner != reqUserId)
  (db, withUserRole db reqUserId documents)

end documentController

/-! ## `controllers/signingController.js` -/

namespace signingController

/-- The fields `addSignature` reads from `req.body`. -/
structure SignBody where
  documentId : ObjectId
  signatureData : Option String
  position : Option Position
deriving DecidableEq, Repr

/-- The `hasSigningAccess` expression of `addSignature`. -/
def hasSigningAccess (document : Document) (reqUserId : ObjectId) : Bool :=
  document.owner == reqUserId ||
    document.collaborators.any (fun collab =>
      collab.user == reqUserId && ["sign", "edit"].contains collab.permission)

/-- The call `Signature.create(...)`: `signatureData` is `required`, so a missing or empty
value throws; otherwise the record is stored under a fresh id. -/
def createSignature (db : Db) (documentId signer : ObjectId) (signatureData : Option String)
    (position : Option Position) (ipAddress userAgent : Option String) : Option (Db × Signature) :=
  match signatureData with
  | none => none
  | some data =>
    if data == "" then none
    else
      let signature : Signature :=
        ⟨db.nextId, documentId, signer, data, position, ipAddress, userAgent, true⟩
      some ({ db with signatures := db.signatures ++ [signature], nextId := db.nextId + 1 }, signature)

/-- The handler `addSignature`: the resulting store and the response. -/
def addSignature (db : Db) (reqUserId : ObjectId) (body : SignBody)
    (ip userAgent : Option String) : Db × Except HttpError Signature :=
  match db.findById body.documentId with
  | none => (db, .error ⟨404, some "Document not found"⟩)
  | some document =>
    if !hasSigningAccess document reqUserId then
      (db, .error ⟨403, some "No signing permission"⟩)
    else
      match createSignature db body.documentId reqUserId body.signatureData body.position ip userAgent with
      | none => (db, .error serverError)
      | some (db1, signature) =>
        let updated := { document with
          signatures := document.signatures ++ [signature._id], status := "signed" }
        match db1.save updated with
        | none => (db1, .error serverError)
        | some db2 => (db2, .ok signature)

/-- The `signatures` path after `populate('signatures', 'signer createdAt')`: the Signature
records the references resolve to. -/
def populateSignatures (db : Db) (document : Document) : List Signature :=
  document.signatures.filterMap (fun sid => db.signatures.find? (fun sig => sig._id == sid))

/-- The handler `getDocumentsForSigning` of the signing controller (the order given by
`sort` on `createdAt` is not modelled: documents come in store order). -/
def getDocumentsForSigning (db : Db) (userId : ObjectId) :
    Db × Except HttpError (List Document) :=
  let documents := db.documents.filter (fun d =>
    (d.owner == userId ||
      d.collaborators.any (fun c => c.user == userId && ["sign", "edit"].contains c.permission))
    && ["pending", "review", "uploaded"].contains d.status)
  let documentsNeedingSigning := documents.filter (fun doc =>
    !(populateSignatures db doc).any (fun sig => sig.signer == userId))
  (db, .ok documentsNeedingSigning)

end signingController

/-! ## Specification-side notions -/

/-- The contract `hasAccess(doc, caller)`: the role is not none. -/
def hasAccess (doc : Document) (caller : ObjectId) : Bool :=
  (doc.getUserRole caller).isSome

/-- The stored status of the document with the given id, if there is one. -/
def Db.statusOf (db : Db) (id : ObjectId) : Option String :=
  (db.findById id).map (fun d => d.status)

/-- The position of a status in the order draft < pending_signature < signed < completed
(`pending`, the synonym of awaiting signature, ranks with `pending_signature`). -/
def statusRank (s : String) : Nat :=
  if s == "completed" then 3
  else if s == "signed" then 2
  else if s == "pending_signature" || s == "pending" then 1
  else 0

/-- The account an email of a `shareDocument` request resolves to: the lookup is made with
the lower-cased, trimmed address. -/
def shareResolve [JsRuntime] (db : Db) (email : String) : Option User :=
  db.findUserByEmail (jsTrim (jsToLowerCase email))

/-- The buckets of bulk sharing, worded as a specification.  The emails are taken in input
order with `present` the account ids in the collaborator list so far: an email that resolves
to no account goes to `notFound`; one that resolves to the owner goes to no bucket; one that
resolves to a non-owner account already present goes to `existing`; one that resolves to a
non-owner account not yet present goes to `added` and the account becomes present. -/
def shareBucketsSpec (resolve : String → Option User) (owner : ObjectId) :
    List ObjectId → List String → documentController.ShareResults
  | _, [] => ⟨[], [], []⟩
  | present, e :: es =>
    match resolve e with
    | none =>
      let r := shareBucketsSpec resolve owner present es
      { r with notFound := e :: r.notFound }
    | some a =>
      if a._id == owner then shareBucketsSpec resolve owner present es
      else if present.contains a._id then
        let r := shareBucketsSpec resolve owner present es
        { r with existing := ⟨e, a.name⟩ :: r.existing }
      else
        let r := shareBucketsSpec resolve owner (present ++ [a._id]) es
        { r with added := ⟨e, a.name⟩ :: r.added }

/-- A collaborator entry is the one bulk sharing creates for a reported `added` element:
it names the account the element's email resolves to (under the element's name) with the
requested permission, `view` when unspecified. -/
def newEntryMatches [JsRuntime] (db : Db) (permission : Option String) (c : Collaborator)
    (e : documentController.ShareEntry) : Bool :=
  c.permission == orElseStr permission "view" &&
    match shareResolve db e.email with
    | some u => u._id == c.user && u.name == e.name
    | none => false

/-- The part of an address after its first `@`. -/
def emailDomain (s : String) : List Char :=
  (s.data.dropWhile (fun c => c != '@')).drop 1

/-- The signer-email format as the specification words it: no whitespace, exactly one `@`,
a non-empty part before the `@`, and in the part after the `@` a `.` that is neither its
first nor its last character. -/
def emailFormatSpec (s : String) : Bool :=
  s.data.all (fun c => !jsIsWhiteSpace c) &&
  s.data.count '@' == 1 &&
  (s.data.takeWhile (fun c => c != '@')).length > 0 &&
  ((emailDomain s).drop 1).dropLast.contains '.'

/-- The shape a string matching `[^\s@]+@[^\s@]+\.[^\s@]+` has: three non-empty runs of
the class `[^\s@]`, the first two separated by `@` and the last two by `.`. -/
def emailSplit (cs : List Char) : Prop :=
  ∃ a b c : List Char, cs = a ++ '@' :: (b ++ '.' :: c) ∧ a ≠ [] ∧ b ≠ [] ∧ c ≠ [] ∧
    a.all documentController.emailClass = true ∧ b.all documentController.emailClass = true ∧
    c.all documentController.emailClass = true

/-! ## Example states -/

/-- The runtime of the examples.  Their strings are ASCII, on which `toLowerCase` maps the
letters `A` to `Z` to `a` to `z` and leaves every other character alone. -/
instance exampleRuntime : JsRuntime where
  toLowerCase s := String.mk (s.data.map Char.toLower)

/-- A document owned by account 1 with the given signer, collaborators and status. -/
def exampleDoc (signer : Option ObjectId) (collaborators : List Collaborator) (status : String) :
    Document :=
  { _id := 10, title := "Contract", description := "", filename := "f.pdf",
    originalName := "contract.pdf", filePath := "uploads/f.pdf", fileSize := 1024,
    mimeType := "application/pdf", owner := 1, signerName := signer.map (fun _ => "Sam"),
    signerEmail := signer.map (fun _ => "sam@x.com"), signerUser := signer,
    collaborators := collaborators, status := status, signatures := [] }

/-- Accounts 1 (the owner of `exampleDoc`), 2, 3 and 4. -/
def exampleUsers : List User :=
  [⟨1, "Olga", "olga@x.com"⟩, ⟨2, "Sam", "sam@x.com"⟩, ⟨3, "Carl", "carl@x.com"⟩,
   ⟨4, "Vera", "vera@x.com"⟩]

/-- A store holding `exampleUsers` and the single given document, whose file exists. -/
def exampleDb (doc : Document) : Db :=
  { users := exampleUsers, documents := [doc], signatures := [], files := [doc.filePath],
    nextId := 100 }

/-- A file as the upload middleware delivers it. -/
def exampleFile : documentController.UploadFile :=
  { filename := "1700000000-contract.pdf", originalname := "contract.pdf",
    path := "uploads/1700000000-contract.pdf", size := 2048, mimetype := "application/pdf" }

/-- An upload form naming a signer by name and address. -/
def exampleUpload (signerName signerEmail : Option String) : documentController.UploadBody :=
  { title := some "Contract", description := none, signerName := signerName,
    signerEmail := signerEmail }

/-- A store with `exampleUsers` and no document yet. -/
def emptyDb : Db :=
  { users := exampleUsers, documents := [], signatures := [], files := [], nextId := 100 }

/-- The document that the upload of `exampleFile` by `owner` for the signer `sam@x.com`
(account 2) creates in `emptyDb`. -/
def exampleUploaded (owner : ObjectId) : Document :=
  { _id := 100, title := "Contract", description := "",
    filename := "1700000000-contract.pdf", originalName := "contract.pdf",
    filePath := "uploads/1700000000-contract.pdf", fileSize := 2048,
    mimeType := "application/pdf", owner := owner, signerName := some "Sam",
    signerEmail := some "sam@x.com", signerUser := some 2, collaborators := [],
    status := "pending_signature", signatures := [] }

/-- A draft of account 1 with signer 2 and the `edit` collaborator 3. -/
def sharedDoc : Document := exampleDoc (some 2) [⟨3, "edit"⟩] "draft"

/-- The store holding `sharedDoc`. -/
def sharedDb : Db := exampleDb sharedDoc

/-- The request by which the owner invites `vera@x.com` without naming a permission. -/
def veraInvite : documentController.CollaboratorBody := ⟨"vera@x.com", none⟩

/-- The batch of the specification's example on `sharedDb`: `vera@x.com` resolves to a new
account, `bad@x.com` resolves to nobody, `carl@x.com` is already a collaborator. -/
def goodBadDup : List String := ["vera@x.com", "bad@x.com", "carl@x.com"]

/-- A document of account 1 assigned to the signer 3, who is also a `sign` collaborator. -/
def signerCollabDoc : Document := exampleDoc (some 3) [⟨3, "sign"⟩] "pending_signature"

/-- The signature request of the examples. -/
def exampleSign : signingController.SignBody := ⟨10, some "data:image/png;base64,AAAA", none⟩

/-! ## Theorems -/

/-- On stored references (no path populated) `getUserRole` follows the first-match
precedence owner, then designated signer, then the permission of the first collaborator entry
of the caller, then `null`. -/
theorem getUserRole_precedence (doc : Document) (caller : ObjectId) :
    (doc.owner = caller → doc.getUserRole caller = some "owner") ∧
    (doc.owner ≠ caller → doc.signerUser = some caller →
      doc.getUserRole caller = some "signer") ∧
    (doc.owner ≠ caller → doc.signerUser ≠ some caller →
      ∀ c, doc.collaborators.find? (fun collab => collab.user == caller) = some c →
        doc.getUserRole caller = some c.permission) ∧
    (doc.owner ≠ caller → doc.signerUser ≠ some caller →
      doc.collaborators.find? (fun collab => collab.user == caller) = none →
        doc.getUserRole caller = none) := by
  refine ⟨?_, ?_, ?_, ?_⟩
  · intro h
    simp [Document.getUserRole, h]
  · intro h hs
    simp [Document.getUserRole, h, hs]
  · intro h hs c hc
    simp [Document.getUserRole, h, hs, hc]
  · intro h hs hc
    simp [Document.getUserRole, h, hs, hc]

/-- C1 (the code at the failing input): a stored document with owner 1, signer 2 and the
`view` collaborator 3, all three registered.  On the stored references `getUserRole` gives
`owner`, `signer` and `view`; on the populated document that `getDocument` calls it on, the
owner, signer and collaborator paths hold account documents whose rendering is never an id,
so the method returns `null` for each of them, and `getDocument` answers the owner with
`userRole` null. -/
theorem C1_getUserRole_populated_owner :
    (exampleDoc (some 2) [⟨3, "view"⟩] "draft").getUserRole 1 = some "owner" ∧
    (exampleDoc (some 2) [⟨3, "view"⟩] "draft").getUserRole 2 = some "signer" ∧
    (exampleDoc (some 2) [⟨3, "view"⟩] "draft").getUserRole 3 = some "view" ∧
    ((exampleDb (exampleDoc (some 2) [⟨3, "view"⟩] "draft")).populatedRefs
        (exampleDoc (some 2) [⟨3, "view"⟩] "draft")).getUserRole 1 = .ok none ∧
    ((exampleDb (exampleDoc (some 2) [⟨3, "view"⟩] "draft")).populatedRefs
        (exampleDoc (some 2) [⟨3, "view"⟩] "draft")).getUserRole 2 = .ok none ∧
    ((exampleDb (exampleDoc (some 2) [⟨3, "view"⟩] "draft")).populatedRefs
        (exampleDoc (some 2) [⟨3, "view"⟩] "draft")).getUserRole 3 = .ok none ∧
    documentController.getDocument (exampleDb (exampleDoc (some 2) [⟨3, "view"⟩] "draft")) 1 10
      = .ok (exampleDoc (some 2) [⟨3, "view"⟩] "draft", none) := by
  refine ⟨by rfl, by rfl, by rfl, by rfl, by rfl, by rfl, by rfl⟩

/-! ### Role resolution -/

/-- C2 (counterexample): a collaborator holding the schema permission `sign` gets the role
`sign`, which is none of owner, signer, view, edit, null. -/
theorem C2_counterexample :
    (∀ c ∈ (exampleDoc none [⟨3, "sign"⟩] "draft").collaborators, c.permission ∈ permissionEnum) ∧
    (exampleDoc none [⟨3, "sign"⟩] "draft").getUserRole 3 = some "sign" ∧
    (exampleDoc none [⟨3, "sign"⟩] "draft").getUserRole 3 ∉
      [some "owner", some "signer", some "view", some "edit", none] := by
  refine ⟨?_, ?_, ?_⟩
  · intro c hc
    simp [exampleDoc] at hc
    subst hc
    simp [permissionEnum]
  · simp [Document.getUserRole, exampleDoc]
  · simp [Document.getUserRole, exampleDoc]

/-- C2 (amended): when every collaborator permission is drawn from the schema enum,
`getUserRole` is one of owner, signer, view, sign, edit, or null. -/
theorem C2_getUserRole_range (doc : Document) (caller : ObjectId)
    (henum : ∀ c ∈ doc.collaborators, c.permission ∈ permissionEnum) :
    doc.getUserRole caller ∈
      [some "owner", some "signer", some "view", some "sign", some "edit", none] := by
  unfold Document.getUserRole
  split
  · simp
  · split
    · simp
    · split
      · rename_i collaborator hfind
        have hmem := List.mem_of_find?_eq_some hfind
        have hp := henum collaborator hmem
        simp only [permissionEnum, List.mem_cons, List.mem_singleton, List.not_mem_nil,
          or_false] at hp
        rcases hp with hp | hp | hp <;> simp [hp]
      · simp

/-- C2 (witness): the amended range statement at a `sign` collaborator. -/
theorem C2_getUserRole_range_witness :
    (exampleDoc none [⟨3, "sign"⟩] "draft").getUserRole 3 ∈
      [some "owner", some "signer", some "view", some "sign", some "edit", none] :=
  C2_getUserRole_range (exampleDoc none [⟨3, "sign"⟩] "draft") 3 (by
    intro c hc
    simp [exampleDoc] at hc
    subst hc
    simp [permissionEnum])

/-! ### Access checks of `getDocument` and `downloadDocument` -/

/-- A populated reference carries the id it was resolved from. -/
theorem populate_id (db : Db) (ref : ObjectId) (u : User) (h : db.populate ref = some u) :
    u._id = ref := by
  have h1 := List.find?_some h
  simpa using h1

/-- Over resolving collaborators the populated test is the plain membership test. -/
theorem someCollaboratorPopulated_eq (db : Db) (caller : ObjectId) (cs : List Collaborator)
    (hc : ∀ c ∈ cs, (db.populate c.user).isSome) :
    documentController.someCollaboratorPopulated db caller cs
      = .ok (cs.any (fun collab => collab.user == caller)) := by
  induction cs with
  | nil => rfl
  | cons c rest ih =>
    have hc1 := hc c (List.mem_cons_self c rest)
    have hrest : ∀ c ∈ rest, (db.populate c.user).isSome :=
      fun d hd => hc d (List.mem_cons_of_mem c hd)
    obtain ⟨u, hu⟩ := Option.isSome_iff_exists.mp hc1
    have hid := populate_id db c.user u hu
    simp only [documentController.someCollaboratorPopulated, hu, hid, List.any_cons]
    by_cases hcu : c.user = caller
    · simp [hcu]
    · simp [hcu, ih hrest]

/-- Over a resolving signer the populated signer test is equality with the stored reference. -/
theorem signerMatches_eq (db : Db) (doc : Document) (caller : ObjectId)
    (hs : ∀ s, doc.signerUser = some s → (db.populate s).isSome) :
    documentController.signerMatches db doc caller = (doc.signerUser == some caller) := by
  unfold documentController.signerMatches
  cases hsu : doc.signerUser with
  | none => simp
  | some s =>
    obtain ⟨u, hu⟩ := Option.isSome_iff_exists.mp (hs s hsu)
    have hid := populate_id db s u hu
    simp [hu, hid]

/-- The role is not null exactly for the owner, the designated signer and the collaborators. -/
theorem hasAccess_eq (doc : Document) (caller : ObjectId) :
    hasAccess doc caller =
      (doc.owner == caller || doc.collaborators.any (fun collab => collab.user == caller)
        || doc.signerUser == some caller) := by
  unfold hasAccess Document.getUserRole
  by_cases ho : doc.owner = caller
  · simp [ho]
  · by_cases hs : doc.signerUser = some caller
    · simp [ho, hs]
    · cases hf : doc.collaborators.find? (fun collab => collab.user == caller) with
      | none =>
        have hany : doc.collaborators.any (fun collab => collab.user == caller) = false := by
          rw [List.any_eq_false]
          intro c hc
          have := List.find?_eq_none.mp hf c hc
          simpa using this
        simp [ho, hs, hany]
      | some c =>
        have hany : doc.collaborators.any (fun collab => collab.user == caller) = true := by
          rw [List.any_eq_true]
          exact ⟨c, List.mem_of_find?_eq_some hf, by simpa using List.find?_some hf⟩
        simp [ho, hs, hany]

/-- The role is null exactly when `hasAccess` is false. -/
theorem getUserRole_eq_none_iff (doc : Document) (caller : ObjectId) :
    doc.getUserRole caller = none ↔ hasAccess doc caller = false := by
  unfold hasAccess
  cases doc.getUserRole caller <;> simp

/-- An exception inside the collaborator search on a loaded document is answered with 500. -/
theorem findCollaborator_error (U : ObjectId) (cs : List (UserRef × String)) (e : HttpError)
    (h : LoadedRefs.findCollaborator U cs = .error e) : e = serverError := by
  induction cs with
  | nil => cases h
  | cons c rest ih =>
    unfold LoadedRefs.findCollaborator at h
    cases hc : c.1.toStringEq U with
    | none =>
      simp only [hc] at h
      exact (Except.error.inj h).symm
    | some b =>
      cases b with
      | true =>
        simp only [hc] at h
        cases h
      | false =>
        simp only [hc] at h
        exact ih h

/-- An exception inside `getUserRole` on a loaded document is answered with 500. -/
theorem loaded_getUserRole_error (this : LoadedRefs) (U : ObjectId) (e : HttpError)
    (h : this.getUserRole U = .error e) : e = serverError := by
  unfold LoadedRefs.getUserRole at h
  cases ho : this.owner.toStringEq U with
  | none =>
    simp only [ho] at h
    exact (Except.error.inj h).symm
  | some b =>
    cases b with
    | true =>
      simp only [ho] at h
      cases h
    | false =>
      simp only [ho] at h
      split at h
      · cases h
      · exact findCollaborator_error U _ e h

/-- C3: when the owner, signer and collaborator references of a stored document resolve, the
access checks of `getDocument` and `downloadDocument` both evaluate to
`hasAccess doc caller`, and each handler answers 403 exactly when `getUserRole` is null. -/
theorem C3_access_checks_are_hasAccess (db : Db) (id caller : ObjectId) (doc : Document)
    (hdoc : db.findById id = some doc)
    (ho : (db.populate doc.owner).isSome)
    (hs : ∀ s, doc.signerUser = some s → (db.populate s).isSome)
    (hc : ∀ c ∈ doc.collaborators, (db.populate c.user).isSome) :
    documentController.getDocumentHasAccess db doc caller = .ok (hasAccess doc caller) ∧
    documentController.downloadDocumentHasAccess db doc caller = .ok (hasAccess doc caller) ∧
    (documentController.getDocument db caller id = .error ⟨403, some "Access denied"⟩
      ↔ doc.getUserRole caller = none) ∧
    (documentController.downloadDocument db caller id
        = .error ⟨403, some "Not authorized to download this document"⟩
      ↔ doc.getUserRole caller = none) := by
  obtain ⟨o, hpo⟩ := Option.isSome_iff_exists.mp ho
  have hoid := populate_id db doc.owner o hpo
  have hget : documentController.getDocumentHasAccess db doc caller
      = .ok (hasAccess doc caller) := by
    rw [hasAccess_eq]
    unfold documentController.getDocumentHasAccess
    simp only [hpo, hoid, someCollaboratorPopulated_eq db caller doc.collaborators hc,
      signerMatches_eq db doc caller hs]
    by_cases h1 : doc.owner = caller
    · simp [h1]
    · cases h2 : doc.collaborators.any (fun collab => collab.user == caller) <;> simp [h1]
  have hdl : documentController.downloadDocumentHasAccess db doc caller
      = .ok (hasAccess doc caller) := by
    rw [hasAccess_eq]
    unfold documentController.downloadDocumentHasAccess
    simp only [hpo, hoid, signerMatches_eq db doc caller hs]
  refine ⟨hget, hdl, ?_, ?_⟩
  · rw [getUserRole_eq_none_iff]
    unfold documentController.getDocument
    simp only [hdoc, hget]
    cases hasAccess doc caller
    · simp
    · cases hr : (db.populatedRefs doc).getUserRole caller with
      | error e =>
        have he := loaded_getUserRole_error _ _ e hr
        subst he
        simp [serverError]
      | ok r => simp
  · rw [getUserRole_eq_none_iff]
    unfold documentController.downloadDocument
    simp only [hdoc, hdl]
    cases hasAccess doc caller
    · simp
    · by_cases hf : doc.filePath ∈ db.files <;> simp [hf]

/-- C3 (witness): a stored document with a signer and a collaborator, asked for by a stranger. -/
theorem C3_access_checks_are_hasAccess_witness :
    documentController.getDocumentHasAccess (exampleDb (exampleDoc (some 2) [⟨3, "view"⟩] "draft"))
        (exampleDoc (some 2) [⟨3, "view"⟩] "draft") 4
      = .ok (hasAccess (exampleDoc (some 2) [⟨3, "view"⟩] "draft") 4) ∧
    documentController.downloadDocumentHasAccess
        (exampleDb (exampleDoc (some 2) [⟨3, "view"⟩] "draft"))
        (exampleDoc (some 2) [⟨3, "view"⟩] "draft") 4
      = .ok (hasAccess (exampleDoc (some 2) [⟨3, "view"⟩] "draft") 4) ∧
    (documentController.getDocument (exampleDb (exampleDoc (some 2) [⟨3, "view"⟩] "draft")) 4 10
        = .error ⟨403, some "Access denied"⟩
      ↔ (exampleDoc (some 2) [⟨3, "view"⟩] "draft").getUserRole 4 = none) ∧
    (documentController.downloadDocument (exampleDb (exampleDoc (some 2) [⟨3, "view"⟩] "draft")) 4 10
        = .error ⟨403, some "Not authorized to download this document"⟩
      ↔ (exampleDoc (some 2) [⟨3, "view"⟩] "draft").getUserRole 4 = none) :=
  C3_access_checks_are_hasAccess (exampleDb (exampleDoc (some 2) [⟨3, "view"⟩] "draft")) 10 4
    (exampleDoc (some 2) [⟨3, "view"⟩] "draft")
    (by simp [Db.findById, exampleDb, exampleDoc])
    (by simp [Db.populate, exampleDb, exampleDoc, exampleUsers])
    (by
      intro s hs
      simp [exampleDoc] at hs
      subst hs
      simp [Db.populate, exampleDb, exampleUsers])
    (by
      intro c hc
      simp [exampleDoc] at hc
      subst hc
      simp [Db.populate, exampleDb, exampleUsers])

/-! ### Store lemmas -/

/-- A record returned by `findById` carries the id it was looked up by. -/
theorem findById_id (db : Db) (id : ObjectId) (doc : Document) (h : db.findById id = some doc) :
    doc._id = id := by
  have h1 := List.find?_some h
  simpa using h1

/-- Looking up an id after a `save` write: the record found before, replaced when it is the
saved one. -/
theorem findById_replaceDocument (db : Db) (doc : Document) (id : ObjectId) :
    (db.replaceDocument doc).findById id
      = (db.findById id).map (fun d => if d._id == doc._id then doc else d) := by
  unfold Db.findById Db.replaceDocument
  simp only
  induction db.documents with
  | nil => rfl
  | cons d rest ih =>
    simp only [List.map_cons, List.find?_cons]
    by_cases hd : d._id = doc._id
    · have e1 : (d._id == doc._id) = true := by simpa using hd
      simp only [e1, if_true]
      by_cases hi : doc._id = id
      · have e2 : (doc._id == id) = true := by simpa using hi
        have e3 : (d._id == id) = true := by simpa [hd] using hi
        simp [e2, e3, hd]
      · have e2 : (doc._id == id) = false := by simpa using hi
        have e3 : (d._id == id) = false := by simpa [hd] using hi
        simp only [e2, e3]
        exact ih
    · have e1 : (d._id == doc._id) = false := by simpa using hd
      simp only [e1, Bool.false_eq_true, if_false]
      by_cases hi : d._id = id
      · have e3 : (d._id == id) = true := by simpa using hi
        simp [e3, hd]
      · have e3 : (d._id == id) = false := by simpa using hi
        simp only [e3]
        exact ih

/-- Validation spelled out: the five `required` strings are non-empty and the status and
every collaborator permission are values of their `enum`. -/
theorem validate_iff (doc : Document) :
    doc.validate = true ↔
      doc.title ≠ "" ∧ doc.filename ≠ "" ∧ doc.originalName ≠ "" ∧ doc.filePath ≠ "" ∧
      doc.mimeType ≠ "" ∧ doc.status ∈ statusEnum ∧
      ∀ c ∈ doc.collaborators, c.permission ∈ permissionEnum := by
  simp [Document.validate, and_assoc]

/-- A document that validates still does once its status is `signed`, whatever its
signature list. -/
theorem validate_signed (doc : Document) (sigs : List ObjectId) (h : doc.validate = true) :
    ({ doc with signatures := sigs, status := "signed" } : Document).validate = true := by
  rw [validate_iff] at h ⊢
  obtain ⟨h1, h2, h3, h4, h5, _, h7⟩ := h
  exact ⟨h1, h2, h3, h4, h5, by simp [statusEnum], h7⟩

/-! ### `addSignature` -/

/-- C4 (counterexample): the designated signer of a stored document, who is neither its owner
nor a collaborator, has role `signer` and is refused by `addSignature` with 403; nothing is
stored. -/
theorem C4_counterexample :
    (exampleDb (exampleDoc (some 2) [] "pending_signature")).findById 10
      = some (exampleDoc (some 2) [] "pending_signature") ∧
    (exampleDoc (some 2) [] "pending_signature").signerUser = some 2 ∧
    (exampleDoc (some 2) [] "pending_signature").getUserRole 2 = some "signer" ∧
    signingController.addSignature (exampleDb (exampleDoc (some 2) [] "pending_signature")) 2
        ⟨10, some "data:image/png;base64,AAAA", none⟩ none none
      = (exampleDb (exampleDoc (some 2) [] "pending_signature"),
          .error ⟨403, some "No signing permission"⟩) := by
  refine ⟨by rfl, by rfl, by rfl, by rfl⟩

/-- The signing check in terms of the owner and the collaborator entries. -/
theorem hasSigningAccess_iff (doc : Document) (caller : ObjectId) :
    signingController.hasSigningAccess doc caller = true ↔
      (doc.owner = caller ∨
        ∃ c ∈ doc.collaborators, c.user = caller ∧ (c.permission = "sign" ∨ c.permission = "edit")) := by
  simp [signingController.hasSigningAccess, List.any_eq_true]

/-- The response of `addSignature` is 403 exactly when the signing check fails. -/
theorem addSignature_forbidden_iff (db : Db) (caller : ObjectId)
    (body : signingController.SignBody) (ip ua : Option String) (doc : Document)
    (hdoc : db.findById body.documentId = some doc) :
    (∃ e, (signingController.addSignature db caller body ip ua).2 = .error e ∧ e.status = 403)
      ↔ signingController.hasSigningAccess doc caller = false := by
  unfold signingController.addSignature
  simp only [hdoc]
  cases hacc : signingController.hasSigningAccess doc caller
  · simp
  · simp only [Bool.not_true, Bool.false_eq_true, if_false]
    cases hcr : signingController.createSignature db body.documentId caller body.signatureData
        body.position ip ua with
    | none => simp [serverError]
    | some p =>
      obtain ⟨db1, sig⟩ := p
      simp only
      cases hsv : db1.save
          { doc with signatures := doc.signatures ++ [sig._id], status := "signed" } with
      | none => simp [serverError]
      | some db2 => simp

/-- C4 (amended): for a stored document whose designated signer is the caller, `addSignature`
is authorized (not answered with 403) exactly when the caller is also the owner or has a
collaborator entry with permission `sign` or `edit`.  The signing check does not read
`signerUser`: it has the same value whatever that path holds, and a designated signer who is
neither the owner nor a `sign` or `edit` collaborator is refused with 403, the store
unchanged. -/
theorem C4_designated_signer_authorization (db : Db) (caller : ObjectId)
    (body : signingController.SignBody) (ip ua : Option String) (doc : Document)
    (hdoc : db.findById body.documentId = some doc)
    (_hsigner : doc.signerUser = some caller) :
    ((¬ ∃ e, (signingController.addSignature db caller body ip ua).2 = .error e ∧ e.status = 403)
      ↔ (doc.owner = caller ∨
          ∃ c ∈ doc.collaborators, c.user = caller ∧
            (c.permission = "sign" ∨ c.permission = "edit"))) ∧
    (¬ (doc.owner = caller ∨
          ∃ c ∈ doc.collaborators, c.user = caller ∧
            (c.permission = "sign" ∨ c.permission = "edit")) →
      signingController.addSignature db caller body ip ua
        = (db, .error ⟨403, some "No signing permission"⟩)) ∧
    (∀ s, signingController.hasSigningAccess { doc with signerUser := s } caller
      = signingController.hasSigningAccess doc caller) := by
  refine ⟨?_, ?_, fun _ => rfl⟩
  · rw [addSignature_forbidden_iff db caller body ip ua doc hdoc, ← hasSigningAccess_iff]
    simp
  · intro h
    rw [← hasSigningAccess_iff] at h
    have hacc : signingController.hasSigningAccess doc caller = false := by
      simpa using h
    simp [signingController.addSignature, hdoc, hacc]

/-- C4 (witness): the designated signer 3 of `signerCollabDoc` is also a `sign` collaborator
of it, and signs. -/
theorem C4_designated_signer_authorization_witness :
    (((¬ ∃ e, (signingController.addSignature (exampleDb signerCollabDoc) 3 exampleSign
          none none).2 = .error e ∧ e.status = 403)
      ↔ (signerCollabDoc.owner = 3 ∨
          ∃ c ∈ signerCollabDoc.collaborators, c.user = 3 ∧
            (c.permission = "sign" ∨ c.permission = "edit"))) ∧
    (¬ (signerCollabDoc.owner = 3 ∨
          ∃ c ∈ signerCollabDoc.collaborators, c.user = 3 ∧
            (c.permission = "sign" ∨ c.permission = "edit")) →
      signingController.addSignature (exampleDb signerCollabDoc) 3 exampleSign none none
        = (exampleDb signerCollabDoc, .error ⟨403, some "No signing permission"⟩)) ∧
    (∀ s, signingController.hasSigningAccess { signerCollabDoc with signerUser := s } 3
      = signingController.hasSigningAccess signerCollabDoc 3)) ∧
    (signingController.addSignature (exampleDb signerCollabDoc) 3 exampleSign none none).2
      = .ok ⟨100, 10, 3, "data:image/png;base64,AAAA", none, none, none, true⟩ :=
  ⟨C4_designated_signer_authorization (exampleDb signerCollabDoc) 3 exampleSign none none
      signerCollabDoc (by rfl) (by rfl),
    by rfl⟩

/-- C5: for a caller who is not the designated signer of a stored document (in particular
when no signer is assigned), `addSignature` is not answered with 403 exactly when the caller
is the owner or has a collaborator entry with permission `sign` or `edit`. -/
theorem C5_addSignature_authorization (db : Db) (caller : ObjectId)
    (body : signingController.SignBody) (ip ua : Option String) (doc : Document)
    (hdoc : db.findById body.documentId = some doc)
    (_hsigner : doc.signerUser ≠ some caller) :
    (¬ ∃ e, (signingController.addSignature db caller body ip ua).2 = .error e ∧ e.status = 403)
      ↔ (doc.owner = caller ∨
          ∃ c ∈ doc.collaborators, c.user = caller ∧
            (c.permission = "sign" ∨ c.permission = "edit")) := by
  rw [addSignature_forbidden_iff db caller body ip ua doc hdoc, ← hasSigningAccess_iff]
  simp

/-- C5 (witness): a `view` collaborator of a document without signer. -/
theorem C5_addSignature_authorization_witness :
    (¬ ∃ e, (signingController.addSignature (exampleDb (exampleDoc none [⟨3, "view"⟩] "draft")) 3
        ⟨10, some "data:image/png;base64,AAAA", none⟩ none none).2 = .error e ∧ e.status = 403)
      ↔ ((exampleDoc none [⟨3, "view"⟩] "draft").owner = 3 ∨
          ∃ c ∈ (exampleDoc none [⟨3, "view"⟩] "draft").collaborators, c.user = 3 ∧
            (c.permission = "sign" ∨ c.permission = "edit")) :=
  C5_addSignature_authorization (exampleDb (exampleDoc none [⟨3, "view"⟩] "draft")) 3
    ⟨10, some "data:image/png;base64,AAAA", none⟩ none none
    (exampleDoc none [⟨3, "view"⟩] "draft")
    (by simp [Db.findById, exampleDb, exampleDoc])
    (by simp [exampleDoc])

/-- What a successful `Signature.create` stores and returns. -/
theorem createSignature_some (db db1 : Db) (documentId signer : ObjectId)
    (data : Option String) (position : Option Position) (ip ua : Option String)
    (sig : Signature)
    (h : signingController.createSignature db documentId signer data position ip ua
      = some (db1, sig)) :
    db1 = { db with signatures := db.signatures ++ [sig], nextId := db.nextId + 1 } ∧
    sig.document = documentId ∧ sig.signer = signer ∧ sig._id = db.nextId := by
  unfold signingController.createSignature at h
  cases data with
  | none => simp at h
  | some d =>
    by_cases hd : d = ""
    · simp [hd] at h
    · simp only [beq_iff_eq, hd, if_false, Option.some.injEq, Prod.mk.injEq] at h
      obtain ⟨h1, h2⟩ := h
      subst h2
      exact ⟨h1.symm, rfl, rfl, rfl⟩

/-- A successful `save` is the replacement write. -/
theorem save_some (db db1 : Db) (doc : Document) (h : db.save doc = some db1) :
    db1 = db.replaceDocument doc := by
  unfold Db.save at h
  split at h
  · exact (Option.some.inj h).symm
  · simp at h

/-- The write of `save` leaves the signature collection alone. -/
theorem replaceDocument_signatures (db : Db) (doc : Document) :
    (db.replaceDocument doc).signatures = db.signatures := rfl

/-- With signing access, a non-empty payload and a stored document that validates,
`addSignature` answers 201. -/
theorem addSignature_succeeds (db : Db) (caller : ObjectId)
    (body : signingController.SignBody) (ip ua : Option String) (doc : Document) (data : String)
    (hdoc : db.findById body.documentId = some doc)
    (hacc : signingController.hasSigningAccess doc caller = true)
    (hdata : body.signatureData = some data) (hne : data ≠ "") (hval : doc.validate = true) :
    ∃ db1 sig, signingController.addSignature db caller body ip ua = (db1, .ok sig) := by
  unfold signingController.addSignature
  simp only [hdoc, hacc, Bool.not_true, Bool.false_eq_true, if_false,
    signingController.createSignature, hdata, beq_iff_eq, hne, Db.save,
    validate_signed doc _ hval, if_true]
  exact ⟨_, _, rfl⟩

/-- The effect of an `addSignature` answered with 201 on the two collections. -/
theorem addSignature_ok (db db1 : Db) (caller : ObjectId)
    (body : signingController.SignBody) (ip ua : Option String) (sig : Signature)
    (hok : signingController.addSignature db caller body ip ua = (db1, .ok sig)) :
    ∃ doc, db.findById body.documentId = some doc ∧
      db1.findById body.documentId
        = some { doc with signatures := doc.signatures ++ [sig._id], status := "signed" } ∧
      db1.signatures = db.signatures ++ [sig] ∧
      sig.document = doc._id ∧ sig.signer = caller := by
  unfold signingController.addSignature at hok
  cases hdoc : db.findById body.documentId with
  | none => simp [hdoc] at hok
  | some doc =>
    simp only [hdoc] at hok
    cases hacc : signingController.hasSigningAccess doc caller with
    | false => simp [hacc] at hok
    | true =>
      simp only [hacc, Bool.not_true, Bool.false_eq_true, if_false] at hok
      cases hcr : signingController.createSignature db body.documentId caller body.signatureData
          body.position ip ua with
      | none => simp [hcr] at hok
      | some p =>
        obtain ⟨dbc, s⟩ := p
        simp only [hcr] at hok
        obtain ⟨hdbc, hsd, hss, _⟩ :=
          createSignature_some db dbc body.documentId caller body.signatureData body.position
            ip ua s hcr
        cases hsv : dbc.save
            { doc with signatures := doc.signatures ++ [s._id], status := "signed" } with
        | none => simp [hsv] at hok
        | some db2 =>
          simp only [hsv, Prod.mk.injEq, Except.ok.injEq] at hok
          obtain ⟨h1, h2⟩ := hok
          subst h1 h2
          have hrep := save_some dbc db2 _ hsv
          have hid := findById_id db body.documentId doc hdoc
          have hfind : dbc.findById body.documentId = some doc := by
            rw [hdbc]
            exact hdoc
          refine ⟨doc, rfl, ?_, ?_, ?_, hss⟩
          · rw [hrep, findById_replaceDocument, hfind]
            simp
          · rw [hrep, replaceDocument_signatures, hdbc]
          · rw [hsd, hid]

/-- C6: a successful `addSignature` (response 201 with signature `sig`) stores exactly one new
Signature record `sig`, whose document is the signed document and whose signer is the caller,
and leaves the document, whatever its prior status, with status `signed` and with the prior
signatures list followed by the id of `sig`. -/
theorem C6_addSignature_effect (db db1 : Db) (caller : ObjectId)
    (body : signingController.SignBody) (ip ua : Option String) (sig : Signature)
    (hok : signingController.addSignature db caller body ip ua = (db1, .ok sig)) :
    ∃ doc, db.findById body.documentId = some doc ∧
      db1.findById body.documentId
        = some { doc with signatures := doc.signatures ++ [sig._id], status := "signed" } ∧
      db1.signatures = db.signatures ++ [sig] ∧
      sig.document = doc._id ∧ sig.signer = caller :=
  addSignature_ok db db1 caller body ip ua sig hok

/-- C6 (witness): the owner signs a completed document. -/
theorem C6_addSignature_effect_witness :
    ∃ doc, (exampleDb (exampleDoc none [] "completed")).findById 10 = some doc ∧
      (signingController.addSignature (exampleDb (exampleDoc none [] "completed")) 1
          ⟨10, some "data:image/png;base64,AAAA", none⟩ none none).1.findById 10
        = some { doc with
            signatures := doc.signatures ++ [(⟨100, 10, 1, "data:image/png;base64,AAAA", none,
              none, none, true⟩ : Signature)._id],
            status := "signed" } ∧
      (signingController.addSignature (exampleDb (exampleDoc none [] "completed")) 1
          ⟨10, some "data:image/png;base64,AAAA", none⟩ none none).1.signatures
        = (exampleDb (exampleDoc none [] "completed")).signatures
            ++ [⟨100, 10, 1, "data:image/png;base64,AAAA", none, none, none, true⟩] ∧
      (⟨100, 10, 1, "data:image/png;base64,AAAA", none, none, none, true⟩ : Signature).document
        = doc._id ∧
      (⟨100, 10, 1, "data:image/png;base64,AAAA", none, none, none, true⟩ : Signature).signer
        = 1 :=
  C6_addSignature_effect (exampleDb (exampleDoc none [] "completed")) _ 1
    ⟨10, some "data:image/png;base64,AAAA", none⟩ none none
    ⟨100, 10, 1, "data:image/png;base64,AAAA", none, none, none, true⟩
    (by
      simp [signingController.addSignature, signingController.hasSigningAccess,
        signingController.createSignature, Db.findById, Db.save, Db.replaceDocument,
        Document.validate, statusEnum, permissionEnum, exampleDb, exampleDoc])

/-! ### `updateDocument` -/

/-- After the write of `save`, the saved record is the one found under its id. -/
theorem findById_replace_self (db : Db) (id : ObjectId) (doc upd : Document)
    (hdoc : db.findById id = some doc) (hid : upd._id = doc._id) :
    (db.replaceDocument upd).findById id = some upd := by
  rw [findById_replaceDocument, hdoc]
  simp [hid]

/-- The assignments of `updateDocument` keep the id. -/
theorem applyUpdate_id (doc : Document) (role : Option String)
    (body : documentController.UpdateBody) :
    (documentController.applyUpdate doc role body)._id = doc._id := by
  unfold documentController.applyUpdate
  cases body.title <;> cases body.description <;> cases body.status <;> simp <;> split <;> rfl

/-- The assignments of `updateDocument` keep the collaborator list. -/
theorem applyUpdate_collaborators (doc : Document) (role : Option String)
    (body : documentController.UpdateBody) :
    (documentController.applyUpdate doc role body).collaborators = doc.collaborators := by
  unfold documentController.applyUpdate
  cases body.title <;> cases body.description <;> cases body.status <;> simp <;> split <;> rfl

/-- The status after the assignments of `updateDocument`: the provided one for the owner,
the prior one otherwise. -/
theorem applyUpdate_status (doc : Document) (role : Option String)
    (body : documentController.UpdateBody) :
    (documentController.applyUpdate doc role body).status =
      match body.status with
      | some s => if role = some "owner" then s else doc.status
      | none => doc.status := by
  unfold documentController.applyUpdate
  cases body.title <;> cases body.description <;> cases body.status <;> simp <;> split <;> rfl

/-- The title after the assignments of `updateDocument`. -/
theorem applyUpdate_title (doc : Document) (role : Option String)
    (body : documentController.UpdateBody) :
    (documentController.applyUpdate doc role body).title =
      match body.title with
      | some t => jsTrim t
      | none => doc.title := by
  unfold documentController.applyUpdate
  cases body.title <;> cases body.description <;> cases body.status <;> simp <;> split <;> rfl

/-- The assignments of `updateDocument` keep the file metadata. -/
theorem applyUpdate_file (doc : Document) (role : Option String)
    (body : documentController.UpdateBody) :
    (documentController.applyUpdate doc role body).filename = doc.filename ∧
    (documentController.applyUpdate doc role body).originalName = doc.originalName ∧
    (documentController.applyUpdate doc role body).filePath = doc.filePath ∧
    (documentController.applyUpdate doc role body).mimeType = doc.mimeType := by
  unfold documentController.applyUpdate
  cases body.title <;> cases body.description <;> cases body.status <;> simp <;> split <;>
    exact ⟨rfl, rfl, rfl, rfl⟩

/-- The permission test of `updateDocument` rejects exactly the roles other than
`owner` and `edit`. -/
theorem updateDocument_guard (role : Option String) :
    (!truthy role || (role != some "owner" && role != some "edit")) = true ↔
      ¬ (role = some "owner" ∨ role = some "edit") := by
  cases role with
  | none => simp [truthy]
  | some r =>
    by_cases h1 : r = "owner"
    · simp [truthy, h1]
    · by_cases h2 : r = "edit"
      · simp [truthy, h2]
      · simp [truthy, h1, h2]

/-- The three outcomes of `updateDocument` on a stored document. -/
theorem updateDocument_eq (db : Db) (caller id : ObjectId) (doc : Document)
    (body : documentController.UpdateBody) (hdoc : db.findById id = some doc) :
    documentController.updateDocument db caller id body =
      if ¬ (doc.getUserRole caller = some "owner" ∨ doc.getUserRole caller = some "edit") then
        (db, .error ⟨403, some "Insufficient permissions to update document"⟩)
      else if (documentController.applyUpdate doc (doc.getUserRole caller) body).validate
          = true then
        (db.replaceDocument (documentController.applyUpdate doc (doc.getUserRole caller) body),
          .ok (documentController.applyUpdate doc (doc.getUserRole caller) body))
      else (db, .error serverError) := by
  unfold documentController.updateDocument
  simp only [hdoc]
  by_cases hg : ¬ (doc.getUserRole caller = some "owner" ∨ doc.getUserRole caller = some "edit")
  · rw [if_pos ((updateDocument_guard _).mpr hg), if_pos hg]
  · have hg2 : ¬ ((!truthy (doc.getUserRole caller) ||
        (doc.getUserRole caller != some "owner" && doc.getUserRole caller != some "edit")) = true) :=
      fun h => hg ((updateDocument_guard _).mp h)
    rw [if_neg hg2, if_neg hg]
    unfold Db.save
    by_cases hv : (documentController.applyUpdate doc (doc.getUserRole caller) body).validate
        = true
    · simp only [hv, if_true]
    · simp only [hv, if_false, Bool.false_eq_true]

/-- The stored status after `updateDocument`: the prior one, or, for the owner whose update
was saved, the provided one. -/
theorem updateDocument_statusOf (db : Db) (caller id : ObjectId) (doc : Document)
    (body : documentController.UpdateBody) (hdoc : db.findById id = some doc) :
    (documentController.updateDocument db caller id body).1.statusOf id = some doc.status ∨
    (doc.getUserRole caller = some "owner" ∧ ∃ s, body.status = some s ∧
      (documentController.updateDocument db caller id body).1.statusOf id = some s) := by
  rw [updateDocument_eq db caller id doc body hdoc]
  split
  · left
    simp [Db.statusOf, hdoc]
  · split
    · have hfind := findById_replace_self db id doc
        (documentController.applyUpdate doc (doc.getUserRole caller) body) hdoc
        (applyUpdate_id doc _ body)
      simp only [Db.statusOf, hfind, Option.map_some', applyUpdate_status]
      cases hs : body.status with
      | none => left; rfl
      | some s =>
        by_cases hr : doc.getUserRole caller = some "owner"
        · right
          exact ⟨hr, s, rfl, by simp [hr]⟩
        · left
          simp [hr]
    · left
      simp [Db.statusOf, hdoc]

/-- C9: on a stored document `updateDocument` answers 403 exactly when the caller's role is
neither `owner` nor `edit` (so for signer, view, sign and null), and then the store, hence
the title, description and status of the document, is unchanged. -/
theorem C9_updateDocument_authorization (db : Db) (caller id : ObjectId) (doc : Document)
    (body : documentController.UpdateBody) (hdoc : db.findById id = some doc) :
    ((documentController.updateDocument db caller id body).2
        = .error ⟨403, some "Insufficient permissions to update document"⟩
      ↔ ¬ (doc.getUserRole caller = some "owner" ∨ doc.getUserRole caller = some "edit")) ∧
    (¬ (doc.getUserRole caller = some "owner" ∨ doc.getUserRole caller = some "edit") →
      (documentController.updateDocument db caller id body).1 = db ∧
      (documentController.updateDocument db caller id body).1.findById id = some doc) := by
  rw [updateDocument_eq db caller id doc body hdoc]
  constructor
  · constructor
    · intro h
      by_contra hg
      rw [if_neg (not_not.mpr hg)] at h
      split at h
      · simp at h
      · simp [serverError] at h
    · intro hg
      rw [if_pos hg]
  · intro hg
    rw [if_pos hg]
    exact ⟨rfl, hdoc⟩

/-- C9 (witness): the designated signer tries to rename a document. -/
theorem C9_updateDocument_authorization_witness :
    ((documentController.updateDocument (exampleDb (exampleDoc (some 2) [] "pending_signature"))
          2 10 ⟨some "Mine", none, some "completed"⟩).2
        = .error ⟨403, some "Insufficient permissions to update document"⟩
      ↔ ¬ ((exampleDoc (some 2) [] "pending_signature").getUserRole 2 = some "owner" ∨
          (exampleDoc (some 2) [] "pending_signature").getUserRole 2 = some "edit")) ∧
    (¬ ((exampleDoc (some 2) [] "pending_signature").getUserRole 2 = some "owner" ∨
          (exampleDoc (some 2) [] "pending_signature").getUserRole 2 = some "edit") →
      (documentController.updateDocument (exampleDb (exampleDoc (some 2) [] "pending_signature"))
          2 10 ⟨some "Mine", none, some "completed"⟩).1
        = exampleDb (exampleDoc (some 2) [] "pending_signature") ∧
      (documentController.updateDocument (exampleDb (exampleDoc (some 2) [] "pending_signature"))
          2 10 ⟨some "Mine", none, some "completed"⟩).1.findById 10
        = some (exampleDoc (some 2) [] "pending_signature")) :=
  C9_updateDocument_authorization (exampleDb (exampleDoc (some 2) [] "pending_signature")) 2 10
    (exampleDoc (some 2) [] "pending_signature") ⟨some "Mine", none, some "completed"⟩
    (by simp [Db.findById, exampleDb, exampleDoc])

/-- C10 (counterexample): the owner of `sharedDoc` sends the status `archived`, which is not
a value of the schema `enum`: the provided status does not become the new status, the
request is answered with 500 and the stored status stays `draft`. -/
theorem C10_counterexample :
    sharedDb.findById 10 = some sharedDoc ∧
    sharedDoc.getUserRole 1 = some "owner" ∧
    documentController.updateDocument sharedDb 1 10 ⟨none, none, some "archived"⟩
      = (sharedDb, .error serverError) ∧
    (documentController.updateDocument sharedDb 1 10 ⟨none, none, some "archived"⟩).1.statusOf 10
      = some "draft" ∧
    (documentController.updateDocument sharedDb 1 10 ⟨none, none, some "archived"⟩).1.statusOf 10
      ≠ some "archived" := by
  refine ⟨by rfl, by rfl, by rfl, by rfl, by decide⟩

/-- C10 (amended): on a stored document, after `updateDocument` by a caller whose role is not
`owner` the stored status is the prior status, whatever the request; for the owner an omitted
status leaves the status unchanged, and a provided status `s` becomes the stored status when
the document after the assignments passes schema validation: the request is then answered
with that document.  When it does not pass, the request is answered with 500 and the store
is unchanged.  Validation passes exactly when `s` is a value of the status `enum`, the title
(the provided one after trimming, else the stored one) is not empty, and the paths of the
stored record that the request does not touch are valid. -/
theorem C10_only_owner_changes_status (db : Db) (caller id : ObjectId) (doc : Document)
    (body : documentController.UpdateBody) (hdoc : db.findById id = some doc) :
    (doc.getUserRole caller ≠ some "owner" →
      (documentController.updateDocument db caller id body).1.statusOf id = some doc.status) ∧
    (doc.getUserRole caller = some "owner" → body.status = none →
      (documentController.updateDocument db caller id body).1.statusOf id = some doc.status) ∧
    (doc.getUserRole caller = some "owner" → ∀ s, body.status = some s →
      ((documentController.applyUpdate doc (some "owner") body).validate = true →
        documentController.updateDocument db caller id body
          = (db.replaceDocument (documentController.applyUpdate doc (some "owner") body),
              .ok (documentController.applyUpdate doc (some "owner") body)) ∧
        (documentController.applyUpdate doc (some "owner") body).status = s ∧
        (documentController.updateDocument db caller id body).1.statusOf id = some s) ∧
      ((documentController.applyUpdate doc (some "owner") body).validate = false →
        documentController.updateDocument db caller id body = (db, .error serverError) ∧
        (documentController.updateDocument db caller id body).1.statusOf id
          = some doc.status) ∧
      ((documentController.applyUpdate doc (some "owner") body).validate = true ↔
        s ∈ statusEnum ∧ (∀ t, body.title = some t → jsTrim t ≠ "") ∧
        (body.title = none → doc.title ≠ "") ∧
        doc.filename ≠ "" ∧ doc.originalName ≠ "" ∧ doc.filePath ≠ "" ∧ doc.mimeType ≠ "" ∧
        ∀ c ∈ doc.collaborators, c.permission ∈ permissionEnum)) := by
  refine ⟨?_, ?_, ?_⟩
  · intro hr
    rcases updateDocument_statusOf db caller id doc body hdoc with h | ⟨h, _⟩
    · exact h
    · exact absurd h hr
  · intro _ hs
    rcases updateDocument_statusOf db caller id doc body hdoc with h | ⟨_, s, h, _⟩
    · exact h
    · rw [hs] at h
      cases h
  · intro hr s hs
    have hauth : ¬ ¬ (doc.getUserRole caller = some "owner" ∨ doc.getUserRole caller = some "edit") :=
      fun h => h (Or.inl hr)
    have hst : (documentController.applyUpdate doc (some "owner") body).status = s := by
      rw [applyUpdate_status, hs]
      simp
    rw [updateDocument_eq db caller id doc body hdoc, if_neg hauth, hr]
    refine ⟨?_, ?_, ?_⟩
    · intro hv
      rw [if_pos hv]
      refine ⟨rfl, hst, ?_⟩
      have hfind := findById_replace_self db id doc
        (documentController.applyUpdate doc (some "owner") body) hdoc
        (applyUpdate_id doc _ body)
      simp [Db.statusOf, hfind, hst]
    · intro hv
      rw [if_neg (by simp [hv])]
      exact ⟨rfl, by simp [Db.statusOf, hdoc]⟩
    · obtain ⟨hf1, hf2, hf3, hf4⟩ := applyUpdate_file doc (some "owner") body
      rw [validate_iff, hst, hf1, hf2, hf3, hf4, applyUpdate_collaborators, applyUpdate_title]
      cases ht : body.title with
      | none =>
        simp only [reduceCtorEq, false_implies, implies_true, true_implies, true_and]
        tauto
      | some t =>
        simp only [Option.some.injEq, forall_eq', reduceCtorEq, false_implies, true_and]
        tauto

/-- C10 (witness): the owner completes a document that awaits signature. -/
theorem C10_only_owner_changes_status_witness :
    (((exampleDoc (some 2) [] "pending_signature").getUserRole 1 ≠ some "owner" →
      (documentController.updateDocument (exampleDb (exampleDoc (some 2) [] "pending_signature"))
        1 10 ⟨none, none, some "completed"⟩).1.statusOf 10
        = some (exampleDoc (some 2) [] "pending_signature").status) ∧
    ((exampleDoc (some 2) [] "pending_signature").getUserRole 1 = some "owner" →
      (⟨none, none, some "completed"⟩ : documentController.UpdateBody).status = none →
      (documentController.updateDocument (exampleDb (exampleDoc (some 2) [] "pending_signature"))
        1 10 ⟨none, none, some "completed"⟩).1.statusOf 10
        = some (exampleDoc (some 2) [] "pending_signature").status) ∧
    ((exampleDoc (some 2) [] "pending_signature").getUserRole 1 = some "owner" →
      ∀ s, (⟨none, none, some "completed"⟩ : documentController.UpdateBody).status = some s →
      ((documentController.applyUpdate (exampleDoc (some 2) [] "pending_signature")
          (some "owner") ⟨none, none, some "completed"⟩).validate = true →
        documentController.updateDocument (exampleDb (exampleDoc (some 2) [] "pending_signature"))
            1 10 ⟨none, none, some "completed"⟩
          = ((exampleDb (exampleDoc (some 2) [] "pending_signature")).replaceDocument
              (documentController.applyUpdate (exampleDoc (some 2) [] "pending_signature")
                (some "owner") ⟨none, none, some "completed"⟩),
              .ok (documentController.applyUpdate (exampleDoc (some 2) [] "pending_signature")
                (some "owner") ⟨none, none, some "completed"⟩)) ∧
        (documentController.applyUpdate (exampleDoc (some 2) [] "pending_signature")
          (some "owner") ⟨none, none, some "completed"⟩).status = s ∧
        (documentController.updateDocument (exampleDb (exampleDoc (some 2) [] "pending_signature"))
          1 10 ⟨none, none, some "completed"⟩).1.statusOf 10 = some s) ∧
      ((documentController.applyUpdate (exampleDoc (some 2) [] "pending_signature")
          (some "owner") ⟨none, none, some "completed"⟩).validate = false →
        documentController.updateDocument (exampleDb (exampleDoc (some 2) [] "pending_signature"))
            1 10 ⟨none, none, some "completed"⟩
          = (exampleDb (exampleDoc (some 2) [] "pending_signature"), .error serverError) ∧
        (documentController.updateDocument (exampleDb (exampleDoc (some 2) [] "pending_signature"))
          1 10 ⟨none, none, some "completed"⟩).1.statusOf 10
          = some (exampleDoc (some 2) [] "pending_signature").status) ∧
      ((documentController.applyUpdate (exampleDoc (some 2) [] "pending_signature")
          (some "owner") ⟨none, none, some "completed"⟩).validate = true ↔
        s ∈ statusEnum ∧
        (∀ t, (⟨none, none, some "completed"⟩ : documentController.UpdateBody).title = some t →
          jsTrim t ≠ "") ∧
        ((⟨none, none, some "completed"⟩ : documentController.UpdateBody).title = none →
          (exampleDoc (some 2) [] "pending_signature").title ≠ "") ∧
        (exampleDoc (some 2) [] "pending_signature").filename ≠ "" ∧
        (exampleDoc (some 2) [] "pending_signature").originalName ≠ "" ∧
        (exampleDoc (some 2) [] "pending_signature").filePath ≠ "" ∧
        (exampleDoc (some 2) [] "pending_signature").mimeType ≠ "" ∧
        ∀ c ∈ (exampleDoc (some 2) [] "pending_signature").collaborators,
          c.permission ∈ permissionEnum))) ∧
    (documentController.updateDocument (exampleDb (exampleDoc (some 2) [] "pending_signature"))
      1 10 ⟨none, none, some "completed"⟩).1.statusOf 10 = some "completed" :=
  ⟨C10_only_owner_changes_status (exampleDb (exampleDoc (some 2) [] "pending_signature")) 1 10
      (exampleDoc (some 2) [] "pending_signature") ⟨none, none, some "completed"⟩
      (by simp [Db.findById, exampleDb, exampleDoc]),
    by rfl⟩

/-! ### Status under the mutating operations -/

/-- The stored status after a successful `save` of an update of the loaded record. -/
theorem statusOf_save (db db1 : Db) (id : ObjectId) (doc upd : Document)
    (hdoc : db.findById id = some doc) (hsv : db.save upd = some db1)
    (hid : upd._id = doc._id) :
    db1.statusOf id = some upd.status := by
  rw [save_some db db1 upd hsv]
  simp [Db.statusOf, findById_replace_self db id doc upd hdoc hid]

/-- The stored status after `addSignature`: unchanged, or `signed`. -/
theorem addSignature_statusOf (db : Db) (caller : ObjectId)
    (body : signingController.SignBody) (ip ua : Option String) (doc : Document)
    (hdoc : db.findById body.documentId = some doc) :
    (signingController.addSignature db caller body ip ua).1.statusOf body.documentId
        = some doc.status ∨
    (signingController.addSignature db caller body ip ua).1.statusOf body.documentId
        = some "signed" := by
  unfold signingController.addSignature
  simp only [hdoc]
  cases hacc : signingController.hasSigningAccess doc caller with
  | false =>
    left
    simp [Db.statusOf, hdoc]
  | true =>
    simp only [Bool.not_true, Bool.false_eq_true, if_false]
    cases hcr : signingController.createSignature db body.documentId caller body.signatureData
        body.position ip ua with
    | none =>
      left
      simp [Db.statusOf, hdoc]
    | some p =>
      obtain ⟨dbc, s⟩ := p
      obtain ⟨hdbc, _, _, _⟩ :=
        createSignature_some db dbc body.documentId caller body.signatureData body.position
          ip ua s hcr
      have hfind : dbc.findById body.documentId = some doc := by
        rw [hdbc]
        exact hdoc
      simp only
      cases hsv : dbc.save
          { doc with signatures := doc.signatures ++ [s._id], status := "signed" } with
      | none =>
        left
        simp [Db.statusOf, hfind]
      | some db2 =>
        right
        exact statusOf_save dbc db2 body.documentId doc _ hfind hsv rfl

/-- The stored status after `addCollaborator` is the prior status. -/
theorem addCollaborator_statusOf (db : Db) (caller id : ObjectId) (doc : Document)
    (body : documentController.CollaboratorBody) (hdoc : db.findById id = some doc) :
    (documentController.addCollaborator db caller id body).1.statusOf id = some doc.status := by
  have hbase : db.statusOf id = some doc.status := by simp [Db.statusOf, hdoc]
  unfold documentController.addCollaborator
  simp only [hdoc]
  split
  · exact hbase
  · split
    · exact hbase
    · split
      · exact hbase
      · split
        · exact hbase
        · split
          · exact hbase
          · rename_i db1 hsv
            have h := statusOf_save db db1 id doc _ hdoc hsv rfl
            exact h

/-- The stored status after `shareDocument` is the prior status. -/
theorem shareDocument_statusOf [JsRuntime] (db : Db) (caller id : ObjectId) (doc : Document)
    (body : documentController.ShareBody) (hdoc : db.findById id = some doc) :
    (documentController.shareDocument db caller id body).1.statusOf id = some doc.status := by
  have hbase : db.statusOf id = some doc.status := by simp [Db.statusOf, hdoc]
  unfold documentController.shareDocument
  simp only [hdoc]
  split
  · exact hbase
  · split
    · exact hbase
    · exact hbase
    · split
      · split
        · exact hbase
        · rename_i db1 hsv
          have h := statusOf_save db db1 id doc _ hdoc hsv rfl
          exact h
      · exact hbase

/-- C7 (counterexample): the owner of a signed document sends `updateDocument` with
status `draft`, and the stored status becomes `draft`. -/
theorem C7_counterexample :
    (exampleDb (exampleDoc none [] "signed")).statusOf 10 = some "signed" ∧
    (documentController.updateDocument (exampleDb (exampleDoc none [] "signed")) 1 10
      ⟨none, none, some "draft"⟩).1.statusOf 10 = some "draft" := by
  constructor
  · simp [Db.statusOf, Db.findById, exampleDb, exampleDoc]
  · simp [documentController.updateDocument, documentController.applyUpdate,
      Document.getUserRole, truthy, Db.save, Db.replaceDocument, Document.validate, permissionEnum,
      statusEnum, Db.statusOf, Db.findById, exampleDb, exampleDoc]

/-- C7 (amended): for a stored document whose status is `signed` or `completed`, the stored
status after `addSignature`, `addCollaborator` and `shareDocument` by any caller with any
input, and after `updateDocument` unless the caller is the owner and the request carries
status `draft` or `pending`, is neither `draft` nor `pending`. -/
theorem C7_status_not_reverted [JsRuntime] (db : Db) (id : ObjectId) (doc : Document)
    (hdoc : db.findById id = some doc)
    (hstatus : doc.status = "signed" ∨ doc.status = "completed") :
    (∀ caller body,
      (doc.getUserRole caller = some "owner" →
        body.status ≠ some "draft" ∧ body.status ≠ some "pending") →
      (documentController.updateDocument db caller id body).1.statusOf id ≠ some "draft" ∧
      (documentController.updateDocument db caller id body).1.statusOf id ≠ some "pending") ∧
    (∀ caller data position ip ua,
      (signingController.addSignature db caller ⟨id, data, position⟩ ip ua).1.statusOf id
        ≠ some "draft" ∧
      (signingController.addSignature db caller ⟨id, data, position⟩ ip ua).1.statusOf id
        ≠ some "pending") ∧
    (∀ caller body,
      (documentController.addCollaborator db caller id body).1.statusOf id ≠ some "draft" ∧
      (documentController.addCollaborator db caller id body).1.statusOf id ≠ some "pending") ∧
    (∀ caller body,
      (documentController.shareDocument db caller id body).1.statusOf id ≠ some "draft" ∧
      (documentController.shareDocument db caller id body).1.statusOf id ≠ some "pending") := by
  have hprior : some doc.status ≠ some "draft" ∧ some doc.status ≠ some "pending" := by
    rcases hstatus with h | h <;> simp [h]
  refine ⟨?_, ?_, ?_, ?_⟩
  · intro caller body hbody
    rcases updateDocument_statusOf db caller id doc body hdoc with h | ⟨hr, s, hs, h⟩
    · rw [h]
      exact hprior
    · rw [h, ← hs]
      exact hbody hr
  · intro caller data position ip ua
    rcases addSignature_statusOf db caller ⟨id, data, position⟩ ip ua doc hdoc with h | h
    · have h1 : (signingController.addSignature db caller ⟨id, data, position⟩ ip ua).1.statusOf id
          = some doc.status := h
      rw [h1]
      exact hprior
    · have h1 : (signingController.addSignature db caller ⟨id, data, position⟩ ip ua).1.statusOf id
          = some "signed" := h
      rw [h1]
      simp
  · intro caller body
    rw [addCollaborator_statusOf db caller id doc body hdoc]
    exact hprior
  · intro caller body
    rw [shareDocument_statusOf db caller id doc body hdoc]
    exact hprior

/-- C7 (witness): the amended statement on a stored completed document. -/
theorem C7_status_not_reverted_witness :
    (∀ caller body,
      ((exampleDoc (some 2) [⟨3, "edit"⟩] "completed").getUserRole caller = some "owner" →
        body.status ≠ some "draft" ∧ body.status ≠ some "pending") →
      (documentController.updateDocument
        (exampleDb (exampleDoc (some 2) [⟨3, "edit"⟩] "completed")) caller 10 body).1.statusOf 10
        ≠ some "draft" ∧
      (documentController.updateDocument
        (exampleDb (exampleDoc (some 2) [⟨3, "edit"⟩] "completed")) caller 10 body).1.statusOf 10
        ≠ some "pending") ∧
    (∀ caller data position ip ua,
      (signingController.addSignature (exampleDb (exampleDoc (some 2) [⟨3, "edit"⟩] "completed"))
        caller ⟨10, data, position⟩ ip ua).1.statusOf 10 ≠ some "draft" ∧
      (signingController.addSignature (exampleDb (exampleDoc (some 2) [⟨3, "edit"⟩] "completed"))
        caller ⟨10, data, position⟩ ip ua).1.statusOf 10 ≠ some "pending") ∧
    (∀ caller body,
      (documentController.addCollaborator
        (exampleDb (exampleDoc (some 2) [⟨3, "edit"⟩] "completed")) caller 10 body).1.statusOf 10
        ≠ some "draft" ∧
      (documentController.addCollaborator
        (exampleDb (exampleDoc (some 2) [⟨3, "edit"⟩] "completed")) caller 10 body).1.statusOf 10
        ≠ some "pending") ∧
    (∀ caller body,
      (documentController.shareDocument
        (exampleDb (exampleDoc (some 2) [⟨3, "edit"⟩] "completed")) caller 10 body).1.statusOf 10
        ≠ some "draft" ∧
      (documentController.shareDocument
        (exampleDb (exampleDoc (some 2) [⟨3, "edit"⟩] "completed")) caller 10 body).1.statusOf 10
        ≠ some "pending") :=
  C7_status_not_reverted (exampleDb (exampleDoc (some 2) [⟨3, "edit"⟩] "completed")) 10
    (exampleDoc (some 2) [⟨3, "edit"⟩] "completed")
    (by simp [Db.findById, exampleDb, exampleDoc])
    (Or.inr (by simp [exampleDoc]))

/-- C8 (counterexample): the owner signs a completed document; the request succeeds and the
stored status drops from `completed` to `signed`, which is lower in the order. -/
theorem C8_counterexample :
    (exampleDb (exampleDoc none [] "completed")).statusOf 10 = some "completed" ∧
    (∃ sig, (signingController.addSignature (exampleDb (exampleDoc none [] "completed")) 1
      ⟨10, some "data:image/png;base64,AAAA", none⟩ none none).2 = .ok sig) ∧
    (signingController.addSignature (exampleDb (exampleDoc none [] "completed")) 1
      ⟨10, some "data:image/png;base64,AAAA", none⟩ none none).1.statusOf 10 = some "signed" ∧
    statusRank "signed" < statusRank "completed" := by
  refine ⟨?_, ?_, ?_, ?_⟩
  · simp [Db.statusOf, Db.findById, exampleDb, exampleDoc]
  · simp [signingController.addSignature, signingController.hasSigningAccess,
      signingController.createSignature, Db.findById, Db.save, Db.replaceDocument,
      Document.validate, statusEnum, permissionEnum, exampleDb, exampleDoc]
  · simp [signingController.addSignature, signingController.hasSigningAccess,
      signingController.createSignature, Db.findById, Db.save, Db.replaceDocument,
      Document.validate, statusEnum, permissionEnum, Db.statusOf, exampleDb, exampleDoc]
  · simp [statusRank]

/-- C8 (amended): a successful `addSignature` leaves the stored status `signed`; with the
order draft < pending_signature < signed < completed this is not lower than the prior status
whenever the prior status is not `completed` (in particular a signed document stays signed),
and a completed document is set back to `signed`. -/
theorem C8_resigning_status (db db1 : Db) (caller : ObjectId)
    (body : signingController.SignBody) (ip ua : Option String) (sig : Signature)
    (hok : signingController.addSignature db caller body ip ua = (db1, .ok sig)) :
    ∃ prior after, db.statusOf body.documentId = some prior ∧
      db1.statusOf body.documentId = some after ∧ after = "signed" ∧
      (prior ≠ "completed" → statusRank prior ≤ statusRank after) ∧
      (prior = "completed" → statusRank after < statusRank prior) := by
  obtain ⟨doc, hdoc, hfind, _, _, _⟩ := addSignature_ok db db1 caller body ip ua sig hok
  have h2 : statusRank "signed" = 2 := by simp [statusRank]
  refine ⟨doc.status, "signed", ?_, ?_, rfl, ?_, ?_⟩
  · simp [Db.statusOf, hdoc]
  · simp [Db.statusOf, hfind]
  · intro hne
    rw [h2]
    unfold statusRank
    simp only [beq_iff_eq, hne, if_false, Bool.or_eq_true]
    split
    · exact Nat.le_refl 2
    · split <;> omega
  · intro h
    rw [h, h2]
    simp [statusRank]

/-- C8 (witness): the owner signs an already signed document. -/
theorem C8_resigning_status_witness :
    ∃ prior after, (exampleDb (exampleDoc none [] "signed")).statusOf 10 = some prior ∧
      (signingController.addSignature (exampleDb (exampleDoc none [] "signed")) 1
        ⟨10, some "data:image/png;base64,AAAA", none⟩ none none).1.statusOf 10 = some after ∧
      after = "signed" ∧
      (prior ≠ "completed" → statusRank prior ≤ statusRank after) ∧
      (prior = "completed" → statusRank after < statusRank prior) :=
  C8_resigning_status (exampleDb (exampleDoc none [] "signed")) _ 1
    ⟨10, some "data:image/png;base64,AAAA", none⟩ none none
    ⟨100, 10, 1, "data:image/png;base64,AAAA", none, none, none, true⟩
    (by
      simp [signingController.addSignature, signingController.hasSigningAccess,
        signingController.createSignature, Db.findById, Db.save, Db.replaceDocument,
        Document.validate, statusEnum, permissionEnum, exampleDb, exampleDoc])

/-! ### `uploadDocument` -/

/-- The empty string fails the signer-email format check. -/
theorem emailRegexTest_ne_empty (s : String) (h : documentController.emailRegexTest s = true) :
    s ≠ "" := by
  intro hs
  subst hs
  revert h
  decide

/-- What a successful `Document.create` stores and returns. -/
theorem createDocument_some [JsRuntime] (db db1 : Db) (owner : ObjectId)
    (file : documentController.UploadFile) (title description signerName signerEmail : String)
    (signerUser : ObjectId) (doc : Document)
    (h : documentController.createDocument db owner file title description signerName signerEmail
      signerUser = some (db1, doc)) :
    db1 = { db with documents := db.documents ++ [doc], nextId := db.nextId + 1 } ∧
    doc.owner = owner ∧ doc.signerUser = some signerUser ∧ doc.status = "pending_signature" ∧
    doc.collaborators = [] ∧ doc.signatures = [] := by
  unfold documentController.createDocument at h
  simp only at h
  split at h
  · simp only [Option.some.injEq, Prod.mk.injEq] at h
    obtain ⟨h1, h2⟩ := h
    subst h2
    exact ⟨h1.symm, rfl, rfl, rfl, rfl, rfl⟩
  · simp at h

/-- The owner of a document has role `owner`. -/
theorem getUserRole_owner (doc : Document) : doc.getUserRole doc.owner = some "owner" := by
  simp [Document.getUserRole]

/-- A response 201 of `uploadDocument` comes from `Document.create` on a resolved signer. -/
theorem uploadDocument_ok [JsRuntime] (db db1 : Db) (uploader : ObjectId)
    (reqFile : Option documentController.UploadFile) (body : documentController.UploadBody)
    (doc : Document)
    (hok : documentController.uploadDocument db uploader reqFile body = (db1, .ok doc)) :
    ∃ file name email S, reqFile = some file ∧ body.signerName = some name ∧ name ≠ "" ∧
      body.signerEmail = some email ∧ documentController.emailRegexTest email = true ∧
      db.findUserByEmail email = some S ∧
      documentController.createDocument db uploader file
        (orElseStr body.title file.originalname) (orElseStr body.description "") name email S._id
        = some (db1, doc) := by
  unfold documentController.uploadDocument at hok
  cases hfile : reqFile with
  | none => simp [hfile] at hok
  | some file =>
    simp only [hfile] at hok
    cases hn : body.signerName with
    | none => simp [hn, truthy] at hok
    | some name =>
      cases he : body.signerEmail with
      | none => simp [hn, he, truthy] at hok
      | some email =>
        by_cases hname : name = ""
        · simp [hn, he, truthy, hname] at hok
        · by_cases hemail : email = ""
          · simp [hn, he, truthy, hemail] at hok
          · have hguard : (!truthy (some name) || !truthy (some email)) = false := by
              simp [truthy, hname, hemail]
            simp only [hn, he, hguard, Bool.false_eq_true, if_false, Option.getD_some] at hok
            cases hre : documentController.emailRegexTest email with
            | false => simp [hre] at hok
            | true =>
              simp only [hre, Bool.not_true, Bool.false_eq_true, if_false] at hok
              cases hS : db.findUserByEmail email with
              | none => simp [hS] at hok
              | some S =>
                simp only [hS] at hok
                cases hcr : documentController.createDocument db uploader file
                    (orElseStr body.title file.originalname) (orElseStr body.description "")
                    name email S._id with
                | none => simp [hcr] at hok
                | some p =>
                  obtain ⟨d1, d⟩ := p
                  simp only [hcr, Prod.mk.injEq, Except.ok.injEq] at hok
                  obtain ⟨h1, h2⟩ := hok
                  subst h1 h2
                  exact ⟨file, name, email, S, rfl, rfl, hname, rfl, hre, hS, hcr⟩

/-- With a file, a non-empty signer name and a well-formed, registered signer email,
`uploadDocument` is the outcome of `Document.create`. -/
theorem uploadDocument_eq [JsRuntime] (db : Db) (uploader : ObjectId) (file : documentController.UploadFile)
    (body : documentController.UploadBody) (name email : String) (S : User)
    (hname : body.signerName = some name) (hne : name ≠ "")
    (hemail : body.signerEmail = some email)
    (hwf : documentController.emailRegexTest email = true)
    (hS : db.findUserByEmail email = some S) :
    documentController.uploadDocument db uploader (some file) body =
      match documentController.createDocument db uploader file
          (orElseStr body.title file.originalname) (orElseStr body.description "") name email
          S._id with
      | none => (db, .error serverError)
      | some (db1, document) => (db1, .ok document) := by
  have hemne := emailRegexTest_ne_empty email hwf
  have hguard : (!truthy (some name) || !truthy (some email)) = false := by
    simp [truthy, hne, hemne]
  unfold documentController.uploadDocument
  simp only [hname, hemail, hguard, Bool.false_eq_true, if_false, Option.getD_some, hwf,
    Bool.not_true, hS]

/-- C11: for an upload with a file, a non-empty signer name and a well-formed signer email
that resolves to the account `S`, a created document (response 201) is appended to the
collection with owner the uploader, signerUser `S`, status `pending_signature` and empty
collaborator and signature lists, so that `getUserRole` of the uploader is `owner`; the
document is created whenever the title and the file metadata satisfy the `required`
validators of the schema. -/
theorem C11_upload_creates_document [JsRuntime] (db : Db) (uploader : ObjectId)
    (file : documentController.UploadFile) (body : documentController.UploadBody)
    (name email : String) (S : User)
    (hname : body.signerName = some name) (hne : name ≠ "")
    (hemail : body.signerEmail = some email)
    (hwf : documentController.emailRegexTest email = true)
    (hS : db.findUserByEmail email = some S) :
    (∀ db1 doc, documentController.uploadDocument db uploader (some file) body = (db1, .ok doc) →
      db1.documents = db.documents ++ [doc] ∧ doc.owner = uploader ∧
      doc.signerUser = some S._id ∧ doc.status = "pending_signature" ∧
      doc.collaborators = [] ∧ doc.signatures = [] ∧
      doc.getUserRole uploader = some "owner") ∧
    (jsTrim (orElseStr body.title file.originalname) ≠ "" → file.filename ≠ "" →
      file.originalname ≠ "" → file.path ≠ "" → file.mimetype ≠ "" →
      ∃ db1 doc, documentController.uploadDocument db uploader (some file) body
        = (db1, .ok doc)) := by
  rw [uploadDocument_eq db uploader file body name email S hname hne hemail hwf hS]
  constructor
  · intro db1 doc hok
    cases hcr : documentController.createDocument db uploader file
        (orElseStr body.title file.originalname) (orElseStr body.description "") name email
        S._id with
    | none => simp [hcr] at hok
    | some p =>
      obtain ⟨d1, d⟩ := p
      simp only [hcr, Prod.mk.injEq, Except.ok.injEq] at hok
      obtain ⟨h1, h2⟩ := hok
      subst h1 h2
      obtain ⟨hdb, ho, hs, hst, hc, hsig⟩ :=
        createDocument_some db d1 uploader file _ _ name email S._id d hcr
      refine ⟨by rw [hdb], ho, hs, hst, hc, hsig, ?_⟩
      rw [← ho]
      exact getUserRole_owner d
  · intro h1 h2 h3 h4 h5
    simp [documentController.createDocument, h1, h2, h3, h4, h5]

/-- C11 (witness): account 1 uploads a contract for the registered signer `sam@x.com`. -/
theorem C11_upload_creates_document_witness :
    (∀ db1 doc, documentController.uploadDocument emptyDb 1 (some exampleFile)
        (exampleUpload (some "Sam") (some "sam@x.com")) = (db1, .ok doc) →
      db1.documents = emptyDb.documents ++ [doc] ∧ doc.owner = 1 ∧
      doc.signerUser = some (⟨2, "Sam", "sam@x.com"⟩ : User)._id ∧
      doc.status = "pending_signature" ∧
      doc.collaborators = [] ∧ doc.signatures = [] ∧
      doc.getUserRole 1 = some "owner") ∧
    (jsTrim (orElseStr (exampleUpload (some "Sam") (some "sam@x.com")).title
        exampleFile.originalname) ≠ "" → exampleFile.filename ≠ "" →
      exampleFile.originalname ≠ "" → exampleFile.path ≠ "" → exampleFile.mimetype ≠ "" →
      ∃ db1 doc, documentController.uploadDocument emptyDb 1 (some exampleFile)
        (exampleUpload (some "Sam") (some "sam@x.com")) = (db1, .ok doc)) :=
  C11_upload_creates_document emptyDb 1 exampleFile (exampleUpload (some "Sam") (some "sam@x.com"))
    "Sam" "sam@x.com" ⟨2, "Sam", "sam@x.com"⟩ rfl (by decide) rfl (by decide)
    (by simp [Db.findUserByEmail, emptyDb, exampleUsers])

/-- The upload of `exampleFile` for the signer `sam@x.com` into `emptyDb` succeeds. -/
theorem upload_example (owner : ObjectId) :
    documentController.uploadDocument emptyDb owner (some exampleFile)
        (exampleUpload (some "Sam") (some "sam@x.com"))
      = ({ emptyDb with documents := [exampleUploaded owner], nextId := 101 },
          .ok (exampleUploaded owner)) := by
  have hS : emptyDb.findUserByEmail "sam@x.com" = some ⟨2, "Sam", "sam@x.com"⟩ := by
    simp [Db.findUserByEmail, emptyDb, exampleUsers]
  rw [uploadDocument_eq emptyDb owner exampleFile
    (exampleUpload (some "Sam") (some "sam@x.com")) "Sam" "sam@x.com" ⟨2, "Sam", "sam@x.com"⟩
    rfl (by decide) rfl (by decide) hS]
  have h1 : jsTrim (orElseStr (exampleUpload (some "Sam") (some "sam@x.com")).title
      exampleFile.originalname) = "Contract" := by decide
  have h2 : jsTrim (orElseStr (exampleUpload (some "Sam") (some "sam@x.com")).description "")
      = "" := by decide
  have h3 : jsTrim "Sam" = "Sam" := by decide
  have h4 : jsToLowerCase (jsTrim "sam@x.com") = "sam@x.com" := by decide
  simp only [documentController.createDocument, h1, h2, h3, h4]
  simp [exampleFile, exampleUploaded, emptyDb]

/-- C12 (counterexample): account 2 uploads a document naming its own address as signer; the
upload succeeds with signerUser 2, and `getUserRole` of 2 is `owner`, not `signer`. -/
theorem C12_counterexample :
    ∃ db1 doc, documentController.uploadDocument emptyDb 2 (some exampleFile)
        (exampleUpload (some "Sam") (some "sam@x.com")) = (db1, .ok doc) ∧
      doc.signerUser = some 2 ∧ doc.getUserRole 2 = some "owner" ∧
      doc.getUserRole 2 ≠ some "signer" := by
  refine ⟨_, _, upload_example 2, rfl, ?_, ?_⟩ <;>
    simp [Document.getUserRole, exampleUploaded]

/-- C12 (amended): after a successful upload the signer account `S` the email resolved to is
the signerUser of the document, and `getUserRole` of `S` is `signer` whenever `S` is not the
uploader; when the uploader named their own address it is `owner`. -/
theorem C12_signer_round_trip [JsRuntime] (db db1 : Db) (uploader : ObjectId)
    (reqFile : Option documentController.UploadFile) (body : documentController.UploadBody)
    (doc : Document)
    (hok : documentController.uploadDocument db uploader reqFile body = (db1, .ok doc)) :
    ∃ email S, body.signerEmail = some email ∧ db.findUserByEmail email = some S ∧
      doc.signerUser = some S._id ∧
      (S._id ≠ uploader → doc.getUserRole S._id = some "signer") ∧
      (S._id = uploader → doc.getUserRole S._id = some "owner") := by
  obtain ⟨file, name, email, S, _, _, _, hemail, _, hS, hcr⟩ :=
    uploadDocument_ok db db1 uploader reqFile body doc hok
  obtain ⟨_, ho, hs, _, _, _⟩ :=
    createDocument_some db db1 uploader file _ _ name email S._id doc hcr
  refine ⟨email, S, hemail, hS, hs, ?_, ?_⟩
  · intro hne
    have hne2 : ¬ uploader = S._id := fun h => hne h.symm
    simp [Document.getUserRole, ho, hs, hne2]
  · intro heq
    simp [Document.getUserRole, ho, heq]

/-- C12 (witness): account 1 uploads for the signer account 2. -/
theorem C12_signer_round_trip_witness :
    ∃ email S, (exampleUpload (some "Sam") (some "sam@x.com")).signerEmail = some email ∧
      emptyDb.findUserByEmail email = some S ∧
      (exampleUploaded 1).signerUser = some S._id ∧
      (S._id ≠ 1 → (exampleUploaded 1).getUserRole S._id = some "signer") ∧
      (S._id = 1 → (exampleUploaded 1).getUserRole S._id = some "owner") :=
  C12_signer_round_trip emptyDb { emptyDb with documents := [exampleUploaded 1], nextId := 101 }
    1 (some exampleFile) (exampleUpload (some "Sam") (some "sam@x.com")) (exampleUploaded 1)
    (upload_example 1)

/-- C13 (counterexample): an upload with a file and neither signer name nor signer email is
answered with 400 and the store is unchanged; no draft document is created. -/
theorem C13_counterexample :
    documentController.uploadDocument emptyDb 1 (some exampleFile) (exampleUpload none none)
      = (emptyDb, .error ⟨400, some "Signer name and email are required"⟩) := by
  simp [documentController.uploadDocument, exampleUpload, truthy]

/-- C13 (amended): signer assignment is required at creation.  An upload with a file whose
signer name or signer email is missing or empty is answered with 400 "Signer name and email
are required" and stores nothing, and every document `uploadDocument` creates has status
`pending_signature` and a signer. -/
theorem C13_signer_required [JsRuntime] (db : Db) (uploader : ObjectId)
    (file : documentController.UploadFile) (body : documentController.UploadBody)
    (hmissing : truthy body.signerName = false ∨ truthy body.signerEmail = false) :
    documentController.uploadDocument db uploader (some file) body
      = (db, .error ⟨400, some "Signer name and email are required"⟩) ∧
    (∀ reqFile body1 db1 doc,
      documentController.uploadDocument db uploader reqFile body1 = (db1, .ok doc) →
      doc.status = "pending_signature" ∧ doc.signerUser.isSome = true) := by
  constructor
  · unfold documentController.uploadDocument
    rcases hmissing with h | h <;> simp [h]
  · intro reqFile body1 db1 doc hok
    obtain ⟨f, name, email, S, _, _, _, _, _, _, hcr⟩ :=
      uploadDocument_ok db db1 uploader reqFile body1 doc hok
    obtain ⟨_, _, hs, hst, _, _⟩ :=
      createDocument_some db db1 uploader f _ _ name email S._id doc hcr
    exact ⟨hst, by simp [hs]⟩

/-- C13 (witness): the upload form without signer. -/
theorem C13_signer_required_witness :
    documentController.uploadDocument emptyDb 1 (some exampleFile) (exampleUpload none none)
      = (emptyDb, .error ⟨400, some "Signer name and email are required"⟩) ∧
    (∀ reqFile body1 db1 doc,
      documentController.uploadDocument emptyDb 1 reqFile body1 = (db1, .ok doc) →
      doc.status = "pending_signature" ∧ doc.signerUser.isSome = true) :=
  C13_signer_required emptyDb 1 exampleFile (exampleUpload none none) (Or.inl rfl)

/-- C14: an upload whose signer email is well-formed but resolves to no account fails and
leaves the store unchanged; with a file and a non-empty signer name the response is 404
"Signer email not found". -/
theorem C14_unregistered_signer [JsRuntime] (db : Db) (uploader : ObjectId)
    (reqFile : Option documentController.UploadFile) (body : documentController.UploadBody)
    (email : String)
    (hemail : body.signerEmail = some email)
    (hwf : documentController.emailRegexTest email = true)
    (hnone : db.findUserByEmail email = none) :
    (documentController.uploadDocument db uploader reqFile body).1 = db ∧
    (∃ e, (documentController.uploadDocument db uploader reqFile body).2 = .error e) ∧
    (∀ file name, reqFile = some file → body.signerName = some name → name ≠ "" →
      (documentController.uploadDocument db uploader reqFile body).2 = .error
        ⟨404, some "Signer email not found. The signer must be registered in the app."⟩) := by
  have hemne := emailRegexTest_ne_empty email hwf
  have hte : truthy (some email) = true := by simp [truthy, hemne]
  unfold documentController.uploadDocument
  cases reqFile with
  | none => simp
  | some file =>
    simp only [hemail, hte, Bool.not_true, Bool.or_false, Option.getD_some, hwf,
      Bool.false_eq_true, if_false, hnone]
    cases hn : truthy body.signerName with
    | true => simp
    | false =>
      simp only [Bool.not_false, if_true]
      refine ⟨trivial, ⟨_, rfl⟩, ?_⟩
      intro f name _ hname hne
      simp [hname, truthy, hne] at hn

/-- C14 (witness): a well-formed address nobody registered. -/
theorem C14_unregistered_signer_witness :
    (documentController.uploadDocument emptyDb 1 (some exampleFile)
      (exampleUpload (some "Nina") (some "nina@x.com"))).1 = emptyDb ∧
    (∃ e, (documentController.uploadDocument emptyDb 1 (some exampleFile)
      (exampleUpload (some "Nina") (some "nina@x.com"))).2 = .error e) ∧
    (∀ file name, some exampleFile = some file →
      (exampleUpload (some "Nina") (some "nina@x.com")).signerName = some name → name ≠ "" →
      (documentController.uploadDocument emptyDb 1 (some exampleFile)
        (exampleUpload (some "Nina") (some "nina@x.com"))).2 = .error
        ⟨404, some "Signer email not found. The signer must be registered in the app."⟩) :=
  C14_unregistered_signer emptyDb 1 (some exampleFile)
    (exampleUpload (some "Nina") (some "nina@x.com")) "nina@x.com" rfl (by decide)
    (by simp [Db.findUserByEmail, emptyDb, exampleUsers])

/-! ### `addCollaborator` -/

/-- The collaborator lookup finds nothing exactly when the account is in no entry. -/
theorem find_collaborator_eq_none (cs : List Collaborator) (u : ObjectId) :
    cs.find? (fun collab => collab.user == u) = none ↔ u ∉ cs.map (fun c => c.user) := by
  rw [List.find?_eq_none]
  simp only [List.mem_map, not_exists, not_and, beq_iff_eq]

/-- The collaborator lookup finds an entry exactly when the account is in some entry. -/
theorem find_collaborator_isSome (cs : List Collaborator) (u : ObjectId) :
    (∃ c, cs.find? (fun collab => collab.user == u) = some c) ↔ u ∈ cs.map (fun c => c.user) := by
  constructor
  · intro h
    by_contra hn
    rw [← find_collaborator_eq_none] at hn
    obtain ⟨c, hc⟩ := h
    rw [hn] at hc
    cases hc
  · intro h
    cases hf : cs.find? (fun collab => collab.user == u) with
    | none => exact absurd h ((find_collaborator_eq_none cs u).mp hf)
    | some c => exact ⟨c, rfl⟩

/-- Validation after appending collaborator entries: the document validated before and
every appended entry carries a schema permission. -/
theorem validate_append (doc : Document) (new : List Collaborator) :
    ({ doc with collaborators := doc.collaborators ++ new } : Document).validate
      = (doc.validate && new.all (fun c => permissionEnum.contains c.permission)) := by
  simp only [Document.validate, List.all_append, Bool.and_assoc]

/-- The outcomes of `addCollaborator` on a stored document, in the order of its checks. -/
theorem addCollaborator_eq (db : Db) (caller id : ObjectId) (doc : Document)
    (body : documentController.CollaboratorBody) (hdoc : db.findById id = some doc) :
    documentController.addCollaborator db caller id body =
      if doc.owner ≠ caller then (db, .error ⟨403, some "Only owner can add collaborators"⟩)
      else
        match db.findUserByEmail body.email with
        | none => (db, .error ⟨404, some "User not found"⟩)
        | some user =>
          if user._id = caller then (db, .error ⟨400, some "Cannot add yourself as collaborator"⟩)
          else if user._id ∈ doc.collaborators.map (fun c => c.user) then
            (db, .error ⟨400, some "User is already a collaborator"⟩)
          else
            match db.save { doc with collaborators :=
                doc.collaborators ++ [⟨user._id, orElseStr body.permission "view"⟩] } with
            | none => (db, .error serverError)
            | some db1 => (db1, .ok { doc with collaborators :=
                doc.collaborators ++ [⟨user._id, orElseStr body.permission "view"⟩] }) := by
  unfold documentController.addCollaborator
  simp only [hdoc, bne_iff_ne, ne_eq, ite_not]
  by_cases ho : doc.owner = caller
  · simp only [ho, if_true]
    cases hu : db.findUserByEmail body.email with
    | none => rfl
    | some user =>
      simp only [beq_iff_eq]
      by_cases hself : user._id = caller
      · simp only [hself, if_true]
      · simp only [hself, if_false]
        cases hf : doc.collaborators.find? (fun collab => collab.user == user._id) with
        | none =>
          have hnot := (find_collaborator_eq_none doc.collaborators user._id).mp hf
          simp only [hnot, if_false]
        | some c =>
          have hin := (find_collaborator_isSome doc.collaborators user._id).mp ⟨c, hf⟩
          simp only [hin, if_true]
  · simp only [ho, if_false]

/-- C15 (counterexample): the owner of `sharedDoc` invites `vera@x.com`, a registered account
that is neither the owner nor a collaborator, with the permission `admin`.  All four
conditions of the claim hold, yet the request fails, with none of the four named errors but
with 500, and nothing is stored. -/
theorem C15_counterexample :
    sharedDb.findById 10 = some sharedDoc ∧ sharedDoc.owner = 1 ∧
    sharedDb.findUserByEmail "vera@x.com" = some ⟨4, "Vera", "vera@x.com"⟩ ∧
    (4 : ObjectId) ≠ sharedDoc.owner ∧
    (4 : ObjectId) ∉ sharedDoc.collaborators.map (fun c => c.user) ∧
    documentController.addCollaborator sharedDb 1 10 ⟨"vera@x.com", some "admin"⟩
      = (sharedDb, .error serverError) ∧
    serverError.status = 500 := by
  refine ⟨by rfl, by rfl, by rfl, by decide, by decide, by rfl, by rfl⟩

/-- C15 (amended): on a stored document `addCollaborator` checks, in this order, that the
caller is the owner (else 403), that the email resolves to an account `A` (else 404 "User
not found"), that `A` is not the owner (else 400 "Cannot add yourself") and that `A` is not
yet a collaborator (else 400 "already a collaborator"); each of these failures leaves the
store unchanged.  When all four conditions hold, the entry to store is `(A, p)` with `p` the
requested permission, `view` when the permission is missing or empty: if the document with
this entry appended passes schema validation, which it does exactly when the stored document
is valid and `p` is one of `view`, `sign`, `edit`, the request succeeds, and the returned and
the stored collaborator list are the prior list followed by `(A, p)`; if not, the request
fails with 500 and the store is unchanged.  So the request succeeds exactly when the four
conditions hold and the updated document is valid. -/
theorem C15_addCollaborator_outcomes (db : Db) (caller id : ObjectId) (doc : Document)
    (body : documentController.CollaboratorBody) (hdoc : db.findById id = some doc) :
    (doc.owner ≠ caller →
      documentController.addCollaborator db caller id body
        = (db, .error ⟨403, some "Only owner can add collaborators"⟩)) ∧
    (doc.owner = caller → db.findUserByEmail body.email = none →
      documentController.addCollaborator db caller id body
        = (db, .error ⟨404, some "User not found"⟩)) ∧
    (∀ A, doc.owner = caller → db.findUserByEmail body.email = some A → A._id = doc.owner →
      documentController.addCollaborator db caller id body
        = (db, .error ⟨400, some "Cannot add yourself as collaborator"⟩)) ∧
    (∀ A, doc.owner = caller → db.findUserByEmail body.email = some A → A._id ≠ doc.owner →
      A._id ∈ doc.collaborators.map (fun c => c.user) →
      documentController.addCollaborator db caller id body
        = (db, .error ⟨400, some "User is already a collaborator"⟩)) ∧
    (∀ A p, doc.owner = caller → db.findUserByEmail body.email = some A → A._id ≠ doc.owner →
      A._id ∉ doc.collaborators.map (fun c => c.user) →
      ((body.permission = some p ∧ p ≠ "") ∨
        ((body.permission = none ∨ body.permission = some "") ∧ p = "view")) →
      (doc.validate = true ∧ p ∈ permissionEnum →
        documentController.addCollaborator db caller id body
          = (db.replaceDocument { doc with collaborators := doc.collaborators ++ [⟨A._id, p⟩] },
              .ok { doc with collaborators := doc.collaborators ++ [⟨A._id, p⟩] }) ∧
        (documentController.addCollaborator db caller id body).1.findById id
          = some { doc with collaborators := doc.collaborators ++ [⟨A._id, p⟩] }) ∧
      (¬ (doc.validate = true ∧ p ∈ permissionEnum) →
        documentController.addCollaborator db caller id body = (db, .error serverError)) ∧
      (({ doc with collaborators := doc.collaborators ++ [⟨A._id, p⟩] } : Document).validate
          = true ↔ doc.validate = true ∧ p ∈ permissionEnum)) ∧
    ((∃ upd, (documentController.addCollaborator db caller id body).2 = .ok upd) ↔
      doc.owner = caller ∧ ∃ A, db.findUserByEmail body.email = some A ∧ A._id ≠ doc.owner ∧
        A._id ∉ doc.collaborators.map (fun c => c.user) ∧
        ({ doc with collaborators :=
            doc.collaborators ++ [⟨A._id, orElseStr body.permission "view"⟩] } : Document).validate
          = true) := by
  have hvalid : ∀ (a : ObjectId) (p : String),
      (({ doc with collaborators := doc.collaborators ++ [⟨a, p⟩] } : Document).validate = true
        ↔ doc.validate = true ∧ p ∈ permissionEnum) := by
    intro a p
    rw [validate_append]
    simp
  rw [addCollaborator_eq db caller id doc body hdoc]
  refine ⟨?_, ?_, ?_, ?_, ?_, ?_⟩
  · intro ho
    rw [if_pos ho]
  · intro ho hu
    rw [if_neg (not_not.mpr ho), hu]
  · intro A ho hu hself
    rw [if_neg (not_not.mpr ho), hu]
    simp only
    rw [if_pos (hself.trans ho)]
  · intro A ho hu hself hin
    rw [if_neg (not_not.mpr ho), hu]
    simp only
    rw [if_neg (fun h => hself (h.trans ho.symm)), if_pos hin]
  · intro A p ho hu hself hnin hp
    have hperm : orElseStr body.permission "view" = p := by
      rcases hp with ⟨h1, h2⟩ | ⟨h1 | h1, h2⟩
      · simp [orElseStr, h1, h2]
      · simp [orElseStr, h1, h2]
      · simp [orElseStr, h1, h2]
    rw [if_neg (not_not.mpr ho), hu]
    simp only
    rw [if_neg (fun h => hself (h.trans ho.symm)), if_neg hnin, hperm]
    refine ⟨?_, ?_, hvalid A._id p⟩
    · intro hv
      have hsv : db.save { doc with collaborators := doc.collaborators ++ [⟨A._id, p⟩] }
          = some (db.replaceDocument
            { doc with collaborators := doc.collaborators ++ [⟨A._id, p⟩] }) := by
        simp only [Db.save, (hvalid A._id p).mpr hv, if_true]
      rw [hsv]
      exact ⟨rfl, findById_replace_self db id doc _ hdoc rfl⟩
    · intro hv
      have hval : ({ doc with collaborators := doc.collaborators ++ [⟨A._id, p⟩] }
          : Document).validate = false := by
        cases hb : ({ doc with collaborators := doc.collaborators ++ [⟨A._id, p⟩] }
            : Document).validate with
        | false => rfl
        | true => exact absurd ((hvalid A._id p).mp hb) hv
      simp only [Db.save, hval, Bool.false_eq_true, if_false]
  · constructor
    · intro hok
      obtain ⟨upd, hupd⟩ := hok
      by_cases ho : doc.owner = caller
      · refine ⟨ho, ?_⟩
        rw [if_neg (not_not.mpr ho)] at hupd
        cases hu : db.findUserByEmail body.email with
        | none => simp [hu] at hupd
        | some A =>
          simp only [hu] at hupd
          by_cases hself : A._id = caller
          · rw [if_pos hself] at hupd
            simp at hupd
          · rw [if_neg hself] at hupd
            by_cases hin : A._id ∈ doc.collaborators.map (fun c => c.user)
            · rw [if_pos hin] at hupd
              simp at hupd
            · rw [if_neg hin] at hupd
              refine ⟨A, rfl, fun h => hself (h.trans ho), hin, ?_⟩
              cases hb : ({ doc with collaborators := doc.collaborators ++
                  [⟨A._id, orElseStr body.permission "view"⟩] } : Document).validate with
              | true => rfl
              | false =>
                simp only [Db.save, hb, Bool.false_eq_true, if_false] at hupd
                cases hupd
      · rw [if_pos ho] at hupd
        simp at hupd
    · rintro ⟨ho, A, hu, hself, hnin, hv⟩
      rw [if_neg (not_not.mpr ho), hu]
      simp only
      rw [if_neg (fun h => hself (h.trans ho.symm)), if_neg hnin]
      simp only [Db.save, hv, if_true]
      exact ⟨_, rfl⟩

/-- C15 (witness): the owner invites `vera@x.com` to `sharedDoc` with the permission `sign`;
the pair `(4, sign)` is appended to the stored list. -/
theorem C15_addCollaborator_outcomes_witness :
    ((sharedDoc.owner ≠ 1 →
      documentController.addCollaborator sharedDb 1 10 ⟨"vera@x.com", some "sign"⟩
        = (sharedDb, .error ⟨403, some "Only owner can add collaborators"⟩)) ∧
    (sharedDoc.owner = 1 → sharedDb.findUserByEmail "vera@x.com" = none →
      documentController.addCollaborator sharedDb 1 10 ⟨"vera@x.com", some "sign"⟩
        = (sharedDb, .error ⟨404, some "User not found"⟩)) ∧
    (∀ A, sharedDoc.owner = 1 → sharedDb.findUserByEmail "vera@x.com" = some A →
      A._id = sharedDoc.owner →
      documentController.addCollaborator sharedDb 1 10 ⟨"vera@x.com", some "sign"⟩
        = (sharedDb, .error ⟨400, some "Cannot add yourself as collaborator"⟩)) ∧
    (∀ A, sharedDoc.owner = 1 → sharedDb.findUserByEmail "vera@x.com" = some A →
      A._id ≠ sharedDoc.owner → A._id ∈ sharedDoc.collaborators.map (fun c => c.user) →
      documentController.addCollaborator sharedDb 1 10 ⟨"vera@x.com", some "sign"⟩
        = (sharedDb, .error ⟨400, some "User is already a collaborator"⟩)) ∧
    (∀ A p, sharedDoc.owner = 1 → sharedDb.findUserByEmail "vera@x.com" = some A →
      A._id ≠ sharedDoc.owner → A._id ∉ sharedDoc.collaborators.map (fun c => c.user) →
      (((some "sign" : Option String) = some p ∧ p ≠ "") ∨
        (((some "sign" : Option String) = none ∨ (some "sign" : Option String) = some "")
          ∧ p = "view")) →
      (sharedDoc.validate = true ∧ p ∈ permissionEnum →
        documentController.addCollaborator sharedDb 1 10 ⟨"vera@x.com", some "sign"⟩
          = (sharedDb.replaceDocument
              { sharedDoc with collaborators := sharedDoc.collaborators ++ [⟨A._id, p⟩] },
              .ok { sharedDoc with collaborators := sharedDoc.collaborators ++ [⟨A._id, p⟩] }) ∧
        (documentController.addCollaborator sharedDb 1 10
            ⟨"vera@x.com", some "sign"⟩).1.findById 10
          = some { sharedDoc with collaborators := sharedDoc.collaborators ++ [⟨A._id, p⟩] }) ∧
      (¬ (sharedDoc.validate = true ∧ p ∈ permissionEnum) →
        documentController.addCollaborator sharedDb 1 10 ⟨"vera@x.com", some "sign"⟩
          = (sharedDb, .error serverError)) ∧
      (({ sharedDoc with collaborators := sharedDoc.collaborators ++ [⟨A._id, p⟩] }
          : Document).validate = true ↔ sharedDoc.validate = true ∧ p ∈ permissionEnum)) ∧
    ((∃ upd, (documentController.addCollaborator sharedDb 1 10
        ⟨"vera@x.com", some "sign"⟩).2 = .ok upd) ↔
      sharedDoc.owner = 1 ∧ ∃ A, sharedDb.findUserByEmail "vera@x.com" = some A ∧
        A._id ≠ sharedDoc.owner ∧ A._id ∉ sharedDoc.collaborators.map (fun c => c.user) ∧
        ({ sharedDoc with collaborators := sharedDoc.collaborators ++
            [⟨A._id, orElseStr (some "sign") "view"⟩] } : Document).validate = true)) ∧
    documentController.addCollaborator sharedDb 1 10 ⟨"vera@x.com", some "sign"⟩
      = (sharedDb.replaceDocument (exampleDoc (some 2) [⟨3, "edit"⟩, ⟨4, "sign"⟩] "draft"),
          .ok (exampleDoc (some 2) [⟨3, "edit"⟩, ⟨4, "sign"⟩] "draft")) :=
  ⟨C15_addCollaborator_outcomes sharedDb 1 10 sharedDoc ⟨"vera@x.com", some "sign"⟩
      (by simp [Db.findById, sharedDb, sharedDoc, exampleDb, exampleDoc]),
    by rfl⟩

/-! ### The loop of `shareDocument` -/

/-- A property kept by every iteration of the sharing loop holds after the loop. -/
theorem shareLoop_induction [JsRuntime] (db : Db) (caller : ObjectId) (perm : Option String)
    (P : List Collaborator × documentController.ShareResults → Prop)
    (hstep : ∀ acc e, P acc → P (documentController.shareStep db caller perm acc e))
    (emails : List String) (acc : List Collaborator × documentController.ShareResults)
    (h0 : P acc) :
    P (emails.foldl (documentController.shareStep db caller perm) acc) := by
  induction emails generalizing acc with
  | nil => exact h0
  | cons e es ih => exact ih _ (hstep acc e h0)

/-- One iteration either leaves the collaborator list alone or appends one entry for an
account that is not the caller, was not in the list, and is the resolution of the email. -/
theorem shareStep_cases [JsRuntime] (db : Db) (caller : ObjectId) (perm : Option String)
    (acc : List Collaborator × documentController.ShareResults) (e : String) :
    ((documentController.shareStep db caller perm acc e).1 = acc.1 ∧
      (documentController.shareStep db caller perm acc e).2.added = acc.2.added) ∨
    (∃ u, shareResolve db e = some u ∧ u._id ≠ caller ∧
      u._id ∉ acc.1.map (fun c => c.user) ∧
      (documentController.shareStep db caller perm acc e).1
        = acc.1 ++ [⟨u._id, orElseStr perm "view"⟩] ∧
      (documentController.shareStep db caller perm acc e).2.added
        = acc.2.added ++ [⟨e, u.name⟩]) := by
  unfold documentController.shareStep
  cases hres : db.findUserByEmail (jsTrim (jsToLowerCase e)) with
  | none => left; exact ⟨rfl, rfl⟩
  | some u =>
    by_cases hself : u._id = caller
    · left
      simp [hself]
    · cases hf : acc.1.find? (fun collab => collab.user == u._id) with
      | some c =>
        left
        simp [hself, hf]
      | none =>
        right
        refine ⟨u, hres, hself, (find_collaborator_eq_none acc.1 u._id).mp hf, ?_, ?_⟩ <;>
          simp [hself, hf]

/-- The loop never puts the caller into the collaborator list. -/
theorem shareLoop_caller_free [JsRuntime] (db : Db) (caller : ObjectId) (perm : Option String)
    (cs : List Collaborator) (emails : List String)
    (h : caller ∉ cs.map (fun c => c.user)) :
    caller ∉ (documentController.shareLoop db caller perm cs emails).1.map (fun c => c.user) := by
  unfold documentController.shareLoop
  refine shareLoop_induction db caller perm (fun acc => caller ∉ acc.1.map (fun c => c.user))
    ?_ emails (cs, ⟨[], [], []⟩) h
  intro acc e hacc
  rcases shareStep_cases db caller perm acc e with ⟨h1, _⟩ | ⟨u, _, hne, _, h1, _⟩
  · rw [h1]
    exact hacc
  · rw [h1]
    simp only [List.map_append, List.map_cons, List.map_nil, List.mem_append,
      List.mem_singleton, not_or]
    exact ⟨hacc, fun h => hne h.symm⟩

/-- The loop keeps the account ids of the collaborator list pairwise distinct. -/
theorem shareLoop_nodup [JsRuntime] (db : Db) (caller : ObjectId) (perm : Option String)
    (cs : List Collaborator) (emails : List String)
    (h : (cs.map (fun c => c.user)).Nodup) :
    ((documentController.shareLoop db caller perm cs emails).1.map (fun c => c.user)).Nodup := by
  unfold documentController.shareLoop
  refine shareLoop_induction db caller perm (fun acc => (acc.1.map (fun c => c.user)).Nodup)
    ?_ emails (cs, ⟨[], [], []⟩) h
  intro acc e hacc
  rcases shareStep_cases db caller perm acc e with ⟨h1, _⟩ | ⟨u, _, _, hnin, h1, _⟩
  · rw [h1]
    exact hacc
  · rw [h1]
    simp only [List.map_append, List.map_cons, List.map_nil]
    rw [List.nodup_append]
    refine ⟨hacc, List.nodup_singleton _, ?_⟩
    intro a ha hb
    simp only [List.mem_singleton] at hb
    subst hb
    exact hnin ha

/-- The loop only appends to the collaborator list, one matching entry per element of the
`added` bucket and in the same order. -/
theorem shareLoop_grows [JsRuntime] (db : Db) (caller : ObjectId) (perm : Option String)
    (cs : List Collaborator) (emails : List String) :
    ∃ new, (documentController.shareLoop db caller perm cs emails).1 = cs ++ new ∧
      List.Forall₂ (fun c e => newEntryMatches db perm c e = true) new
        (documentController.shareLoop db caller perm cs emails).2.added := by
  unfold documentController.shareLoop
  refine shareLoop_induction db caller perm
    (fun acc => ∃ new, acc.1 = cs ++ new ∧
      List.Forall₂ (fun c e => newEntryMatches db perm c e = true) new acc.2.added)
    ?_ emails (cs, ⟨[], [], []⟩) ⟨[], by simp, List.Forall₂.nil⟩
  intro acc e hacc
  obtain ⟨new, hnew, hrel⟩ := hacc
  rcases shareStep_cases db caller perm acc e with ⟨h1, h2⟩ | ⟨u, hres, _, _, h1, h2⟩
  · exact ⟨new, by rw [h1, hnew], by rw [h2]; exact hrel⟩
  · refine ⟨new ++ [⟨u._id, orElseStr perm "view"⟩], by rw [h1, hnew, List.append_assoc], ?_⟩
    rw [h2]
    refine List.rel_append hrel (List.Forall₂.cons ?_ List.Forall₂.nil)
    simp [newEntryMatches, hres]

/-- The outcomes of `shareDocument` on a stored document: an error that leaves the store
unchanged, or, for the owner and a non-empty email list, the result of the loop, saved when
the `added` bucket is not empty. -/
theorem shareDocument_cases [JsRuntime] (db : Db) (caller id : ObjectId) (doc : Document)
    (body : documentController.ShareBody) (hdoc : db.findById id = some doc) :
    (∃ e, documentController.shareDocument db caller id body = (db, .error e)) ∨
    (doc.owner = caller ∧ ∃ emails, body.emails = some emails ∧ emails ≠ [] ∧
      (((documentController.shareLoop db caller body.permission doc.collaborators emails).2.added
          = [] ∧
        documentController.shareDocument db caller id body
          = (db, .ok ({ doc with collaborators :=
              (documentController.shareLoop db caller body.permission doc.collaborators emails).1 },
            (documentController.shareLoop db caller body.permission doc.collaborators emails).2)))
      ∨
      ((documentController.shareLoop db caller body.permission doc.collaborators emails).2.added
          ≠ [] ∧
        documentController.shareDocument db caller id body
          = (db.replaceDocument { doc with collaborators :=
              (documentController.shareLoop db caller body.permission doc.collaborators emails).1 },
            .ok ({ doc with collaborators :=
              (documentController.shareLoop db caller body.permission doc.collaborators emails).1 },
            (documentController.shareLoop db caller body.permission doc.collaborators
              emails).2))))) := by
  unfold documentController.shareDocument
  simp only [hdoc]
  by_cases ho : doc.owner = caller
  · have hob : (doc.owner != caller) = false := by simp [ho]
    simp only [hob, Bool.false_eq_true, if_false]
    cases hem : body.emails with
    | none => left; exact ⟨_, rfl⟩
    | some emails =>
      cases emails with
      | nil => left; exact ⟨_, rfl⟩
      | cons e es =>
        simp only
        by_cases hadd : (documentController.shareLoop db caller body.permission
            doc.collaborators (e :: es)).2.added = []
        · right
          refine ⟨ho, e :: es, rfl, by simp, Or.inl ⟨hadd, ?_⟩⟩
          simp [hadd]
        · have hlen : (documentController.shareLoop db caller body.permission
              doc.collaborators (e :: es)).2.added.length > 0 :=
            List.length_pos.mpr hadd
          simp only [hlen, if_true]
          cases hsv : db.save { doc with collaborators :=
              (documentController.shareLoop db caller body.permission doc.collaborators
                (e :: es)).1 } with
          | none => left; exact ⟨_, rfl⟩
          | some db1 =>
            right
            refine ⟨ho, e :: es, rfl, by simp, Or.inr ⟨hadd, ?_⟩⟩
            rw [save_some db db1 _ hsv]
  · have hob : (doc.owner != caller) = true := by simp [ho]
    simp only [hob, if_true]
    left
    exact ⟨_, rfl⟩

/-- The store after `addCollaborator`: unchanged, or the document saved with one more entry
for an account that is not the caller and was not in the list. -/
theorem addCollaborator_cases (db : Db) (caller id : ObjectId) (doc : Document)
    (body : documentController.CollaboratorBody) (hdoc : db.findById id = some doc) :
    (∃ e, documentController.addCollaborator db caller id body = (db, .error e)) ∨
    (doc.owner = caller ∧ ∃ u, db.findUserByEmail body.email = some u ∧ u._id ≠ caller ∧
      u._id ∉ doc.collaborators.map (fun c => c.user) ∧
      documentController.addCollaborator db caller id body
        = (db.replaceDocument { doc with collaborators :=
            doc.collaborators ++ [⟨u._id, orElseStr body.permission "view"⟩] },
          .ok { doc with collaborators :=
            doc.collaborators ++ [⟨u._id, orElseStr body.permission "view"⟩] })) := by
  rw [addCollaborator_eq db caller id doc body hdoc]
  by_cases ho : doc.owner = caller
  · rw [if_neg (not_not.mpr ho)]
    cases hu : db.findUserByEmail body.email with
    | none => left; exact ⟨_, rfl⟩
    | some u =>
      simp only
      by_cases hself : u._id = caller
      · rw [if_pos hself]
        left; exact ⟨_, rfl⟩
      · rw [if_neg hself]
        by_cases hin : u._id ∈ doc.collaborators.map (fun c => c.user)
        · rw [if_pos hin]
          left; exact ⟨_, rfl⟩
        · rw [if_neg hin]
          cases hsv : db.save { doc with collaborators :=
              doc.collaborators ++ [⟨u._id, orElseStr body.permission "view"⟩] } with
          | none => left; exact ⟨_, rfl⟩
          | some db1 =>
            right
            refine ⟨ho, u, rfl, hself, hin, ?_⟩
            rw [save_some db db1 _ hsv]
  · rw [if_pos ho]
    left; exact ⟨_, rfl⟩

/-- After the write of `save`, the record saved with a new collaborator list is the one found
under its id. -/
theorem findById_replace_collaborators (db : Db) (id : ObjectId) (doc : Document)
    (cs : List Collaborator) (hdoc : db.findById id = some doc) :
    (db.replaceDocument { doc with collaborators := cs }).findById id
      = some { doc with collaborators := cs } :=
  findById_replace_self db id doc { doc with collaborators := cs } hdoc rfl

/-- The document stored under the id, or returned, after `addCollaborator`: the prior one,
or the prior one with one more entry for an account that is neither the caller nor listed. -/
theorem addCollaborator_stored (db : Db) (caller id : ObjectId) (doc : Document)
    (body : documentController.CollaboratorBody) (hdoc : db.findById id = some doc)
    (doc1 : Document)
    (h : (documentController.addCollaborator db caller id body).1.findById id = some doc1 ∨
      (documentController.addCollaborator db caller id body).2 = .ok doc1) :
    doc1 = doc ∨
    (doc.owner = caller ∧ ∃ u : ObjectId, u ≠ caller ∧ u ∉ doc.collaborators.map (fun c => c.user) ∧
      doc1 = { doc with collaborators :=
        doc.collaborators ++ [⟨u, orElseStr body.permission "view"⟩] }) := by
  rcases addCollaborator_cases db caller id doc body hdoc with ⟨e, he⟩ | ⟨ho, u, _, hne, hnin, hr⟩
  · left
    rw [he] at h
    rcases h with h | h
    · rw [hdoc] at h
      exact (Option.some.inj h).symm
    · cases h
  · right
    refine ⟨ho, u._id, hne, hnin, ?_⟩
    rw [hr] at h
    rcases h with h | h
    · dsimp only at h
      rw [findById_replace_collaborators db id doc _ hdoc] at h
      exact (Option.some.inj h).symm
    · exact (Except.ok.inj h).symm

/-- The document stored under the id, or returned, after `shareDocument`: the prior one,
or, for the owner, the prior one with the collaborator list the loop produced. -/
theorem shareDocument_stored [JsRuntime] (db : Db) (caller id : ObjectId) (doc : Document)
    (body : documentController.ShareBody) (hdoc : db.findById id = some doc)
    (doc1 : Document)
    (h : (documentController.shareDocument db caller id body).1.findById id = some doc1 ∨
      ∃ res, (documentController.shareDocument db caller id body).2 = .ok (doc1, res)) :
    doc1 = doc ∨
    (doc.owner = caller ∧ ∃ emails, doc1 = { doc with collaborators :=
      (documentController.shareLoop db caller body.permission doc.collaborators emails).1 }) := by
  rcases shareDocument_cases db caller id doc body hdoc with
    ⟨e, he⟩ | ⟨ho, emails, _, _, ⟨_, hr⟩ | ⟨_, hr⟩⟩
  · left
    rw [he] at h
    rcases h with h | ⟨res, h⟩
    · rw [hdoc] at h
      exact (Option.some.inj h).symm
    · cases h
  · rw [hr] at h
    rcases h with h | ⟨res, h⟩
    · left
      rw [hdoc] at h
      exact (Option.some.inj h).symm
    · right
      refine ⟨ho, emails, ?_⟩
      have h2 := Except.ok.inj h
      exact (congrArg Prod.fst h2).symm
  · right
    refine ⟨ho, emails, ?_⟩
    rw [hr] at h
    rcases h with h | ⟨res, h⟩
    · dsimp only at h
      rw [findById_replace_collaborators db id doc _ hdoc] at h
      exact (Option.some.inj h).symm
    · have h2 := Except.ok.inj h
      exact (congrArg Prod.fst h2).symm

/-- C16: if the collaborator list of a stored document holds each account id at most once,
then so does the list of the document stored, and of the document returned, after any
`addCollaborator` or `shareDocument` call, whatever the caller, the email or the email list
(repeated addresses and different spellings of one address included). -/
theorem C16_collaborator_uniqueness [JsRuntime] (db : Db) (id : ObjectId) (doc : Document)
    (hdoc : db.findById id = some doc)
    (hnodup : (doc.collaborators.map (fun c => c.user)).Nodup) :
    (∀ caller body doc1,
      (documentController.addCollaborator db caller id body).1.findById id = some doc1 ∨
        (documentController.addCollaborator db caller id body).2 = .ok doc1 →
      (doc1.collaborators.map (fun c => c.user)).Nodup) ∧
    (∀ caller body doc1,
      (documentController.shareDocument db caller id body).1.findById id = some doc1 ∨
        (∃ res, (documentController.shareDocument db caller id body).2 = .ok (doc1, res)) →
      (doc1.collaborators.map (fun c => c.user)).Nodup) := by
  constructor
  · intro caller body doc1 h
    rcases addCollaborator_stored db caller id doc body hdoc doc1 h with h1 | ⟨_, u, _, hnin, h1⟩
    · rw [h1]
      exact hnodup
    · rw [h1]
      simp only [List.map_append, List.map_cons, List.map_nil]
      rw [List.nodup_append]
      refine ⟨hnodup, List.nodup_singleton _, ?_⟩
      intro a ha hb
      simp only [List.mem_singleton] at hb
      subst hb
      exact hnin ha
  · intro caller body doc1 h
    rcases shareDocument_stored db caller id doc body hdoc doc1 h with h1 | ⟨_, emails, h1⟩
    · rw [h1]
      exact hnodup
    · rw [h1]
      exact shareLoop_nodup db caller body.permission doc.collaborators emails hnodup

/-- C17: if the collaborator list of a stored document does not contain its owner, then
neither does the list of the document stored, or returned, after any `addCollaborator` or
`shareDocument` call by any caller with any email or email list. -/
theorem C17_owner_never_collaborator [JsRuntime] (db : Db) (id : ObjectId) (doc : Document)
    (hdoc : db.findById id = some doc)
    (hfree : doc.owner ∉ doc.collaborators.map (fun c => c.user)) :
    (∀ caller body doc1,
      (documentController.addCollaborator db caller id body).1.findById id = some doc1 ∨
        (documentController.addCollaborator db caller id body).2 = .ok doc1 →
      doc1.owner = doc.owner ∧ doc1.owner ∉ doc1.collaborators.map (fun c => c.user)) ∧
    (∀ caller body doc1,
      (documentController.shareDocument db caller id body).1.findById id = some doc1 ∨
        (∃ res, (documentController.shareDocument db caller id body).2 = .ok (doc1, res)) →
      doc1.owner = doc.owner ∧ doc1.owner ∉ doc1.collaborators.map (fun c => c.user)) := by
  constructor
  · intro caller body doc1 h
    rcases addCollaborator_stored db caller id doc body hdoc doc1 h with h1 | ⟨ho, u, hne, _, h1⟩
    · rw [h1]
      exact ⟨rfl, hfree⟩
    · rw [h1]
      refine ⟨rfl, ?_⟩
      simp only [List.map_append, List.map_cons, List.map_nil, List.mem_append,
        List.mem_singleton, not_or]
      exact ⟨hfree, fun h => hne (h.symm.trans ho)⟩
  · intro caller body doc1 h
    rcases shareDocument_stored db caller id doc body hdoc doc1 h with h1 | ⟨ho, emails, h1⟩
    · rw [h1]
      exact ⟨rfl, hfree⟩
    · rw [h1]
      refine ⟨rfl, ?_⟩
      have hfree2 : caller ∉ doc.collaborators.map (fun c => c.user) := ho ▸ hfree
      have := shareLoop_caller_free db caller body.permission doc.collaborators emails hfree2
      simpa [ho] using this

/-- C16 (witness): `sharedDoc`, whose single collaborator is account 3. -/
theorem C16_collaborator_uniqueness_witness :
    (∀ caller body doc1,
      (documentController.addCollaborator sharedDb caller 10 body).1.findById 10 = some doc1 ∨
        (documentController.addCollaborator sharedDb caller 10 body).2 = .ok doc1 →
      (doc1.collaborators.map (fun c => c.user)).Nodup) ∧
    (∀ caller body doc1,
      (documentController.shareDocument sharedDb caller 10 body).1.findById 10 = some doc1 ∨
        (∃ res, (documentController.shareDocument sharedDb caller 10 body).2 = .ok (doc1, res)) →
      (doc1.collaborators.map (fun c => c.user)).Nodup) :=
  C16_collaborator_uniqueness sharedDb 10 sharedDoc
    (by simp [Db.findById, sharedDb, sharedDoc, exampleDb, exampleDoc])
    (by simp [sharedDoc, exampleDoc])

/-- C17 (witness): `sharedDoc`, owned by account 1 with collaborator 3. -/
theorem C17_owner_never_collaborator_witness :
    (∀ caller body doc1,
      (documentController.addCollaborator sharedDb caller 10 body).1.findById 10 = some doc1 ∨
        (documentController.addCollaborator sharedDb caller 10 body).2 = .ok doc1 →
      doc1.owner = sharedDoc.owner ∧ doc1.owner ∉ doc1.collaborators.map (fun c => c.user)) ∧
    (∀ caller body doc1,
      (documentController.shareDocument sharedDb caller 10 body).1.findById 10 = some doc1 ∨
        (∃ res, (documentController.shareDocument sharedDb caller 10 body).2 = .ok (doc1, res)) →
      doc1.owner = sharedDoc.owner ∧ doc1.owner ∉ doc1.collaborators.map (fun c => c.user)) :=
  C17_owner_never_collaborator sharedDb 10 sharedDoc
    (by simp [Db.findById, sharedDb, sharedDoc, exampleDb, exampleDoc])
    (by simp [sharedDoc, exampleDoc])

/-! ### The buckets of `shareDocument` -/

/-- The specification buckets for an email that resolves to no account. -/
theorem spec_cons_notFound (resolve : String → Option User) (owner : ObjectId)
    (present : List ObjectId) (e : String) (es : List String) (h : resolve e = none) :
    shareBucketsSpec resolve owner present (e :: es) =
      { shareBucketsSpec resolve owner present es with
        notFound := e :: (shareBucketsSpec resolve owner present es).notFound } := by
  rw [shareBucketsSpec]
  simp only [h]

/-- The specification buckets for an email that resolves to a non-owner account already
present. -/
theorem spec_cons_existing (resolve : String → Option User) (owner : ObjectId)
    (present : List ObjectId) (e : String) (es : List String) (a : User)
    (h : resolve e = some a) (hne : a._id ≠ owner) (hin : a._id ∈ present) :
    shareBucketsSpec resolve owner present (e :: es) =
      { shareBucketsSpec resolve owner present es with
        existing := ⟨e, a.name⟩ :: (shareBucketsSpec resolve owner present es).existing } := by
  have hc : present.contains a._id = true := by simpa using hin
  have hb : (a._id == owner) = false := by simpa using hne
  rw [shareBucketsSpec]
  simp only [h, hc, hb, Bool.false_eq_true, if_false, if_true]

/-- The specification buckets for an email that resolves to a new non-owner account. -/
theorem spec_cons_added (resolve : String → Option User) (owner : ObjectId)
    (present : List ObjectId) (e : String) (es : List String) (a : User)
    (h : resolve e = some a) (hnin : a._id ∉ present) (hne : a._id ≠ owner) :
    shareBucketsSpec resolve owner present (e :: es) =
      { shareBucketsSpec resolve owner (present ++ [a._id]) es with
        added := ⟨e, a.name⟩ ::
          (shareBucketsSpec resolve owner (present ++ [a._id]) es).added } := by
  have hc : present.contains a._id = false := by simpa using hnin
  have hb : (a._id == owner) = false := by simpa using hne
  rw [shareBucketsSpec]
  simp only [h, hc, hb, Bool.false_eq_true, if_false]

/-- The specification buckets for an email that resolves to the owner. -/
theorem spec_cons_owner (resolve : String → Option User) (owner : ObjectId)
    (present : List ObjectId) (e : String) (es : List String) (a : User)
    (h : resolve e = some a) (heq : a._id = owner) :
    shareBucketsSpec resolve owner present (e :: es) =
      shareBucketsSpec resolve owner present es := by
  have hb : (a._id == owner) = true := by simpa using heq
  rw [shareBucketsSpec]
  simp only [h, hb, if_true]

/-- The buckets of the loop, started from any accumulator, are the accumulated buckets
followed by the buckets of the specification. -/
theorem shareLoop_foldl_spec [JsRuntime] (db : Db) (owner : ObjectId) (perm : Option String)
    (emails : List String) :
    ∀ (cs : List Collaborator) (r : documentController.ShareResults),
      (emails.foldl (documentController.shareStep db owner perm) (cs, r)).2 =
        ⟨r.added ++
            (shareBucketsSpec (shareResolve db) owner (cs.map (fun c => c.user)) emails).added,
          r.existing ++
            (shareBucketsSpec (shareResolve db) owner (cs.map (fun c => c.user)) emails).existing,
          r.notFound ++
            (shareBucketsSpec (shareResolve db) owner (cs.map (fun c => c.user)) emails).notFound⟩ := by
  induction emails with
  | nil =>
    intro cs r
    simp [shareBucketsSpec]
  | cons e es ih =>
    intro cs r
    rw [List.foldl_cons]
    cases hres : db.findUserByEmail (jsTrim (jsToLowerCase e)) with
    | none =>
      have hstep : documentController.shareStep db owner perm (cs, r) e
          = (cs, { r with notFound := r.notFound ++ [e] }) := by
        simp [documentController.shareStep, hres]
      rw [hstep, ih cs _, spec_cons_notFound (shareResolve db) owner _ e es hres]
      simp
    | some a =>
      have hres2 : shareResolve db e = some a := hres
      by_cases hself : a._id = owner
      · have hstep : documentController.shareStep db owner perm (cs, r) e = (cs, r) := by
          simp [documentController.shareStep, hres, hself]
        rw [hstep, ih cs r, spec_cons_owner (shareResolve db) owner _ e es a hres2 hself]
      · cases hf : cs.find? (fun collab => collab.user == a._id) with
        | some c =>
          have hstep : documentController.shareStep db owner perm (cs, r) e
              = (cs, { r with existing := r.existing ++ [⟨e, a.name⟩] }) := by
            simp [documentController.shareStep, hres, hself, hf]
          have hin := (find_collaborator_isSome cs a._id).mp ⟨c, hf⟩
          rw [hstep, ih cs _,
            spec_cons_existing (shareResolve db) owner _ e es a hres2 hself hin]
          simp
        | none =>
          have hstep : documentController.shareStep db owner perm (cs, r) e
              = (cs ++ [⟨a._id, orElseStr perm "view"⟩],
                  { r with added := r.added ++ [⟨e, a.name⟩] }) := by
            simp [documentController.shareStep, hres, hself, hf]
          have hnin := (find_collaborator_eq_none cs a._id).mp hf
          rw [hstep, ih _ _,
            spec_cons_added (shareResolve db) owner _ e es a hres2 hnin hself]
          simp

/-- The specification buckets are ordered selections of the input: `notFound` is the
unresolved emails, `added` and `existing` are sub-sequences, and every email that resolves
to a non-owner account is reported in `added` or in `existing`. -/
theorem shareBucketsSpec_props (resolve : String → Option User) (owner : ObjectId)
    (emails : List String) :
    ∀ present : List ObjectId,
      (shareBucketsSpec resolve owner present emails).notFound
        = emails.filter (fun e => (resolve e).isNone) ∧
      ((shareBucketsSpec resolve owner present emails).added.map (fun x => x.email)).Sublist
        emails ∧
      ((shareBucketsSpec resolve owner present emails).existing.map (fun x => x.email)).Sublist
        emails ∧
      (∀ e ∈ emails, ∀ A, resolve e = some A → A._id ≠ owner →
        (⟨e, A.name⟩ : documentController.ShareEntry)
            ∈ (shareBucketsSpec resolve owner present emails).added ∨
        (⟨e, A.name⟩ : documentController.ShareEntry)
            ∈ (shareBucketsSpec resolve owner present emails).existing) := by
  induction emails with
  | nil =>
    intro present
    simp [shareBucketsSpec]
  | cons e es ih =>
    intro present
    cases hres : resolve e with
    | none =>
      rw [spec_cons_notFound resolve owner present e es hres]
      obtain ⟨h1, h2, h3, h4⟩ := ih present
      refine ⟨?_, h2.cons e, h3.cons e, ?_⟩
      · simp [h1, hres]
      · intro x hx A hA hne
        rcases List.mem_cons.mp hx with hx | hx
        · rw [hx, hres] at hA
          cases hA
        · exact h4 x hx A hA hne
    | some a =>
      by_cases hown : a._id = owner
      · rw [spec_cons_owner resolve owner present e es a hres hown]
        obtain ⟨h1, h2, h3, h4⟩ := ih present
        refine ⟨?_, h2.cons e, h3.cons e, ?_⟩
        · simp [h1, hres]
        · intro x hx A hA hne
          rcases List.mem_cons.mp hx with hx | hx
          · rw [hx, hres] at hA
            cases hA
            exact absurd hown hne
          · exact h4 x hx A hA hne
      · by_cases hin : a._id ∈ present
        · rw [spec_cons_existing resolve owner present e es a hres hown hin]
          obtain ⟨h1, h2, h3, h4⟩ := ih present
          refine ⟨?_, h2.cons e, ?_, ?_⟩
          · simp [h1, hres]
          · simp only [List.map_cons]
            exact h3.cons₂ e
          · intro x hx A hA hne
            rcases List.mem_cons.mp hx with hx | hx
            · rw [hx, hres] at hA
              cases hA
              right
              simp [hx]
            · rcases h4 x hx A hA hne with h | h
              · left; exact h
              · right; exact List.mem_cons_of_mem _ h
        · rw [spec_cons_added resolve owner present e es a hres hin hown]
          obtain ⟨h1, h2, h3, h4⟩ := ih (present ++ [a._id])
          refine ⟨?_, ?_, h3.cons e, ?_⟩
          · simp [h1, hres]
          · simp only [List.map_cons]
            exact h2.cons₂ e
          · intro x hx A hA hne
            rcases List.mem_cons.mp hx with hx | hx
            · rw [hx, hres] at hA
              cases hA
              left
              simp [hx]
            · rcases h4 x hx A hA hne with h | h
              · left; exact List.mem_cons_of_mem _ h
              · right; exact h

/-- The buckets of `shareLoop` are those of the specification. -/
theorem shareLoop_spec [JsRuntime] (db : Db) (owner : ObjectId) (perm : Option String)
    (cs : List Collaborator) (emails : List String) :
    (documentController.shareLoop db owner perm cs emails).2
      = shareBucketsSpec (shareResolve db) owner (cs.map (fun c => c.user)) emails := by
  unfold documentController.shareLoop
  rw [shareLoop_foldl_spec db owner perm emails cs ⟨[], [], []⟩]
  simp

/-- Entries matching `added` elements carry the requested permission. -/
theorem newEntries_permission [JsRuntime] (db : Db) (perm : Option String) (new : List Collaborator)
    (added : List documentController.ShareEntry)
    (h : List.Forall₂ (fun c e => newEntryMatches db perm c e = true) new added) :
    ∀ c ∈ new, c.permission = orElseStr perm "view" := by
  induction h with
  | nil => intro c hc; cases hc
  | cons hr _ ih =>
    intro c hc
    rcases List.mem_cons.mp hc with hc | hc
    · rw [hc]
      simp only [newEntryMatches, Bool.and_eq_true, beq_iff_eq] at hr
      exact hr.1
    · exact ih c hc

/-- The document `shareDocument` saves passes validation exactly when the stored document is
valid and, some entry having been added, the requested permission is a schema value. -/
theorem share_validate [JsRuntime] (db : Db) (caller : ObjectId) (perm : Option String) (doc : Document)
    (emails : List String) :
    ({ doc with collaborators :=
        (documentController.shareLoop db caller perm doc.collaborators emails).1 }
        : Document).validate = true ↔
      doc.validate = true ∧
        ((documentController.shareLoop db caller perm doc.collaborators emails).2.added = [] ∨
          orElseStr perm "view" ∈ permissionEnum) := by
  obtain ⟨new, hnew, hrel⟩ := shareLoop_grows db caller perm doc.collaborators emails
  have hp := newEntries_permission db perm new _ hrel
  have hlen := hrel.length_eq
  rw [hnew, validate_append]
  simp only [Bool.and_eq_true, List.all_eq_true]
  constructor
  · rintro ⟨hv, hall⟩
    refine ⟨hv, ?_⟩
    cases hn : new with
    | nil =>
      left
      rw [hn] at hlen
      exact List.length_eq_zero.mp hlen.symm
    | cons c t =>
      right
      have hc : c ∈ new := by simp [hn]
      have h1 := hall c hc
      rw [hp c hc] at h1
      simpa using h1
  · rintro ⟨hv, h⟩
    refine ⟨hv, fun c hc => ?_⟩
    rcases h with h | h
    · rw [h] at hlen
      have hnil := List.length_eq_zero.mp hlen
      rw [hnil] at hc
      cases hc
    · rw [hp c hc]
      simpa using h

/-- For the owner and a non-empty email list, a response of `shareDocument` carries the
document and the buckets the loop produced. -/
theorem shareDocument_owner_ok [JsRuntime] (db : Db) (id : ObjectId) (doc : Document)
    (emails : List String) (perm : Option String) (hdoc : db.findById id = some doc)
    (upd : Document) (res : documentController.ShareResults)
    (hok : (documentController.shareDocument db doc.owner id ⟨some emails, perm⟩).2
      = .ok (upd, res)) :
    upd = { doc with collaborators :=
        (documentController.shareLoop db doc.owner perm doc.collaborators emails).1 } ∧
    res = (documentController.shareLoop db doc.owner perm doc.collaborators emails).2 := by
  rcases shareDocument_cases db doc.owner id doc ⟨some emails, perm⟩ hdoc with
    ⟨e, he⟩ | ⟨_, emails1, hem, _, ⟨_, hr⟩ | ⟨_, hr⟩⟩
  · rw [he] at hok
    cases hok
  · simp only [Option.some.injEq] at hem
    subst hem
    rw [hr] at hok
    have h2 := Except.ok.inj hok
    exact ⟨(congrArg Prod.fst h2).symm, (congrArg Prod.snd h2).symm⟩
  · simp only [Option.some.injEq] at hem
    subst hem
    rw [hr] at hok
    have h2 := Except.ok.inj hok
    exact ⟨(congrArg Prod.fst h2).symm, (congrArg Prod.snd h2).symm⟩

/-- The three outcomes of `shareDocument` for the owner and a non-empty email list: with an
empty `added` bucket the buckets are returned and nothing is saved; otherwise the document
is saved and returned with the buckets when it passes validation, and the request fails with
500, the store unchanged, when it does not. -/
theorem shareDocument_owner_eq [JsRuntime] (db : Db) (id : ObjectId) (doc : Document)
    (emails : List String) (perm : Option String) (hdoc : db.findById id = some doc)
    (hne : emails ≠ []) :
    documentController.shareDocument db doc.owner id ⟨some emails, perm⟩ =
      if (documentController.shareLoop db doc.owner perm doc.collaborators emails).2.added = []
      then
        (db, .ok ({ doc with collaborators :=
            (documentController.shareLoop db doc.owner perm doc.collaborators emails).1 },
          (documentController.shareLoop db doc.owner perm doc.collaborators emails).2))
      else if ({ doc with collaborators :=
          (documentController.shareLoop db doc.owner perm doc.collaborators emails).1 }
          : Document).validate = true then
        (db.replaceDocument { doc with collaborators :=
            (documentController.shareLoop db doc.owner perm doc.collaborators emails).1 },
          .ok ({ doc with collaborators :=
            (documentController.shareLoop db doc.owner perm doc.collaborators emails).1 },
          (documentController.shareLoop db doc.owner perm doc.collaborators emails).2))
      else (db, .error serverError) := by
  unfold documentController.shareDocument
  have hob : (doc.owner != doc.owner) = false := by simp
  simp only [hdoc, hob, Bool.false_eq_true, if_false]
  cases emails with
  | nil => exact absurd rfl hne
  | cons e es =>
    by_cases hadd : (documentController.shareLoop db doc.owner perm
        doc.collaborators (e :: es)).2.added = []
    · simp [hadd]
    · have hlen : (documentController.shareLoop db doc.owner perm
          doc.collaborators (e :: es)).2.added.length > 0 :=
        List.length_pos.mpr hadd
      simp only [hlen, if_true, hadd, if_false, Db.save]
      by_cases hv : ({ doc with collaborators :=
          (documentController.shareLoop db doc.owner perm doc.collaborators (e :: es)).1 }
          : Document).validate = true
      · simp only [hv, if_true]
      · simp only [hv, Bool.false_eq_true, if_false]

/-- C18 (counterexample): two requests by the owner with a non-empty email list.  On
`sharedDb` the batch `goodBadDup` with the permission `admin` returns no buckets: the
request fails with 500.  On a document whose collaborator list names the owner, the owner's
own address resolves to an account that is in the collaborator list and yet is reported in
no bucket, `existing` included. -/
theorem C18_counterexample :
    (sharedDb.findById 10 = some sharedDoc ∧ sharedDoc.owner = 1 ∧ goodBadDup ≠ [] ∧
      documentController.shareDocument sharedDb 1 10 ⟨some goodBadDup, some "admin"⟩
        = (sharedDb, .error serverError)) ∧
    ((exampleDb (exampleDoc none [⟨1, "view"⟩] "draft")).findById 10
        = some (exampleDoc none [⟨1, "view"⟩] "draft") ∧
      (exampleDoc none [⟨1, "view"⟩] "draft").owner = 1 ∧
      shareResolve (exampleDb (exampleDoc none [⟨1, "view"⟩] "draft")) "olga@x.com"
        = some ⟨1, "Olga", "olga@x.com"⟩ ∧
      (1 : ObjectId) ∈ (exampleDoc none [⟨1, "view"⟩] "draft").collaborators.map
        (fun c => c.user) ∧
      documentController.shareDocument (exampleDb (exampleDoc none [⟨1, "view"⟩] "draft")) 1 10
          ⟨some ["olga@x.com"], none⟩
        = (exampleDb (exampleDoc none [⟨1, "view"⟩] "draft"),
            .ok (exampleDoc none [⟨1, "view"⟩] "draft", ⟨[], [], []⟩))) := by
  refine ⟨⟨by rfl, by rfl, by decide, by rfl⟩, ⟨by rfl, by rfl, by rfl, by decide, by rfl⟩⟩

/-- C18 (amended): for the owner of a stored document and a non-empty email list, whenever
`shareDocument` gives a response its buckets are those of the specification, computed over
the emails in input order: `notFound` is the emails that resolve to no account, `existing`
the emails that resolve to a non-owner account already in the collaborator list (or added
earlier in the batch), `added` the emails that resolve to a non-owner account not yet in the
list; `added` and `existing` are sub-sequences of the input, and every email that resolves
to a non-owner account is reported in `added` or `existing` whatever precedes it.  The
response is given exactly when `added` is empty or the document with the new entries passes
schema validation (the stored document is valid and the permission, `view` when unspecified,
is a schema value); otherwise the request fails with 500 and the store is unchanged. -/
theorem C18_share_buckets [JsRuntime] (db : Db) (id : ObjectId) (doc : Document) (emails : List String)
    (perm : Option String) (hdoc : db.findById id = some doc) (hne : emails ≠ []) :
    (∀ upd res, (documentController.shareDocument db doc.owner id ⟨some emails, perm⟩).2
        = .ok (upd, res) →
      res = shareBucketsSpec (shareResolve db) doc.owner
        (doc.collaborators.map (fun c => c.user)) emails) ∧
    ((∃ upd, (documentController.shareDocument db doc.owner id ⟨some emails, perm⟩).2
        = .ok (upd, shareBucketsSpec (shareResolve db) doc.owner
          (doc.collaborators.map (fun c => c.user)) emails)) ↔
      ((shareBucketsSpec (shareResolve db) doc.owner
          (doc.collaborators.map (fun c => c.user)) emails).added = [] ∨
        (doc.validate = true ∧ orElseStr perm "view" ∈ permissionEnum))) ∧
    (¬ ((shareBucketsSpec (shareResolve db) doc.owner
          (doc.collaborators.map (fun c => c.user)) emails).added = [] ∨
        (doc.validate = true ∧ orElseStr perm "view" ∈ permissionEnum)) →
      documentController.shareDocument db doc.owner id ⟨some emails, perm⟩
        = (db, .error serverError)) ∧
    (shareBucketsSpec (shareResolve db) doc.owner
        (doc.collaborators.map (fun c => c.user)) emails).notFound
      = emails.filter (fun e => (shareResolve db e).isNone) ∧
    ((shareBucketsSpec (shareResolve db) doc.owner
        (doc.collaborators.map (fun c => c.user)) emails).added.map (fun x => x.email)).Sublist
      emails ∧
    ((shareBucketsSpec (shareResolve db) doc.owner
        (doc.collaborators.map (fun c => c.user)) emails).existing.map (fun x => x.email)).Sublist
      emails ∧
    (∀ e ∈ emails, ∀ A, shareResolve db e = some A → A._id ≠ doc.owner →
      (⟨e, A.name⟩ : documentController.ShareEntry)
          ∈ (shareBucketsSpec (shareResolve db) doc.owner
            (doc.collaborators.map (fun c => c.user)) emails).added ∨
      (⟨e, A.name⟩ : documentController.ShareEntry)
          ∈ (shareBucketsSpec (shareResolve db) doc.owner
            (doc.collaborators.map (fun c => c.user)) emails).existing) := by
  have hspec := shareLoop_spec db doc.owner perm doc.collaborators emails
  have hval := share_validate db doc.owner perm doc emails
  have heq := shareDocument_owner_eq db id doc emails perm hdoc hne
  rw [hspec] at hval heq
  obtain ⟨h1, h2, h3, h4⟩ := shareBucketsSpec_props (shareResolve db) doc.owner emails
    (doc.collaborators.map (fun c => c.user))
  refine ⟨?_, ?_, ?_, h1, h2, h3, h4⟩
  · intro upd res hok
    rw [← hspec]
    exact (shareDocument_owner_ok db id doc emails perm hdoc upd res hok).2
  · rw [heq]
    by_cases hadd : (shareBucketsSpec (shareResolve db) doc.owner
        (doc.collaborators.map (fun c => c.user)) emails).added = []
    · rw [if_pos hadd]
      exact ⟨fun _ => Or.inl hadd, fun _ => ⟨_, rfl⟩⟩
    · rw [if_neg hadd]
      by_cases hv : ({ doc with collaborators :=
          (documentController.shareLoop db doc.owner perm doc.collaborators emails).1 }
          : Document).validate = true
      · rw [if_pos hv]
        refine ⟨fun _ => Or.inr ⟨(hval.mp hv).1, ?_⟩, fun _ => ⟨_, rfl⟩⟩
        rcases (hval.mp hv).2 with h | h
        · exact absurd h hadd
        · exact h
      · rw [if_neg hv]
        constructor
        · rintro ⟨upd, hupd⟩
          cases hupd
        · rintro (h | ⟨h5, h6⟩)
          · exact absurd h hadd
          · exact absurd (hval.mpr ⟨h5, Or.inr h6⟩) hv
  · intro hnot
    rw [heq]
    have hadd : ¬ (shareBucketsSpec (shareResolve db) doc.owner
        (doc.collaborators.map (fun c => c.user)) emails).added = [] :=
      fun h => hnot (Or.inl h)
    have hv : ¬ ({ doc with collaborators :=
        (documentController.shareLoop db doc.owner perm doc.collaborators emails).1 }
        : Document).validate = true := by
      intro hv
      rcases (hval.mp hv).2 with h | h
      · exact hadd h
      · exact hnot (Or.inr ⟨(hval.mp hv).1, h⟩)
    rw [if_neg hadd, if_neg hv]

/-- C18 (witness): the batch `goodBadDup` on `sharedDb`, together with the buckets it gives:
added = [vera], notFound = [bad], existing = [carl], and one new collaborator stored. -/
theorem C18_share_buckets_witness :
    ((∀ upd res, (documentController.shareDocument sharedDb sharedDoc.owner 10
          ⟨some goodBadDup, none⟩).2 = .ok (upd, res) →
        res = shareBucketsSpec (shareResolve sharedDb) sharedDoc.owner
          (sharedDoc.collaborators.map (fun c => c.user)) goodBadDup) ∧
      ((∃ upd, (documentController.shareDocument sharedDb sharedDoc.owner 10
          ⟨some goodBadDup, none⟩).2
          = .ok (upd, shareBucketsSpec (shareResolve sharedDb) sharedDoc.owner
            (sharedDoc.collaborators.map (fun c => c.user)) goodBadDup)) ↔
        ((shareBucketsSpec (shareResolve sharedDb) sharedDoc.owner
            (sharedDoc.collaborators.map (fun c => c.user)) goodBadDup).added = [] ∨
          (sharedDoc.validate = true ∧ orElseStr none "view" ∈ permissionEnum))) ∧
      (¬ ((shareBucketsSpec (shareResolve sharedDb) sharedDoc.owner
            (sharedDoc.collaborators.map (fun c => c.user)) goodBadDup).added = [] ∨
          (sharedDoc.validate = true ∧ orElseStr none "view" ∈ permissionEnum)) →
        documentController.shareDocument sharedDb sharedDoc.owner 10 ⟨some goodBadDup, none⟩
          = (sharedDb, .error serverError)) ∧
      (shareBucketsSpec (shareResolve sharedDb) sharedDoc.owner
          (sharedDoc.collaborators.map (fun c => c.user)) goodBadDup).notFound
        = goodBadDup.filter (fun e => (shareResolve sharedDb e).isNone) ∧
      ((shareBucketsSpec (shareResolve sharedDb) sharedDoc.owner
          (sharedDoc.collaborators.map (fun c => c.user)) goodBadDup).added.map
            (fun x => x.email)).Sublist goodBadDup ∧
      ((shareBucketsSpec (shareResolve sharedDb) sharedDoc.owner
          (sharedDoc.collaborators.map (fun c => c.user)) goodBadDup).existing.map
            (fun x => x.email)).Sublist goodBadDup ∧
      (∀ e ∈ goodBadDup, ∀ A, shareResolve sharedDb e = some A → A._id ≠ sharedDoc.owner →
        (⟨e, A.name⟩ : documentController.ShareEntry)
            ∈ (shareBucketsSpec (shareResolve sharedDb) sharedDoc.owner
              (sharedDoc.collaborators.map (fun c => c.user)) goodBadDup).added ∨
        (⟨e, A.name⟩ : documentController.ShareEntry)
            ∈ (shareBucketsSpec (shareResolve sharedDb) sharedDoc.owner
              (sharedDoc.collaborators.map (fun c => c.user)) goodBadDup).existing)) ∧
    documentController.shareDocument sharedDb 1 10 ⟨some goodBadDup, none⟩
      = (sharedDb.replaceDocument (exampleDoc (some 2) [⟨3, "edit"⟩, ⟨4, "view"⟩] "draft"),
          .ok (exampleDoc (some 2) [⟨3, "edit"⟩, ⟨4, "view"⟩] "draft",
            ⟨[⟨"vera@x.com", "Vera"⟩], [⟨"carl@x.com", "Carl"⟩], ["bad@x.com"]⟩)) :=
  ⟨C18_share_buckets sharedDb 10 sharedDoc goodBadDup none
      (by simp [Db.findById, sharedDb, sharedDoc, exampleDb, exampleDoc])
      (by simp [goodBadDup]),
    by rfl⟩

/-- C19: a response of `shareDocument` carries the prior document with the prior collaborator
list, unchanged and in order, followed by exactly one new entry per element of the `added`
bucket; the store holds this document when `added` is not empty and is unchanged when `added`
is empty, as it is when the request fails. -/
theorem C19_share_persistence [JsRuntime] (db : Db) (caller id : ObjectId) (doc : Document)
    (body : documentController.ShareBody) (hdoc : db.findById id = some doc) :
    (∀ upd res, (documentController.shareDocument db caller id body).2 = .ok (upd, res) →
      (∃ new, upd = { doc with collaborators := doc.collaborators ++ new } ∧
        new.length = res.added.length ∧
        List.Forall₂ (fun c e => newEntryMatches db body.permission c e = true) new res.added) ∧
      (res.added = [] →
        (documentController.shareDocument db caller id body).1 = db ∧ upd = doc) ∧
      (res.added ≠ [] →
        (documentController.shareDocument db caller id body).1 = db.replaceDocument upd ∧
        (documentController.shareDocument db caller id body).1.findById id = some upd ∧
        upd.collaborators.length = doc.collaborators.length + res.added.length)) ∧
    (∀ e, (documentController.shareDocument db caller id body).2 = .error e →
      (documentController.shareDocument db caller id body).1 = db) := by
  rcases shareDocument_cases db caller id doc body hdoc with
    ⟨e, he⟩ | ⟨_, emails, _, _, ⟨hadd, hr⟩ | ⟨hadd, hr⟩⟩
  · rw [he]
    constructor
    · intro upd res hok
      cases hok
    · intro _ _
      rfl
  · obtain ⟨new, hnew, hrel⟩ :=
      shareLoop_grows db caller body.permission doc.collaborators emails
    rw [hr]
    constructor
    · intro upd res hok
      have h2 := Except.ok.inj hok
      have hu := (congrArg Prod.fst h2).symm
      have hres := (congrArg Prod.snd h2).symm
      simp only at hu hres
      subst hu hres
      have hlen := hrel.length_eq
      refine ⟨⟨new, by rw [hnew], hlen, hrel⟩, ?_, ?_⟩
      · intro _
        refine ⟨rfl, ?_⟩
        rw [hadd] at hlen
        have hnil : new = [] := List.length_eq_zero.mp hlen
        rw [hnew, hnil, List.append_nil]
      · intro hne
        exact absurd hadd hne
    · intro e herr
      cases herr
  · obtain ⟨new, hnew, hrel⟩ :=
      shareLoop_grows db caller body.permission doc.collaborators emails
    rw [hr]
    constructor
    · intro upd res hok
      have h2 := Except.ok.inj hok
      have hu := (congrArg Prod.fst h2).symm
      have hres := (congrArg Prod.snd h2).symm
      simp only at hu hres
      subst hu hres
      have hlen := hrel.length_eq
      refine ⟨⟨new, by rw [hnew], hlen, hrel⟩, ?_, ?_⟩
      · intro h
        exact absurd h hadd
      · intro _
        refine ⟨rfl, findById_replace_collaborators db id doc _ hdoc, ?_⟩
        simp only
        rw [hnew, List.length_append, hlen]
    · intro e herr
      cases herr

/-- C19 (witness): the batch `goodBadDup` sent by the owner of `sharedDoc`. -/
theorem C19_share_persistence_witness :
    (∀ upd res, (documentController.shareDocument sharedDb 1 10 ⟨some goodBadDup, none⟩).2
        = .ok (upd, res) →
      (∃ new, upd = { sharedDoc with collaborators := sharedDoc.collaborators ++ new } ∧
        new.length = res.added.length ∧
        List.Forall₂ (fun c e => newEntryMatches sharedDb
          (⟨some goodBadDup, none⟩ : documentController.ShareBody).permission c e = true)
          new res.added) ∧
      (res.added = [] →
        (documentController.shareDocument sharedDb 1 10 ⟨some goodBadDup, none⟩).1 = sharedDb ∧
        upd = sharedDoc) ∧
      (res.added ≠ [] →
        (documentController.shareDocument sharedDb 1 10 ⟨some goodBadDup, none⟩).1
          = sharedDb.replaceDocument upd ∧
        (documentController.shareDocument sharedDb 1 10 ⟨some goodBadDup, none⟩).1.findById 10
          = some upd ∧
        upd.collaborators.length = sharedDoc.collaborators.length + res.added.length)) ∧
    (∀ e, (documentController.shareDocument sharedDb 1 10 ⟨some goodBadDup, none⟩).2 = .error e →
      (documentController.shareDocument sharedDb 1 10 ⟨some goodBadDup, none⟩).1 = sharedDb) :=
  C19_share_persistence sharedDb 1 10 sharedDoc ⟨some goodBadDup, none⟩
    (by simp [Db.findById, sharedDb, sharedDoc, exampleDb, exampleDoc])

/-! ### Bulk sharing against `addCollaborator` -/

/-- The outcomes of `shareDocument` by the owner for a single email that is already
lower-case and trimmed, in the order of the checks of the loop body. -/
theorem shareDocument_single [JsRuntime] (db : Db) (caller id : ObjectId) (doc : Document) (e : String)
    (p : Option String) (hdoc : db.findById id = some doc) (howner : doc.owner = caller)
    (hnorm : jsTrim (jsToLowerCase e) = e) :
    documentController.shareDocument db caller id ⟨some [e], p⟩ =
      match db.findUserByEmail e with
      | none => (db, .ok (doc, ⟨[], [], [e]⟩))
      | some user =>
        if user._id = caller then (db, .ok (doc, ⟨[], [], []⟩))
        else if user._id ∈ doc.collaborators.map (fun c => c.user) then
          (db, .ok (doc, ⟨[], [⟨e, user.name⟩], []⟩))
        else
          match db.save { doc with collaborators :=
              doc.collaborators ++ [⟨user._id, orElseStr p "view"⟩] } with
          | none => (db, .error serverError)
          | some db1 => (db1, .ok ({ doc with collaborators :=
              doc.collaborators ++ [⟨user._id, orElseStr p "view"⟩] }, ⟨[⟨e, user.name⟩], [], []⟩)) := by
  have hob : (doc.owner != caller) = false := by simp [howner]
  unfold documentController.shareDocument
  simp only [hdoc, hob, Bool.false_eq_true, if_false, documentController.shareLoop,
    List.foldl_cons, List.foldl_nil, documentController.shareStep, hnorm]
  cases hu : db.findUserByEmail e with
  | none => simp
  | some user =>
    by_cases hself : user._id = caller
    · simp [hself]
    · have hselfb : (user._id == caller) = false := by simpa using hself
      cases hf : doc.collaborators.find? (fun collab => collab.user == user._id) with
      | some c =>
        have hin := (find_collaborator_isSome doc.collaborators user._id).mp ⟨c, hf⟩
        simp only [hf, hselfb, Bool.false_eq_true, if_false, hself, hin, if_true,
          List.length_nil, Nat.lt_irrefl, gt_iff_lt, List.nil_append]
      | none =>
        have hnin := (find_collaborator_eq_none doc.collaborators user._id).mp hf
        simp only [hf, hselfb, Bool.false_eq_true, if_false, hself, hnin, List.length_singleton,
          Nat.lt_add_one, gt_iff_lt, if_true, List.length_cons, List.length_nil, Nat.zero_add,
          List.nil_append]

/-- C20 (counterexample): the owner of `sharedDoc` submits the owner's own address.
`addCollaborator` fails with 400 "Cannot add yourself as collaborator", while `shareDocument`
answers 200 with the address in none of its buckets. -/
theorem C20_counterexample :
    documentController.addCollaborator sharedDb 1 10 ⟨"olga@x.com", none⟩
      = (sharedDb, .error ⟨400, some "Cannot add yourself as collaborator"⟩) ∧
    documentController.shareDocument sharedDb 1 10 ⟨some ["olga@x.com"], none⟩
      = (sharedDb, .ok (sharedDoc, ⟨[], [], []⟩)) := by
  constructor <;> rfl

/-- C20 (amended): for the owner of a stored document, a permission `p` and an email `e`
that is already lower-case and trimmed, `shareDocument` with the single email `e` adds a
collaborator exactly when `addCollaborator` with `e` succeeds, and then both leave the same
store and return the same document; when `addCollaborator` fails with "User not found" the
email is reported in `notFound`, when it fails with "already a collaborator" in `existing`,
and when it fails with "Cannot add yourself" the email is skipped and reported nowhere. -/
theorem C20_share_single_vs_addCollaborator [JsRuntime] (db : Db) (caller id : ObjectId) (doc : Document)
    (e : String) (p : Option String) (hdoc : db.findById id = some doc)
    (howner : doc.owner = caller) (hnorm : jsTrim (jsToLowerCase e) = e) :
    (∀ upd, (documentController.addCollaborator db caller id ⟨e, p⟩).2 = .ok upd →
      ∃ u, db.findUserByEmail e = some u ∧
        documentController.shareDocument db caller id ⟨some [e], p⟩
          = ((documentController.addCollaborator db caller id ⟨e, p⟩).1,
              .ok (upd, ⟨[⟨e, u.name⟩], [], []⟩))) ∧
    (∀ upd res, (documentController.shareDocument db caller id ⟨some [e], p⟩).2 = .ok (upd, res) →
      res.added ≠ [] →
      documentController.addCollaborator db caller id ⟨e, p⟩
        = ((documentController.shareDocument db caller id ⟨some [e], p⟩).1, .ok upd)) ∧
    ((documentController.addCollaborator db caller id ⟨e, p⟩).2
        = .error ⟨404, some "User not found"⟩ →
      documentController.shareDocument db caller id ⟨some [e], p⟩
        = (db, .ok (doc, ⟨[], [], [e]⟩))) ∧
    ((documentController.addCollaborator db caller id ⟨e, p⟩).2
        = .error ⟨400, some "User is already a collaborator"⟩ →
      ∃ u, db.findUserByEmail e = some u ∧
        documentController.shareDocument db caller id ⟨some [e], p⟩
          = (db, .ok (doc, ⟨[], [⟨e, u.name⟩], []⟩))) ∧
    ((documentController.addCollaborator db caller id ⟨e, p⟩).2
        = .error ⟨400, some "Cannot add yourself as collaborator"⟩ →
      documentController.shareDocument db caller id ⟨some [e], p⟩
        = (db, .ok (doc, ⟨[], [], []⟩))) := by
  rw [shareDocument_single db caller id doc e p hdoc howner hnorm,
    addCollaborator_eq db caller id doc ⟨e, p⟩ hdoc, if_neg (not_not.mpr howner)]
  cases hu : db.findUserByEmail e with
  | none => simp
  | some user =>
    simp only
    by_cases hself : user._id = caller
    · simp [hself]
    · by_cases hin : user._id ∈ doc.collaborators.map (fun c => c.user)
      · simp only [hself, if_false, hin, if_true]
        simp
      · simp only [hself, if_false, hin]
        cases hsv : db.save { doc with collaborators :=
            doc.collaborators ++ [⟨user._id, orElseStr p "view"⟩] } with
        | none => simp [serverError]
        | some db1 => simp

/-- C20 (witness): the owner of `sharedDoc` shares with `vera@x.com`. -/
theorem C20_share_single_vs_addCollaborator_witness :
    (∀ upd, (documentController.addCollaborator sharedDb 1 10 ⟨"vera@x.com", none⟩).2 = .ok upd →
      ∃ u, sharedDb.findUserByEmail "vera@x.com" = some u ∧
        documentController.shareDocument sharedDb 1 10 ⟨some ["vera@x.com"], none⟩
          = ((documentController.addCollaborator sharedDb 1 10 ⟨"vera@x.com", none⟩).1,
              .ok (upd, ⟨[⟨"vera@x.com", u.name⟩], [], []⟩))) ∧
    (∀ upd res, (documentController.shareDocument sharedDb 1 10 ⟨some ["vera@x.com"], none⟩).2
        = .ok (upd, res) →
      res.added ≠ [] →
      documentController.addCollaborator sharedDb 1 10 ⟨"vera@x.com", none⟩
        = ((documentController.shareDocument sharedDb 1 10 ⟨some ["vera@x.com"], none⟩).1,
            .ok upd)) ∧
    ((documentController.addCollaborator sharedDb 1 10 ⟨"vera@x.com", none⟩).2
        = .error ⟨404, some "User not found"⟩ →
      documentController.shareDocument sharedDb 1 10 ⟨some ["vera@x.com"], none⟩
        = (sharedDb, .ok (sharedDoc, ⟨[], [], ["vera@x.com"]⟩))) ∧
    ((documentController.addCollaborator sharedDb 1 10 ⟨"vera@x.com", none⟩).2
        = .error ⟨400, some "User is already a collaborator"⟩ →
      ∃ u, sharedDb.findUserByEmail "vera@x.com" = some u ∧
        documentController.shareDocument sharedDb 1 10 ⟨some ["vera@x.com"], none⟩
          = (sharedDb, .ok (sharedDoc, ⟨[], [⟨"vera@x.com", u.name⟩], []⟩))) ∧
    ((documentController.addCollaborator sharedDb 1 10 ⟨"vera@x.com", none⟩).2
        = .error ⟨400, some "Cannot add yourself as collaborator"⟩ →
      documentController.shareDocument sharedDb 1 10 ⟨some ["vera@x.com"], none⟩
        = (sharedDb, .ok (sharedDoc, ⟨[], [], []⟩))) :=
  C20_share_single_vs_addCollaborator sharedDb 1 10 sharedDoc "vera@x.com" none
    (by simp [Db.findById, sharedDb, sharedDoc, exampleDb, exampleDoc])
    rfl (by decide)

/-! ### `deleteDocument` -/

/-- C21: for a stored document and a caller who is not its owner (whatever the caller's
role), `deleteDocument` answers 403 "Access denied" and the store, that is the document
collection and the set of files, is unchanged. -/
theorem C21_delete_by_non_owner (db : Db) (caller id : ObjectId) (doc : Document)
    (hdoc : db.findById id = some doc) (hne : doc.owner ≠ caller) :
    documentController.deleteDocument db caller id
      = (db, .error ⟨403, some "Access denied"⟩) := by
  unfold documentController.deleteDocument
  have hb : (doc.owner != caller) = true := by simpa using hne
  simp only [hdoc, hb, if_true]

/-- C21 (witness): the `edit` collaborator 3 of `sharedDoc` tries to delete it. -/
theorem C21_delete_by_non_owner_witness :
    documentController.deleteDocument sharedDb 3 10
      = (sharedDb, .error ⟨403, some "Access denied"⟩) :=
  C21_delete_by_non_owner sharedDb 3 10 sharedDoc
    (by simp [Db.findById, sharedDb, sharedDoc, exampleDb, exampleDoc])
    (by simp [sharedDoc, exampleDoc])

/-- After the first record with a given id is removed from a collection with pairwise
distinct ids, no record with that id is found. -/
theorem find_eraseP_none (l : List Document) (id : ObjectId)
    (hnodup : (l.map (fun d => d._id)).Nodup) :
    (l.eraseP (fun d => d._id == id)).find? (fun d => d._id == id) = none := by
  induction l with
  | nil => rfl
  | cons d rest ih =>
    simp only [List.map_cons, List.nodup_cons] at hnodup
    by_cases hd : d._id = id
    · have hp : (d._id == id) = true := by simpa using hd
      rw [List.eraseP_cons]
      simp only [hp, cond_true]
      rw [List.find?_eq_none]
      intro x hx hxid
      apply hnodup.1
      rw [hd]
      simp only [beq_iff_eq] at hxid
      rw [← hxid]
      exact List.mem_map_of_mem _ hx
    · have hp : (d._id == id) = false := by simpa using hd
      rw [List.eraseP_cons]
      simp only [hp, cond_false, List.find?_cons]
      exact ih hnodup.2

/-- C22: `deleteDocument` by the owner of a stored document succeeds whether or not the
backing file exists; it removes the record from the collection (one record fewer, and none
left under the id when ids are distinct) and leaves no file at the document's path, all other
files being kept. -/
theorem C22_delete_by_owner (db : Db) (caller id : ObjectId) (doc : Document)
    (hdoc : db.findById id = some doc) (howner : doc.owner = caller) :
    (documentController.deleteDocument db caller id).2 = .ok () ∧
    (documentController.deleteDocument db caller id).1.documents
      = db.documents.eraseP (fun d => d._id == id) ∧
    (documentController.deleteDocument db caller id).1.documents.length + 1
      = db.documents.length ∧
    ((db.documents.map (fun d => d._id)).Nodup →
      (documentController.deleteDocument db caller id).1.findById id = none) ∧
    doc.filePath ∉ (documentController.deleteDocument db caller id).1.files ∧
    (∀ f, f ≠ doc.filePath →
      (f ∈ (documentController.deleteDocument db caller id).1.files ↔ f ∈ db.files)) ∧
    (doc.filePath ∉ db.files →
      (documentController.deleteDocument db caller id).1.files = db.files) := by
  have hb : (doc.owner != caller) = false := by simp [howner]
  have hmem : doc ∈ db.documents := List.mem_of_find?_eq_some hdoc
  have hp : (fun d : Document => d._id == id) doc = true := by
    have := findById_id db id doc hdoc
    simpa using this
  unfold documentController.deleteDocument
  simp only [hdoc, hb, Bool.false_eq_true, if_false]
  refine ⟨trivial, trivial, ?_, ?_, ?_, ?_, ?_⟩
  · rw [List.length_eraseP_of_mem hmem hp]
    have hpos : 0 < db.documents.length := List.length_pos_of_mem hmem
    omega
  · intro hnodup
    exact find_eraseP_none db.documents id hnodup
  · by_cases hc : doc.filePath ∈ db.files
    · simp [hc]
    · simp [hc]
  · intro f hf
    by_cases hc : doc.filePath ∈ db.files
    · simp [hc, hf]
    · simp [hc]
  · intro hc
    simp [hc]

/-- C22 (witness): the owner deletes `sharedDoc`, whose file exists. -/
theorem C22_delete_by_owner_witness :
    (documentController.deleteDocument sharedDb 1 10).2 = .ok () ∧
    (documentController.deleteDocument sharedDb 1 10).1.documents
      = sharedDb.documents.eraseP (fun d => d._id == 10) ∧
    (documentController.deleteDocument sharedDb 1 10).1.documents.length + 1
      = sharedDb.documents.length ∧
    ((sharedDb.documents.map (fun d => d._id)).Nodup →
      (documentController.deleteDocument sharedDb 1 10).1.findById 10 = none) ∧
    sharedDoc.filePath ∉ (documentController.deleteDocument sharedDb 1 10).1.files ∧
    (∀ f, f ≠ sharedDoc.filePath →
      (f ∈ (documentController.deleteDocument sharedDb 1 10).1.files ↔ f ∈ sharedDb.files)) ∧
    (sharedDoc.filePath ∉ sharedDb.files →
      (documentController.deleteDocument sharedDb 1 10).1.files = sharedDb.files) :=
  C22_delete_by_owner sharedDb 1 10 sharedDoc
    (by simp [Db.findById, sharedDb, sharedDoc, exampleDb, exampleDoc])
    (by simp [sharedDoc, exampleDoc])

/-! ### Failure frame of `addSignature` and fixed ownership -/

/-- Whenever `addSignature` answers with an error, the document collection is unchanged. -/
theorem addSignature_error_documents (db : Db) (caller : ObjectId)
    (body : signingController.SignBody) (ip ua : Option String) (e : HttpError)
    (herr : (signingController.addSignature db caller body ip ua).2 = .error e) :
    (signingController.addSignature db caller body ip ua).1.documents = db.documents := by
  unfold signingController.addSignature at herr ⊢
  cases hdoc : db.findById body.documentId with
  | none => rfl
  | some doc =>
    simp only [hdoc] at herr ⊢
    cases hacc : signingController.hasSigningAccess doc caller with
    | false => simp
    | true =>
      simp only [hacc, Bool.not_true, Bool.false_eq_true, if_false] at herr ⊢
      cases hcr : signingController.createSignature db body.documentId caller body.signatureData
          body.position ip ua with
      | none => rfl
      | some p =>
        obtain ⟨dbc, s⟩ := p
        obtain ⟨hdbc, _⟩ :=
          createSignature_some db dbc body.documentId caller body.signatureData body.position
            ip ua s hcr
        simp only [hcr] at herr ⊢
        cases hsv : dbc.save
            { doc with signatures := doc.signatures ++ [s._id], status := "signed" } with
        | none =>
          simp only [hsv]
          rw [hdbc]
        | some db2 =>
          simp only [hsv] at herr
          cases herr

/-- An error response of `addSignature` with status 404 or 403 leaves the store unchanged. -/
theorem addSignature_refusal_frame (db : Db) (caller : ObjectId)
    (body : signingController.SignBody) (ip ua : Option String) (e : HttpError)
    (herr : (signingController.addSignature db caller body ip ua).2 = .error e)
    (hst : e.status = 404 ∨ e.status = 403) :
    (signingController.addSignature db caller body ip ua).1 = db := by
  unfold signingController.addSignature at herr ⊢
  cases hdoc : db.findById body.documentId with
  | none => rfl
  | some doc =>
    simp only [hdoc] at herr ⊢
    cases hacc : signingController.hasSigningAccess doc caller with
    | false => simp
    | true =>
      simp only [hacc, Bool.not_true, Bool.false_eq_true, if_false] at herr ⊢
      cases hcr : signingController.createSignature db body.documentId caller body.signatureData
          body.position ip ua with
      | none => rfl
      | some p =>
        obtain ⟨dbc, s⟩ := p
        simp only [hcr] at herr ⊢
        cases hsv : dbc.save
            { doc with signatures := doc.signatures ++ [s._id], status := "signed" } with
        | none =>
          simp only [hsv, Except.error.injEq] at herr
          subst herr
          simp [serverError] at hst
        | some db2 =>
          simp only [hsv] at herr
          cases herr

/-- C23: when `addSignature` fails because the document does not exist (404) or because the
caller lacks signing access (403), the store is unchanged: no Signature record is created
and the signatures list and status of the document are as before.  These two are the only
sources of a 404 or 403: every response with one of these statuses leaves the store as it
was. -/
theorem C23_addSignature_failure_frame (db : Db) (caller : ObjectId)
    (body : signingController.SignBody) (ip ua : Option String) :
    (db.findById body.documentId = none →
      signingController.addSignature db caller body ip ua
        = (db, .error ⟨404, some "Document not found"⟩)) ∧
    (∀ doc, db.findById body.documentId = some doc →
      signingController.hasSigningAccess doc caller = false →
      signingController.addSignature db caller body ip ua
        = (db, .error ⟨403, some "No signing permission"⟩)) ∧
    (∀ e, (signingController.addSignature db caller body ip ua).2 = .error e →
      e.status = 404 ∨ e.status = 403 →
      (signingController.addSignature db caller body ip ua).1 = db ∧
      (signingController.addSignature db caller body ip ua).1.signatures = db.signatures ∧
      (signingController.addSignature db caller body ip ua).1.findById body.documentId
        = db.findById body.documentId) := by
  refine ⟨?_, ?_, ?_⟩
  · intro h
    simp [signingController.addSignature, h]
  · intro doc hdoc hacc
    simp [signingController.addSignature, hdoc, hacc]
  · intro e herr hst
    have h := addSignature_refusal_frame db caller body ip ua e herr hst
    rw [h]
    exact ⟨rfl, rfl, rfl⟩

/-- C23 (witness): a stranger to `sharedDoc` asks to sign it and is refused with 403. -/
theorem C23_addSignature_failure_frame_witness :
    (sharedDb.findById exampleSign.documentId = none →
      signingController.addSignature sharedDb 4 exampleSign none none
        = (sharedDb, .error ⟨404, some "Document not found"⟩)) ∧
    (∀ doc, sharedDb.findById exampleSign.documentId = some doc →
      signingController.hasSigningAccess doc 4 = false →
      signingController.addSignature sharedDb 4 exampleSign none none
        = (sharedDb, .error ⟨403, some "No signing permission"⟩)) ∧
    (∀ e, (signingController.addSignature sharedDb 4 exampleSign none none).2 = .error e →
      e.status = 404 ∨ e.status = 403 →
      (signingController.addSignature sharedDb 4 exampleSign none none).1 = sharedDb ∧
      (signingController.addSignature sharedDb 4 exampleSign none none).1.signatures
        = sharedDb.signatures ∧
      (signingController.addSignature sharedDb 4 exampleSign none none).1.findById
          exampleSign.documentId
        = sharedDb.findById exampleSign.documentId) :=
  C23_addSignature_failure_frame sharedDb 4 exampleSign none none

/-- The document stored under the id after `addSignature`: the prior one, or the prior one
with one more signature reference and status `signed`. -/
theorem addSignature_stored (db : Db) (caller : ObjectId)
    (body : signingController.SignBody) (ip ua : Option String) (doc : Document)
    (hdoc : db.findById body.documentId = some doc) :
    (signingController.addSignature db caller body ip ua).1.findById body.documentId
        = some doc ∨
    ∃ sid, (signingController.addSignature db caller body ip ua).1.findById body.documentId
        = some { doc with signatures := doc.signatures ++ [sid], status := "signed" } := by
  cases hres : (signingController.addSignature db caller body ip ua).2 with
  | error e =>
    left
    have hd := addSignature_error_documents db caller body ip ua e hres
    unfold Db.findById at hdoc ⊢
    rw [hd]
    exact hdoc
  | ok sig =>
    right
    have hpair : signingController.addSignature db caller body ip ua
        = ((signingController.addSignature db caller body ip ua).1, .ok sig) :=
      Prod.ext rfl hres
    obtain ⟨doc1, hdoc1, hfind, _⟩ := addSignature_ok db _ caller body ip ua sig hpair
    rw [hdoc] at hdoc1
    cases hdoc1
    exact ⟨sig._id, hfind⟩

/-- The document stored under the id after `updateDocument`: the prior one, or the prior one
after the assignments of the handler. -/
theorem updateDocument_stored (db : Db) (caller id : ObjectId) (doc : Document)
    (body : documentController.UpdateBody) (hdoc : db.findById id = some doc) :
    (documentController.updateDocument db caller id body).1.findById id = some doc ∨
    (documentController.updateDocument db caller id body).1.findById id
      = some (documentController.applyUpdate doc (doc.getUserRole caller) body) := by
  rw [updateDocument_eq db caller id doc body hdoc]
  split
  · left; exact hdoc
  · split
    · right
      exact findById_replace_self db id doc _ hdoc (applyUpdate_id doc _ body)
    · left; exact hdoc

/-- The assignments of `updateDocument` touch neither the owner nor the signer assignment. -/
theorem applyUpdate_assignment (doc : Document) (role : Option String)
    (body : documentController.UpdateBody) :
    (documentController.applyUpdate doc role body).owner = doc.owner ∧
    (documentController.applyUpdate doc role body).signerUser = doc.signerUser ∧
    (documentController.applyUpdate doc role body).signerEmail = doc.signerEmail ∧
    (documentController.applyUpdate doc role body).signerName = doc.signerName := by
  unfold documentController.applyUpdate
  cases body.title <;> cases body.description <;> cases body.status <;> simp <;> split <;>
    exact ⟨rfl, rfl, rfl, rfl⟩

/-- C27: for a stored document, the document stored under its id after `updateDocument`,
`addCollaborator`, `shareDocument` or `addSignature`, by any caller with any input, has the
same owner, signerUser, signerEmail and signerName as before. -/
theorem C27_owner_and_signer_fixed [JsRuntime] (db : Db) (id : ObjectId) (doc : Document)
    (hdoc : db.findById id = some doc) :
    (∀ caller body doc1,
      (documentController.updateDocument db caller id body).1.findById id = some doc1 →
      doc1.owner = doc.owner ∧ doc1.signerUser = doc.signerUser ∧
      doc1.signerEmail = doc.signerEmail ∧ doc1.signerName = doc.signerName) ∧
    (∀ caller body doc1,
      (documentController.addCollaborator db caller id body).1.findById id = some doc1 →
      doc1.owner = doc.owner ∧ doc1.signerUser = doc.signerUser ∧
      doc1.signerEmail = doc.signerEmail ∧ doc1.signerName = doc.signerName) ∧
    (∀ caller body doc1,
      (documentController.shareDocument db caller id body).1.findById id = some doc1 →
      doc1.owner = doc.owner ∧ doc1.signerUser = doc.signerUser ∧
      doc1.signerEmail = doc.signerEmail ∧ doc1.signerName = doc.signerName) ∧
    (∀ caller data position ip ua doc1,
      (signingController.addSignature db caller ⟨id, data, position⟩ ip ua).1.findById id
        = some doc1 →
      doc1.owner = doc.owner ∧ doc1.signerUser = doc.signerUser ∧
      doc1.signerEmail = doc.signerEmail ∧ doc1.signerName = doc.signerName) := by
  refine ⟨?_, ?_, ?_, ?_⟩
  · intro caller body doc1 h
    rcases updateDocument_stored db caller id doc body hdoc with h1 | h1
    · rw [h1] at h
      cases h
      exact ⟨rfl, rfl, rfl, rfl⟩
    · rw [h1] at h
      cases h
      exact applyUpdate_assignment doc _ body
  · intro caller body doc1 h
    rcases addCollaborator_stored db caller id doc body hdoc doc1 (Or.inl h) with
      h1 | ⟨_, u, _, _, h1⟩
    · rw [h1]
      exact ⟨rfl, rfl, rfl, rfl⟩
    · rw [h1]
      exact ⟨rfl, rfl, rfl, rfl⟩
  · intro caller body doc1 h
    rcases shareDocument_stored db caller id doc body hdoc doc1 (Or.inl h) with
      h1 | ⟨_, emails, h1⟩
    · rw [h1]
      exact ⟨rfl, rfl, rfl, rfl⟩
    · rw [h1]
      exact ⟨rfl, rfl, rfl, rfl⟩
  · intro caller data position ip ua doc1 h
    rcases addSignature_stored db caller ⟨id, data, position⟩ ip ua doc hdoc with
      h1 | ⟨sid, h1⟩
    · have h2 : (signingController.addSignature db caller ⟨id, data, position⟩ ip ua).1.findById
          id = some doc := h1
      rw [h2] at h
      cases h
      exact ⟨rfl, rfl, rfl, rfl⟩
    · have h2 : (signingController.addSignature db caller ⟨id, data, position⟩ ip ua).1.findById
          id = some { doc with signatures := doc.signatures ++ [sid], status := "signed" } := h1
      rw [h2] at h
      cases h
      exact ⟨rfl, rfl, rfl, rfl⟩

/-- C27 (witness): the operations on `sharedDoc`. -/
theorem C27_owner_and_signer_fixed_witness :
    (∀ caller body doc1,
      (documentController.updateDocument sharedDb caller 10 body).1.findById 10 = some doc1 →
      doc1.owner = sharedDoc.owner ∧ doc1.signerUser = sharedDoc.signerUser ∧
      doc1.signerEmail = sharedDoc.signerEmail ∧ doc1.signerName = sharedDoc.signerName) ∧
    (∀ caller body doc1,
      (documentController.addCollaborator sharedDb caller 10 body).1.findById 10 = some doc1 →
      doc1.owner = sharedDoc.owner ∧ doc1.signerUser = sharedDoc.signerUser ∧
      doc1.signerEmail = sharedDoc.signerEmail ∧ doc1.signerName = sharedDoc.signerName) ∧
    (∀ caller body doc1,
      (documentController.shareDocument sharedDb caller 10 body).1.findById 10 = some doc1 →
      doc1.owner = sharedDoc.owner ∧ doc1.signerUser = sharedDoc.signerUser ∧
      doc1.signerEmail = sharedDoc.signerEmail ∧ doc1.signerName = sharedDoc.signerName) ∧
    (∀ caller data position ip ua doc1,
      (signingController.addSignature sharedDb caller ⟨10, data, position⟩ ip ua).1.findById 10
        = some doc1 →
      doc1.owner = sharedDoc.owner ∧ doc1.signerUser = sharedDoc.signerUser ∧
      doc1.signerEmail = sharedDoc.signerEmail ∧ doc1.signerName = sharedDoc.signerName) :=
  C27_owner_and_signer_fixed sharedDb 10 sharedDoc
    (by simp [Db.findById, sharedDb, sharedDoc, exampleDb, exampleDoc])

/-! ### The listings for signing -/

/-- The documents the query of `documentController.getDocumentsForSigning` selects. -/
theorem mem_forSigning_filter (db : Db) (U : ObjectId) (d : Document) :
    d ∈ db.documents.filter (fun d => d.signerUser == some U && d.owner != U) ↔
      d ∈ db.documents ∧ d.signerUser = some U ∧ d.owner ≠ U := by
  simp [List.mem_filter]

/-- A successful transformation yields one entry per document, in order, with the id, title
and filename of the document, the name and address of its owner, and the status with
`pending_signature` rendered as `pending`. -/
theorem toSigningEntries_ok (db : Db) (docs : List Document) :
    ∀ entries, documentController.toSigningEntries db docs = .ok entries →
      List.Forall₂ (fun (e : documentController.SigningEntry) (d : Document) =>
        e._id = d._id ∧ e.title = d.title ∧ e.filename = d.filename ∧
        e.status = (if d.status = "pending_signature" then "pending" else d.status) ∧
        ∃ o, db.populate d.owner = some o ∧ e.senderName = o.name ∧ e.senderEmail = o.email)
        entries docs := by
  induction docs with
  | nil =>
    intro entries h
    simp only [documentController.toSigningEntries, Except.ok.injEq] at h
    subst h
    exact List.Forall₂.nil
  | cons d rest ih =>
    intro entries h
    unfold documentController.toSigningEntries at h
    cases ho : db.populate d.owner with
    | none => simp [ho] at h
    | some o =>
      simp only [ho] at h
      cases hr : documentController.toSigningEntries db rest with
      | error e => simp [hr] at h
      | ok es =>
        simp only [hr, Except.ok.injEq] at h
        subst h
        refine List.Forall₂.cons ⟨rfl, rfl, rfl, ?_, o, ho, rfl, rfl⟩ (ih es hr)
        by_cases hs : d.status = "pending_signature" <;> simp [hs]

/-- The transformation succeeds when every owner reference resolves. -/
theorem toSigningEntries_total (db : Db) (docs : List Document)
    (h : ∀ d ∈ docs, (db.populate d.owner).isSome = true) :
    ∃ entries, documentController.toSigningEntries db docs = .ok entries := by
  induction docs with
  | nil => exact ⟨[], rfl⟩
  | cons d rest ih =>
    obtain ⟨o, ho⟩ := Option.isSome_iff_exists.mp (h d (List.mem_cons_self d rest))
    obtain ⟨es, hes⟩ := ih (fun x hx => h x (List.mem_cons_of_mem d hx))
    unfold documentController.toSigningEntries
    simp only [ho, hes]
    exact ⟨_, rfl⟩

/-- Entries related to documents carry the ids of the documents, in order. -/
theorem forall₂_ids (R : documentController.SigningEntry → Document → Prop)
    (hR : ∀ e d, R e d → e._id = d._id)
    (entries : List documentController.SigningEntry) (docs : List Document)
    (h : List.Forall₂ R entries docs) :
    entries.map (fun e => e._id) = docs.map (fun d => d._id) := by
  induction h with
  | nil => rfl
  | cons hr _ ih =>
    simp only [List.map_cons, ih, hR _ _ hr]

/-- C24: a response of `documentController.getDocumentsForSigning` for user `U` lists, by
id and in store order, exactly the stored documents whose signerUser is `U` and whose owner
is not `U`, so never a document owned by `U`; the response is given whenever the owners of
these documents resolve. -/
theorem C24_for_signing_listing (db : Db) (U : ObjectId) :
    (∀ entries, (documentController.getDocumentsForSigning db U).2 = .ok entries →
      entries.map (fun e => e._id)
        = (db.documents.filter (fun d => d.signerUser == some U && d.owner != U)).map
            (fun d => d._id) ∧
      (∀ e ∈ entries, ∃ d ∈ db.documents,
        d._id = e._id ∧ d.signerUser = some U ∧ d.owner ≠ U) ∧
      (∀ d ∈ db.documents, d.signerUser = some U → d.owner ≠ U →
        ∃ e ∈ entries, e._id = d._id)) ∧
    ((∀ d ∈ db.documents, (db.populate d.owner).isSome = true) →
      ∃ entries, (documentController.getDocumentsForSigning db U).2 = .ok entries) := by
  constructor
  · intro entries hok
    have hrel := toSigningEntries_ok db _ entries hok
    have hids := forall₂_ids _ (fun e d h => h.1) entries _ hrel
    refine ⟨hids, ?_, ?_⟩
    · intro e he
      have hmem : e._id ∈ entries.map (fun e => e._id) := List.mem_map_of_mem _ he
      rw [hids] at hmem
      obtain ⟨d, hd, hde⟩ := List.mem_map.mp hmem
      obtain ⟨h1, h2, h3⟩ := (mem_forSigning_filter db U d).mp hd
      exact ⟨d, h1, hde, h2, h3⟩
    · intro d hd hs ho
      have hmem : d._id ∈ (db.documents.filter
          (fun d => d.signerUser == some U && d.owner != U)).map (fun d => d._id) :=
        List.mem_map_of_mem _ ((mem_forSigning_filter db U d).mpr ⟨hd, hs, ho⟩)
      rw [← hids] at hmem
      obtain ⟨e, he, hed⟩ := List.mem_map.mp hmem
      exact ⟨e, he, hed⟩
  · intro hres
    exact toSigningEntries_total db _ (fun d hd =>
      hres d ((mem_forSigning_filter db U d).mp hd).1)

/-- C26: in a response of `documentController.getDocumentsForSigning` every listed document
whose stored status is `pending_signature` or `pending` is reported with status `pending`,
every other stored status is reported as it is, and the store, hence every stored status, is
left unchanged by the listing. -/
theorem C26_listing_status (db : Db) (U : ObjectId) :
    (∀ entries, (documentController.getDocumentsForSigning db U).2 = .ok entries →
      List.Forall₂ (fun (e : documentController.SigningEntry) (d : Document) =>
        e._id = d._id ∧
        (d.status = "pending_signature" ∨ d.status = "pending" → e.status = "pending") ∧
        (d.status ≠ "pending_signature" → e.status = d.status))
        entries (db.documents.filter (fun d => d.signerUser == some U && d.owner != U))) ∧
    (documentController.getDocumentsForSigning db U).1 = db ∧
    ((∀ d ∈ db.documents, (db.populate d.owner).isSome = true) →
      ∃ entries, (documentController.getDocumentsForSigning db U).2 = .ok entries) := by
  refine ⟨?_, rfl, ?_⟩
  · intro entries hok
    have hrel := toSigningEntries_ok db _ entries hok
    refine List.Forall₂.imp ?_ hrel
    intro e d h
    obtain ⟨hid, _, _, hst, _⟩ := h
    refine ⟨hid, ?_, ?_⟩
    · intro hs
      rcases hs with hs | hs
      · rw [hst, if_pos hs]
      · rw [hst, hs]
        simp
    · intro hs
      rw [hst, if_neg hs]
  · intro hres
    exact toSigningEntries_total db _ (fun d hd =>
      hres d ((mem_forSigning_filter db U d).mp hd).1)

/-- C25 (counterexample): account 3 is the designated signer and a `sign` collaborator of a
document of account 1.  After 3 has signed it (201), the store holds a signature by 3 on the
document, and `documentController.getDocumentsForSigning` for 3 still lists the document,
with status `signed`. -/
theorem C25_counterexample :
    (∃ sig, (signingController.addSignature (exampleDb signerCollabDoc) 3 exampleSign
        none none).2 = .ok sig ∧ sig.signer = 3 ∧ sig.document = 10) ∧
    ((signingController.addSignature (exampleDb signerCollabDoc) 3 exampleSign
        none none).1.findById 10).map (fun d => d.signatures) = some [100] ∧
    ((signingController.addSignature (exampleDb signerCollabDoc) 3 exampleSign
        none none).1.signatures.map (fun sig => (sig._id, sig.signer))) = [(100, 3)] ∧
    (documentController.getDocumentsForSigning
        (signingController.addSignature (exampleDb signerCollabDoc) 3 exampleSign none none).1
        3).2
      = .ok [⟨10, "Contract", "f.pdf", "Olga", "olga@x.com", "signed"⟩] := by
  refine ⟨⟨⟨100, 10, 3, "data:image/png;base64,AAAA", none, none, none, true⟩, ?_, rfl, rfl⟩,
    ?_, ?_, ?_⟩ <;> rfl

/-- The signatures the listing of the signing controller looks at are the records the
references of the document resolve to. -/
theorem mem_populateSignatures (db : Db) (doc : Document) (sig : Signature) :
    sig ∈ signingController.populateSignatures db doc ↔
      ∃ sid ∈ doc.signatures, db.signatures.find? (fun s => s._id == sid) = some sig := by
  simp [signingController.populateSignatures, List.mem_filterMap]

/-- C25 (amended): `signingController.getDocumentsForSigning` for user `U` contains no
document carrying a (resolving) signature whose signer is `U`, whereas
`documentController.getDocumentsForSigning` applies no filter on signatures: its response
lists every stored document whose signerUser is `U` and whose owner is not `U`, signed by
`U` or not. -/
theorem C25_signed_documents_in_listings (db : Db) (U : ObjectId) :
    (∀ l, (signingController.getDocumentsForSigning db U).2 = .ok l →
      ∀ d ∈ l, ∀ sid ∈ d.signatures, ∀ sig,
        db.signatures.find? (fun s => s._id == sid) = some sig → sig.signer ≠ U) ∧
    (∀ entries, (documentController.getDocumentsForSigning db U).2 = .ok entries →
      ∀ d ∈ db.documents, d.signerUser = some U → d.owner ≠ U →
        ∃ e ∈ entries, e._id = d._id) := by
  constructor
  · intro l hl d hd sid hsid sig hsig hsigner
    simp only [signingController.getDocumentsForSigning, Except.ok.injEq] at hl
    subst hl
    have hfil := (List.mem_filter.mp hd).2
    have hin : sig ∈ signingController.populateSignatures db d :=
      (mem_populateSignatures db d sig).mpr ⟨sid, hsid, hsig⟩
    have hany : (signingController.populateSignatures db d).any (fun sig => sig.signer == U)
        = true := List.any_eq_true.mpr ⟨sig, hin, by simpa using hsigner⟩
    rw [hany] at hfil
    cases hfil
  · intro entries hok d hd hs ho
    have hrel := toSigningEntries_ok db _ entries hok
    have hids := forall₂_ids _ (fun e d h => h.1) entries _ hrel
    have hmem : d._id ∈ (db.documents.filter
        (fun d => d.signerUser == some U && d.owner != U)).map (fun d => d._id) :=
      List.mem_map_of_mem _ ((mem_forSigning_filter db U d).mpr ⟨hd, hs, ho⟩)
    rw [← hids] at hmem
    obtain ⟨e, he, hed⟩ := List.mem_map.mp hmem
    exact ⟨e, he, hed⟩

/-- C28: a response of `signingController.getDocumentsForSigning` contains only documents
whose status is `pending`, `review` or `uploaded`, so no document with status
`pending_signature` (the status `uploadDocument` assigns) for any user; of the statuses the
schema allows, only `pending` passes this filter. -/
theorem C28_signing_listing_status [JsRuntime] (db : Db) (U : ObjectId) :
    (∀ l, (signingController.getDocumentsForSigning db U).2 = .ok l →
      ∀ d ∈ l, d.status ∈ ["pending", "review", "uploaded"] ∧ d.status ≠ "pending_signature") ∧
    (∀ l d, (signingController.getDocumentsForSigning db U).2 = .ok l →
      d.status = "pending_signature" → d ∉ l) ∧
    (∀ reqFile body uploader db0 db1 doc,
      documentController.uploadDocument db0 uploader reqFile body = (db1, .ok doc) →
      ∀ l, (signingController.getDocumentsForSigning db U).2 = .ok l → doc ∉ l) ∧
    statusEnum.filter (fun s => ["pending", "review", "uploaded"].contains s) = ["pending"] := by
  have hmain : ∀ l, (signingController.getDocumentsForSigning db U).2 = .ok l →
      ∀ d ∈ l, d.status ∈ ["pending", "review", "uploaded"] ∧ d.status ≠ "pending_signature" := by
    intro l hl d hd
    simp only [signingController.getDocumentsForSigning, Except.ok.injEq] at hl
    subst hl
    have h1 := (List.mem_filter.mp (List.mem_filter.mp hd).1).2
    simp only [Bool.and_eq_true] at h1
    have h2 : d.status ∈ ["pending", "review", "uploaded"] := by simpa using h1.2
    refine ⟨h2, ?_⟩
    intro hs
    rw [hs] at h2
    simp at h2
  refine ⟨hmain, ?_, ?_, by decide⟩
  · intro l d hl hs hd
    exact (hmain l hl d hd).2 hs
  · intro reqFile body uploader db0 db1 doc hup l hl hd
    obtain ⟨f, name, email, S, _, _, _, _, _, _, hcr⟩ :=
      uploadDocument_ok db0 db1 uploader reqFile body doc hup
    obtain ⟨_, _, _, hst, _, _⟩ :=
      createDocument_some db0 db1 uploader f _ _ name email S._id doc hcr
    exact (hmain l hl doc hd).2 hst

/-! ### `getUserRole` on loaded documents and `getSharedDocuments` -/

/-- On stored (unpopulated) collaborator entries the search is `collaborators.find`. -/
theorem findCollaborator_stored (U : ObjectId) (cs : List Collaborator) :
    LoadedRefs.findCollaborator U (cs.map (fun c => (UserRef.id c.user, c.permission)))
      = .ok ((cs.find? (fun collab => collab.user == U)).map (fun c => c.permission)) := by
  induction cs with
  | nil => rfl
  | cons c rest ih =>
    cases hb : (c.user == U) with
    | true =>
      simp only [List.map_cons, LoadedRefs.findCollaborator, UserRef.toStringEq, hb,
        List.find?_cons, Option.map_some']
    | false =>
      simp only [List.map_cons, LoadedRefs.findCollaborator, UserRef.toStringEq, hb,
        List.find?_cons, ih]

/-- The comparison on an unpopulated reference is equality of ids. -/
theorem toStringEq_id (ref U : ObjectId) : (UserRef.id ref).toStringEq U = some (ref == U) :=
  rfl

/-- The signer test of `getUserRole` on a stored document. -/
theorem signer_test_stored (signer : Option ObjectId) (U : ObjectId) :
    (UserRef.truthy (signer.map UserRef.id)
      && ((signer.map UserRef.id).bind (fun r => r.toStringEq U)) == some true)
      = (signer.isSome && signer == some U) := by
  cases signer with
  | none => rfl
  | some s =>
    cases hsb : (s == U) with
    | true =>
      have hsu : s = U := by simpa using hsb
      simp [UserRef.truthy, toStringEq_id, hsu]
    | false =>
      have hsu : ¬ s = U := by simpa using hsb
      simp [UserRef.truthy, toStringEq_id, hsu]

/-- On a document as stored, the method on loaded documents is `Document.getUserRole`. -/
theorem getUserRole_stored (doc : Document) (U : ObjectId) :
    doc.storedRefs.getUserRole U = .ok (doc.getUserRole U) := by
  unfold LoadedRefs.getUserRole Document.getUserRole Document.storedRefs
  simp only [toStringEq_id, findCollaborator_stored, signer_test_stored]
  cases hb : (doc.owner == U) with
  | true => simp
  | false =>
    simp only [Bool.false_eq_true, if_false]
    cases hc : (doc.signerUser.isSome && doc.signerUser == some U) with
    | true => simp
    | false =>
      simp only [Bool.false_eq_true, if_false]
      cases doc.collaborators.find? (fun collab => collab.user == U) <;> rfl

/-- The comparison on a populated, resolved reference is always false. -/
theorem toStringEq_populated_some (u : User) (U : ObjectId) :
    (UserRef.populated (some u)).toStringEq U = some false :=
  rfl

/-- The comparison on a populated, unresolved reference throws. -/
theorem toStringEq_populated_none (U : ObjectId) :
    (UserRef.populated none).toStringEq U = none :=
  rfl

/-- On populated collaborator entries the search never matches: it finds nothing, or
throws at an unresolved account. -/
theorem findCollaborator_populated (db : Db) (U : ObjectId) (cs : List Collaborator)
    (r : Option String)
    (h : LoadedRefs.findCollaborator U
      (cs.map (fun c => (UserRef.populated (db.populate c.user), c.permission))) = .ok r) :
    r = none := by
  induction cs with
  | nil =>
    simp only [List.map_nil, LoadedRefs.findCollaborator, Except.ok.injEq] at h
    exact h.symm
  | cons c rest ih =>
    simp only [List.map_cons, LoadedRefs.findCollaborator] at h
    cases hp : db.populate c.user with
    | none => simp [hp, toStringEq_populated_none] at h
    | some u =>
      simp only [hp, toStringEq_populated_some] at h
      exact ih h

/-- The signer test of `getUserRole` fails on a populated document. -/
theorem signer_test_populated (db : Db) (signer : Option ObjectId) (U : ObjectId) :
    (UserRef.truthy (signer.map (fun s => UserRef.populated (db.populate s)))
      && ((signer.map (fun s => UserRef.populated (db.populate s))).bind
        (fun r => r.toStringEq U)) == some true) = false := by
  cases signer with
  | none => rfl
  | some s =>
    cases hps : db.populate s with
    | none => simp [UserRef.truthy, hps]
    | some u => simp [UserRef.truthy, hps, toStringEq_populated_some]

/-- On a populated document `getUserRole` never recognises anybody: it returns `null`, or
throws at an unresolved reference. -/
theorem getUserRole_populated (db : Db) (doc : Document) (U : ObjectId) (r : Option String)
    (h : (db.populatedRefs doc).getUserRole U = .ok r) : r = none := by
  unfold LoadedRefs.getUserRole Db.populatedRefs at h
  cases ho : db.populate doc.owner with
  | none => simp [ho, toStringEq_populated_none] at h
  | some o =>
    simp only [ho, toStringEq_populated_some, signer_test_populated, Bool.false_eq_true,
      if_false] at h
    exact findCollaborator_populated db U doc.collaborators r h

/-- Every `userRole` in a response of `getSharedDocuments` is `null`. -/
theorem getSharedDocuments_userRole (db : Db) (U : ObjectId)
    (l : List (Document × Option String))
    (h : (documentController.getSharedDocuments db U).2 = .ok l) :
    ∀ p ∈ l, p.2 = none := by
  simp only [documentController.getSharedDocuments] at h
  generalize db.documents.filter (fun d => (d.collaborators.any (fun c => c.user == U)
    || d.signerUser == some U) && d.owner != U) = docs at h
  induction docs generalizing l with
  | nil =>
    simp only [documentController.withUserRole, Except.ok.injEq] at h
    subst h
    intro p hp
    cases hp
  | cons d rest ih =>
    unfold documentController.withUserRole at h
    cases hr : (db.populatedRefs d).getUserRole U with
    | error e => simp [hr] at h
    | ok role =>
      simp only [hr] at h
      cases hrest : documentController.withUserRole db U rest with
      | error e => simp [hrest] at h
      | ok l1 =>
        simp only [hrest, Except.ok.injEq] at h
        subst h
        intro p hp
        rcases List.mem_cons.mp hp with hp | hp
        · rw [hp]
          exact getUserRole_populated db d U role hr
        · exact ih l1 hrest p hp

/-- C29 (the code at the failing input): on a store whose one document is owned by account
1, assigned to the signer 2 and shared with the `view` collaborator 3, `getSharedDocuments`
returns the document to 2 and to 3 with `userRole` `null`, although `getUserRole` on the
stored document gives `signer` for 2 and `view` for 3. -/
theorem C29_shared_userRole_is_null :
    documentController.getSharedDocuments
        (exampleDb (exampleDoc (some 2) [⟨3, "view"⟩] "pending_signature")) 2
      = (exampleDb (exampleDoc (some 2) [⟨3, "view"⟩] "pending_signature"),
          .ok [(exampleDoc (some 2) [⟨3, "view"⟩] "pending_signature", none)]) ∧
    (exampleDoc (some 2) [⟨3, "view"⟩] "pending_signature").getUserRole 2 = some "signer" ∧
    documentController.getSharedDocuments
        (exampleDb (exampleDoc (some 2) [⟨3, "view"⟩] "pending_signature")) 3
      = (exampleDb (exampleDoc (some 2) [⟨3, "view"⟩] "pending_signature"),
          .ok [(exampleDoc (some 2) [⟨3, "view"⟩] "pending_signature", none)]) ∧
    (exampleDoc (some 2) [⟨3, "view"⟩] "pending_signature").getUserRole 3 = some "view" := by
  refine ⟨?_, ?_, ?_, ?_⟩ <;> rfl

/-! ### The signer-email format check -/

/-- A list is cut at two positions holding given elements. -/
theorem split_at_positions (cs : List Char) (i j : Nat) (x y : Char)
    (hi : cs[i]? = some x) (hj : cs[j]? = some y) (hij : i < j) :
    cs = cs.take i ++ x :: ((cs.take j).drop (i + 1) ++ y :: cs.drop (j + 1)) := by
  obtain ⟨hjl, hjv⟩ := List.getElem?_eq_some.mp hj
  have h2 : cs.drop j = y :: cs.drop (j + 1) := by
    rw [List.drop_eq_getElem_cons hjl, hjv]
  have hti : (cs.take j)[i]? = some x := by
    rw [List.getElem?_take, if_pos hij, hi]
  obtain ⟨hil, hiv⟩ := List.getElem?_eq_some.mp hti
  have h3 : (cs.take j).drop i = x :: (cs.take j).drop (i + 1) := by
    rw [List.drop_eq_getElem_cons hil, hiv]
  have h4 : (cs.take j).take i = cs.take i := by
    rw [List.take_take, Nat.min_eq_left (Nat.le_of_lt hij)]
  have h5 : cs.take j = cs.take i ++ x :: (cs.take j).drop (i + 1) := by
    rw [← h4, ← h3, List.take_append_drop]
  calc cs = cs.take j ++ cs.drop j := (List.take_append_drop j cs).symm
    _ = (cs.take i ++ x :: (cs.take j).drop (i + 1)) ++ y :: cs.drop (j + 1) := by
        rw [h2, ← h5]
    _ = cs.take i ++ x :: ((cs.take j).drop (i + 1) ++ y :: cs.drop (j + 1)) := by
        simp

/-- The regular expression test succeeds exactly on the strings of the matching shape. -/
theorem emailRegexTest_iff_split (s : String) :
    documentController.emailRegexTest s = true ↔ emailSplit s.data := by
  unfold documentController.emailRegexTest emailSplit
  constructor
  · intro h
    obtain ⟨i, _, h⟩ := List.any_eq_true.mp h
    obtain ⟨j, _, h⟩ := List.any_eq_true.mp h
    simp only [Bool.and_eq_true, beq_iff_eq, decide_eq_true_eq, List.get?_eq_getElem?] at h
    obtain ⟨⟨⟨⟨⟨⟨⟨hi, hj⟩, hi0⟩, hij⟩, hjn⟩, ha⟩, hb⟩, hc⟩ := h
    have hlt : i < j := by omega
    refine ⟨s.data.take i, (s.data.take j).drop (i + 1), s.data.drop (j + 1),
      split_at_positions s.data i j '@' '.' hi hj hlt, ?_, ?_, ?_, ha, hb, hc⟩
    · intro hnil
      have := congrArg List.length hnil
      simp only [List.length_take, List.length_nil] at this
      omega
    · intro hnil
      have := congrArg List.length hnil
      simp only [List.length_drop, List.length_take, List.length_nil] at this
      omega
    · intro hnil
      have := congrArg List.length hnil
      simp only [List.length_drop, List.length_nil] at this
      omega
  · intro h
    obtain ⟨a, b, c, hcs, ha0, hb0, hc0, ha, hb, hc⟩ := h
    have hal : 0 < a.length := List.length_pos.mpr ha0
    have hbl : 0 < b.length := List.length_pos.mpr hb0
    have hcl : 0 < c.length := List.length_pos.mpr hc0
    have hlen : s.data.length = a.length + 1 + (b.length + 1 + c.length) := by
      rw [hcs]
      simp only [List.length_append, List.length_cons]
      omega
    have hcs2 : s.data = (a ++ '@' :: b) ++ '.' :: c := by
      rw [hcs]
      simp
    have hl2 : (a ++ '@' :: b).length = a.length + 1 + b.length := by
      simp only [List.length_append, List.length_cons]
      omega
    refine List.any_eq_true.mpr ⟨a.length, List.mem_range.mpr (by omega), ?_⟩
    refine List.any_eq_true.mpr ⟨a.length + 1 + b.length, List.mem_range.mpr (by omega), ?_⟩
    simp only [Bool.and_eq_true, beq_iff_eq, decide_eq_true_eq, List.get?_eq_getElem?]
    refine ⟨⟨⟨⟨⟨⟨⟨?_, ?_⟩, hal⟩, by omega⟩, by omega⟩, ?_⟩, ?_⟩, ?_⟩
    · rw [hcs, List.getElem?_append_right (Nat.le_refl _), Nat.sub_self]
      simp
    · rw [hcs2, ← hl2, List.getElem?_append_right (Nat.le_refl _), Nat.sub_self]
      simp
    · rw [hcs, List.take_left]
      exact ha
    · have h1 : s.data.take (a.length + 1 + b.length) = a ++ '@' :: b := by
        rw [hcs2, ← hl2, List.take_left]
      have h2 : (a ++ '@' :: b).drop (a.length + 1) = b := by
        have : a ++ '@' :: b = (a ++ ['@']) ++ b := by simp
        rw [this]
        have hl : (a ++ ['@']).length = a.length + 1 := by simp
        rw [← hl, List.drop_left]
      rw [h1, h2]
      exact hb
    · have h1 : s.data.drop (a.length + 1 + b.length + 1) = c := by
        have : s.data = ((a ++ '@' :: b) ++ ['.']) ++ c := by
          rw [hcs2]
          simp
        rw [this]
        have hl : ((a ++ '@' :: b) ++ ['.']).length = a.length + 1 + b.length + 1 := by
          simp only [List.length_append, List.length_cons, List.length_nil]
          omega
        rw [← hl, List.drop_left]
      rw [h1]
      exact hc

/-- Membership in the class `[^\s@]`. -/
theorem emailClass_iff (c : Char) :
    documentController.emailClass c = true ↔ jsIsWhiteSpace c = false ∧ c ≠ '@' := by
  simp [documentController.emailClass]

/-- The specification's wording of the format, as a proposition. -/
theorem emailFormatSpec_iff (s : String) :
    emailFormatSpec s = true ↔
      (∀ c ∈ s.data, jsIsWhiteSpace c = false) ∧ s.data.count '@' = 1 ∧
      0 < (s.data.takeWhile (fun c => c != '@')).length ∧
      '.' ∈ ((emailDomain s).drop 1).dropLast := by
  simp only [emailFormatSpec, Bool.and_eq_true, List.all_eq_true, Bool.not_eq_true',
    beq_iff_eq, gt_iff_lt, decide_eq_true_eq, List.contains, List.elem_eq_mem]
  constructor
  · rintro ⟨⟨⟨h1, h2⟩, h3⟩, h4⟩
    exact ⟨h1, h2, h3, h4⟩
  · rintro ⟨h1, h2, h3, h4⟩
    exact ⟨⟨⟨h1, h2⟩, h3⟩, h4⟩

/-- A string of the matching shape satisfies the specification's wording. -/
theorem emailFormatSpec_of_split (s : String) (h : emailSplit s.data) :
    emailFormatSpec s = true := by
  obtain ⟨a, b, c, hcs, ha0, hb0, hc0, ha, hb, hc⟩ := h
  rw [List.all_eq_true] at ha hb hc
  have hpa : ∀ x ∈ a, (fun c : Char => c != '@') x = true := by
    intro x hx
    have := ((emailClass_iff x).mp (ha x hx)).2
    simpa using this
  have hnot : ∀ l : List Char, (∀ x ∈ l, documentController.emailClass x = true) →
      '@' ∉ l := by
    intro l hl hmem
    exact ((emailClass_iff '@').mp (hl '@' hmem)).2 rfl
  have htake : s.data.takeWhile (fun c => c != '@') = a := by
    rw [hcs, List.takeWhile_append_of_pos hpa]
    simp
  have hdrop : s.data.dropWhile (fun c => c != '@') = '@' :: (b ++ '.' :: c) := by
    rw [hcs, List.dropWhile_append_of_pos hpa]
    simp
  rw [emailFormatSpec_iff]
  refine ⟨?_, ?_, ?_, ?_⟩
  · intro x hx
    rw [hcs] at hx
    simp only [List.mem_append, List.mem_cons] at hx
    rcases hx with hx | hx | hx | hx | hx
    · exact ((emailClass_iff x).mp (ha x hx)).1
    · rw [hx]; decide
    · exact ((emailClass_iff x).mp (hb x hx)).1
    · rw [hx]; decide
    · exact ((emailClass_iff x).mp (hc x hx)).1
  · rw [hcs]
    have h1 : a.count '@' = 0 := List.count_eq_zero.mpr (hnot a ha)
    have h2 : b.count '@' = 0 := List.count_eq_zero.mpr (hnot b hb)
    have h3 : c.count '@' = 0 := List.count_eq_zero.mpr (hnot c hc)
    simp only [List.count_append, List.count_cons, h1, h2, h3]
    decide
  · rw [htake]
    exact List.length_pos.mpr ha0
  · unfold emailDomain
    rw [hdrop]
    obtain ⟨b0, b1, hb1⟩ := List.exists_cons_of_ne_nil hb0
    subst hb1
    simp only [List.drop_succ_cons, List.drop_zero, List.cons_append]
    rw [List.dropLast_append_of_ne_nil b1 (List.cons_ne_nil '.' c),
      List.dropLast_cons_of_ne_nil hc0]
    simp

/-- A string satisfying the specification's wording has the matching shape. -/
theorem split_of_emailFormatSpec (s : String) (h : emailFormatSpec s = true) :
    emailSplit s.data := by
  obtain ⟨hws, hcount, htake, hdot⟩ := (emailFormatSpec_iff s).mp h
  have hsplit := List.takeWhile_append_dropWhile (fun c : Char => c != '@') s.data
  have hpa : ∀ x ∈ s.data.takeWhile (fun c => c != '@'), x ≠ '@' := by
    intro x hx
    have := List.mem_takeWhile_imp hx
    simpa using this
  have hca : (s.data.takeWhile (fun c => c != '@')).count '@' = 0 :=
    List.count_eq_zero.mpr (fun hmem => hpa '@' hmem rfl)
  have hne : s.data.dropWhile (fun c => c != '@') ≠ [] := by
    intro hnil
    rw [← hsplit, hnil, List.append_nil, hca] at hcount
    cases hcount
  obtain ⟨y, dom, hdw⟩ := List.exists_cons_of_ne_nil hne
  have hy : y = '@' := by
    have := List.head_dropWhile_not (fun c : Char => c != '@') s.data hne
    simp only [hdw, List.head_cons] at this
    simpa using this
  subst hy
  have hcd : dom.count '@' = 0 := by
    rw [← hsplit, hdw, List.count_append, hca, List.count_cons] at hcount
    simp only [beq_self_eq_true, if_true] at hcount
    omega
  have hnd : '@' ∉ dom := List.count_eq_zero.mp hcd
  have hdomain : emailDomain s = dom := by
    unfold emailDomain
    rw [hdw]
    rfl
  rw [hdomain] at hdot
  cases dom with
  | nil => simp at hdot
  | cons x t =>
    simp only [List.drop_succ_cons, List.drop_zero] at hdot
    have ht : t ≠ [] := by
      intro hnil
      rw [hnil] at hdot
      simp at hdot
    obtain ⟨b1, c1, hbc⟩ := List.append_of_mem hdot
    obtain ⟨last, hlast⟩ : ∃ last, t = t.dropLast ++ [last] :=
      ⟨t.getLast ht, (List.dropLast_append_getLast ht).symm⟩
    have hxt : x :: t = (x :: b1) ++ '.' :: (c1 ++ [last]) := by
      calc x :: t = x :: (t.dropLast ++ [last]) := congrArg (fun l => x :: l) hlast
        _ = x :: ((b1 ++ '.' :: c1) ++ [last]) := by rw [hbc]
        _ = (x :: b1) ++ '.' :: (c1 ++ [last]) := by simp
    have hdata : s.data = s.data.takeWhile (fun c => c != '@')
        ++ '@' :: ((x :: b1) ++ '.' :: (c1 ++ [last])) := by
      have h1 := hsplit.symm
      rw [hdw, hxt] at h1
      exact h1
    have hcls : ∀ l : List Char, (∀ z ∈ l, z ∈ s.data) → (∀ z ∈ l, z ≠ '@') →
        l.all documentController.emailClass = true := by
      intro l hl1 hl2
      rw [List.all_eq_true]
      intro z hz
      exact (emailClass_iff z).mpr ⟨hws z (hl1 z hz), hl2 z hz⟩
    have hsub : ∀ z, z ∈ x :: t → z ∈ s.data := by
      intro z hz
      have h1 : z ∈ s.data.takeWhile (fun c => c != '@')
          ++ s.data.dropWhile (fun c => c != '@') := by
        rw [hdw]
        exact List.mem_append_right _ (List.mem_cons_of_mem _ hz)
      rw [hsplit] at h1
      exact h1
    have hb1 : ∀ z, z ∈ x :: b1 → z ∈ x :: t := by
      intro z hz
      rw [hxt]
      exact List.mem_append_left _ hz
    have hc1 : ∀ z, z ∈ c1 ++ [last] → z ∈ x :: t := by
      intro z hz
      rw [hxt]
      exact List.mem_append_right _ (List.mem_cons_of_mem _ hz)
    refine ⟨_, x :: b1, c1 ++ [last], hdata, List.length_pos.mp htake,
      List.cons_ne_nil _ _, by simp, ?_, ?_, ?_⟩
    · refine hcls _ (fun z hz => ?_) hpa
      have h1 : z ∈ s.data.takeWhile (fun c => c != '@')
          ++ s.data.dropWhile (fun c => c != '@') := List.mem_append_left _ hz
      rw [hsplit] at h1
      exact h1
    · exact hcls _ (fun z hz => hsub z (hb1 z hz))
        (fun z hz hzat => hnd (hzat ▸ hb1 z hz))
    · exact hcls _ (fun z hz => hsub z (hc1 z hz))
        (fun z hz hzat => hnd (hzat ▸ hc1 z hz))

/-- The format check accepts exactly the strings the specification describes. -/
theorem emailRegexTest_eq_spec (s : String) :
    documentController.emailRegexTest s = emailFormatSpec s := by
  cases h1 : documentController.emailRegexTest s with
  | true =>
    exact (emailFormatSpec_of_split s ((emailRegexTest_iff_split s).mp h1)).symm
  | false =>
    cases h2 : emailFormatSpec s with
    | false => rfl
    | true =>
      have := (emailRegexTest_iff_split s).mpr (split_of_emailFormatSpec s h2)
      rw [h1] at this
      cases this

/-- C30 (counterexample): the empty string does not have the described format, yet an upload
naming it as signer email is not rejected with "Invalid signer email format": the guard on
missing signer fields answers first, with "Signer name and email are required". -/
theorem C30_counterexample :
    emailFormatSpec "" = false ∧
    documentController.uploadDocument emptyDb 1 (some exampleFile)
        (exampleUpload (some "Sam") (some ""))
      = (emptyDb, .error ⟨400, some "Signer name and email are required"⟩) ∧
    (⟨400, some "Signer name and email are required"⟩ : HttpError)
      ≠ ⟨400, some "Invalid signer email format"⟩ := by
  refine ⟨by decide, by rfl, by decide⟩

/-- C30 (amended): the format check of `uploadDocument` accepts a string exactly when it
contains no whitespace, exactly one `@`, a non-empty part before the `@`, and after the `@`
a part containing a `.` that is neither its first nor its last character.  For an upload
with a file and a signer name, every other non-empty string is rejected with 400 "Invalid
signer email format" whatever the registered accounts are, the store being unchanged; the
empty string is rejected before the check with "Signer name and email are required". -/
theorem C30_email_format_check [JsRuntime] :
    (∀ s, documentController.emailRegexTest s = emailFormatSpec s) ∧
    (∀ db uploader file body name s, body.signerName = some name → name ≠ "" →
      body.signerEmail = some s → s ≠ "" → emailFormatSpec s = false →
      documentController.uploadDocument db uploader (some file) body
        = (db, .error ⟨400, some "Invalid signer email format"⟩)) ∧
    (∀ db uploader file body, body.signerEmail = some "" →
      documentController.uploadDocument db uploader (some file) body
        = (db, .error ⟨400, some "Signer name and email are required"⟩)) := by
  refine ⟨emailRegexTest_eq_spec, ?_, ?_⟩
  · intro db uploader file body name s hname hne hemail hse hspec
    have hguard : (!truthy (some name) || !truthy (some s)) = false := by
      simp [truthy, hne, hse]
    have hre : documentController.emailRegexTest s = false := by
      rw [emailRegexTest_eq_spec, hspec]
    unfold documentController.uploadDocument
    simp only [hname, hemail, hguard, Bool.false_eq_true, if_false, Option.getD_some, hre,
      Bool.not_false, if_true]
  · intro db uploader file body hemail
    unfold documentController.uploadDocument
    simp [hemail, truthy]
